import Mathlib

/-!
# mockclient: the string-typed JSON codec of `User` and `Product`

A shallow embedding of `client.go`, `users.go` and `products.go` (package
`mockclient`).

Modelling boundary.  `encoding/json` is used by the program as a library; it is
modelled at the level of JSON *values*: `MarshalJSON` yields the member list of
the JSON object that `json.Marshal(temp)` serialises, and `UnmarshalJSON`
consumes the member list of the JSON object found in `data`.  A string field
of a record is a `GoString`, a sequence of bytes that need not be valid UTF-8;
the text of a JSON string, always valid Unicode once decoded, is a `String`:
encoding writes a field through `appendString`, which replaces every byte that
is not part of a valid UTF-8 sequence by U+FFFD, and decoding stores the UTF-8
bytes of the text.  Go `int` is the 64-bit signed range inside `Int`, and
`float64` is modelled by its IEEE-754 fields, with `strconv.ParseFloat` and the
`%f` verb computed exactly.  The outside of the program is a `World`: which
URL texts `http.NewRequest` fails to parse and what the network answers to a
request; a response body comes with what the JSON scanner finds in it, and the
body of a request is the JSON object written in it.
-/

namespace MockClient

set_option exponentiation.threshold 4096
set_option maxRecDepth 100000

/-! ## JSON values and errors -/

/-- The JSON value of an object member as `encoding/json` sees it when the
target field is a Go string: a JSON string carries its decoded text, a number,
an array and a nested object keep their raw text. -/
inductive JVal where
  | null : JVal
  | bool (b : Bool) : JVal
  | num (lit : String) : JVal
  | str (s : String) : JVal
  | arr (raw : String) : JVal
  | obj (raw : String) : JVal
  deriving DecidableEq

/-- The members of a JSON object, in the order they appear in the text. -/
abbrev Members := List (String × JVal)

/-- The word `encoding/json` uses for the kind of a non-string value in an
`UnmarshalTypeError`. -/
def JVal.kind : JVal → String
  | .null => "null"
  | .bool _ => "bool"
  | .num _ => "number"
  | .str _ => "string"
  | .arr _ => "array"
  | .obj _ => "object"

/-- The `error` values the package can return. -/
inductive GoErr where
  /-- A value built by `fmt.Errorf`, carrying its message. -/
  | errorf (msg : String) : GoErr
  /-- A `*json.UnmarshalTypeError`: a JSON value of kind `value` met the
  string-typed struct field `field`. -/
  | typeErr (value : String) (field : String) : GoErr
  /-- A `*json.UnmarshalTypeError` outside a struct field: a JSON value of kind
  `value` met a Go value of type `goType`. -/
  | valueErr (value : String) (goType : String) : GoErr
  /-- An error made by a library (`net/url`, `net/http`, `io`, the JSON
  scanner), carrying the message the library chose. -/
  | lib (msg : String) : GoErr
  deriving DecidableEq

/-- The text of `err.Error()`. -/
def GoErr.Error : GoErr → String
  | .errorf msg => msg
  | .typeErr value field =>
    "json: cannot unmarshal " ++ value ++ " into Go struct field ." ++ field ++ " of type string"
  | .valueErr value goType =>
    "json: cannot unmarshal " ++ value ++ " into Go value of type " ++ goType
  | .lib msg => msg

/-! ## strconv.Atoi and strconv.Itoa (64-bit `int`) -/

/-- Smallest value of a 64-bit `int`. -/
def minInt : Int := -9223372036854775808

/-- Largest value of a 64-bit `int`. -/
def maxInt : Int := 9223372036854775807

/-- The values a Go `int` can hold. -/
def IsGoInt (v : Int) : Prop := minInt ≤ v ∧ v ≤ maxInt

instance (v : Int) : Decidable (IsGoInt v) := by unfold IsGoInt; infer_instance

/-- An ASCII decimal digit. -/
def isDigit (c : Char) : Bool := 48 ≤ c.toNat && c.toNat ≤ 57

/-- The value of an ASCII decimal digit. -/
def digitVal (c : Char) : Nat := c.toNat - 48

/-- The ASCII character of a decimal digit. -/
def digitChar (d : Nat) : Char := Char.ofNat (48 + d % 10)

/-- Read a run of decimal digits left to right, `acc` being the value so far;
`none` as soon as a character is not a digit. -/
def parseDigitsAux : List Char → Nat → Option Nat
  | [], acc => some acc
  | c :: cs, acc => if isDigit c then parseDigitsAux cs (acc * 10 + digitVal c) else none

/-- A non-empty run of decimal digits and its value. -/
def parseDigits (cs : List Char) : Option Nat :=
  match cs with
  | [] => none
  | _ :: _ => parseDigitsAux cs 0

/-- Model of `strconv.Atoi` on a 64-bit platform: an optional `+` or `-`, then
one or more decimal digits, the value within the `int` range; `none` stands for
a returned error (syntax or range). -/
def Atoi (s : String) : Option Int :=
  match s.data with
  | [] => none
  | c :: cs =>
    if c = '-' then
      match parseDigits cs with
      | none => none
      | some n => if n ≤ 9223372036854775808 then some (-(n : Int)) else none
    else
      match parseDigits (if c = '+' then cs else c :: cs) with
      | none => none
      | some n => if n ≤ 9223372036854775807 then some (n : Int) else none

/-- Decimal digits of `n`, most significant first, pushed in front of `acc`;
`fuel` bounds the number of digits. -/
def utoaAux : Nat → Nat → List Char → List Char
  | 0, _, acc => acc
  | fuel + 1, n, acc =>
    if n < 10 then digitChar n :: acc else utoaAux fuel (n / 10) (digitChar (n % 10) :: acc)

/-- Decimal rendering of a natural number. -/
def utoa (n : Nat) : List Char := utoaAux (n + 1) n []

/-- Model of `strconv.Itoa`: the decimal digits, preceded by `-` when negative. -/
def Itoa (i : Int) : String :=
  if i < 0 then String.mk ('-' :: utoa i.natAbs) else String.mk (utoa i.toNat)

/-! ## float64, strconv.ParseFloat and the `%f` verb -/

/-- A `float64` by its IEEE-754 fields: sign bit, 11-bit biased exponent,
52-bit fraction. -/
structure Float64 where
  sign : Bool
  exp : Nat
  frac : Nat
  deriving DecidableEq

/-- The zero value of `float64`, `+0`. -/
def Float64.zero : Float64 := ⟨false, 0, 0⟩

/-- The infinities `math.Inf(+1)` and `math.Inf(-1)`. -/
def Float64.inf (neg : Bool) : Float64 := ⟨neg, 2047, 0⟩

/-- The value `math.NaN()`, bits `0x7FF8000000000001`. -/
def Float64.nan : Float64 := ⟨false, 2047, 2251799813685249⟩

/-- Neither an infinity nor a NaN. -/
def Float64.isFinite (x : Float64) : Bool := decide (x.exp < 2047)

/-- The integer significand of a finite value: the fraction, with the hidden
bit for a normal number. -/
def Float64.mant (x : Float64) : Nat :=
  if x.exp = 0 then x.frac else 4503599627370496 + x.frac

/-- The exact value of a finite `float64`: `± mant * 2 ^ (max exp 1 - 1075)`. -/
def Float64.toRat (x : Float64) : ℚ :=
  (if x.sign then -1 else 1) * ((x.mant : ℚ) * 2 ^ (max x.exp 1) / 2 ^ 1075)

/-- The quotient `num / den` rounded to the nearest integer, ties to even. -/
def divRoundHalfEven (num den : Nat) : Nat :=
  if den < 2 * (num % den) ∨ (2 * (num % den) = den ∧ num / den % 2 = 1) then num / den + 1
  else num / den

/-- The magnitude of a finite `float64` in millionths, rounded to nearest,
ties to even: the digits `%f` prints. -/
def Float64.micros (x : Float64) : Nat :=
  divRoundHalfEven (x.mant * 1000000 * 2 ^ (max x.exp 1 - 1075)) (2 ^ (1075 - max x.exp 1))

/-- Six decimal digits of `n`, zero-padded on the left. -/
def pad6 (n : Nat) : List Char :=
  [digitChar (n / 100000), digitChar (n / 10000), digitChar (n / 1000),
   digitChar (n / 100), digitChar (n / 10), digitChar n]

/-- Model of `fmt.Sprintf("%f", x)`: sign, integer digits, a point and six
fraction digits for a finite value; `NaN`, `+Inf`, `-Inf` otherwise. -/
def sprintfF (x : Float64) : String :=
  if x.exp < 2047 then
    String.mk ((if x.sign then ['-'] else []) ++ utoa (x.micros / 1000000)
      ++ '.' :: pad6 (x.micros % 1000000))
  else if x.frac ≠ 0 then "NaN"
  else if x.sign then "-Inf"
  else "+Inf"

/-- Number of binary digits of `n`, `fuel` bounding the count. -/
def bitLenAux : Nat → Nat → Nat
  | 0, _ => 0
  | fuel + 1, n => if n = 0 then 0 else bitLenAux fuel (n / 2) + 1

/-- Number of binary digits of `n`. -/
def bitLen (n : Nat) : Nat := bitLenAux n n

/-- The `float64` nearest to `± num / den` (ties to even), as `ParseFloat`
returns it; `none` when the magnitude overflows (`±Inf` with `ErrRange`). -/
def roundFloat64 (neg : Bool) (num den : Nat) : Option Float64 :=
  if num = 0 then some ⟨neg, 0, 0⟩
  else
    let e0 : Int := max ((bitLen num : Int) - (bitLen den : Int) - 53) (-1074)
    let e1 : Int :=
      if 9007199254740992 ≤ (num * 2 ^ (-e0).toNat) / (den * 2 ^ e0.toNat) then e0 + 1 else e0
    let m := divRoundHalfEven (num * 2 ^ (-e1).toNat) (den * 2 ^ e1.toNat)
    let m2 := if m = 9007199254740992 then 4503599627370496 else m
    let e2 : Int := if m = 9007199254740992 then e1 + 1 else e1
    if m2 < 4503599627370496 then some ⟨neg, 0, m2⟩
    else if 2047 ≤ e2 + 1075 then none
    else some ⟨neg, (e2 + 1075).toNat, m2 - 4503599627370496⟩

/-- ASCII upper-case letters to lower case, as `special` compares them. -/
def lowerAZ (c : Char) : Char :=
  if 65 ≤ c.toNat ∧ c.toNat ≤ 90 then Char.ofNat (c.toNat + 32) else c

/-- `commonPrefixLenIgnoreCase(s, prefix)` for a lower-case `prefix`. -/
def commonPrefixLen : List Char → List Char → Nat
  | c :: cs, p :: ps => if lowerAZ c = p then commonPrefixLen cs ps + 1 else 0
  | _, _ => 0

/-- The `inf` / `infinity` branch of `special`: the value and the number of
characters consumed after `nsign` sign characters. -/
def specialInf (neg : Bool) (nsign : Nat) (s : List Char) : Option (Float64 × Nat) :=
  let n := commonPrefixLen s "infinity".data
  let n3 := if 3 < n ∧ n < 8 then 3 else n
  if n3 = 3 ∨ n3 = 8 then some (Float64.inf neg, nsign + n3) else none

/-- Model of `special`: a leading, optionally signed `inf` or `infinity`, or an
unsigned `nan`, in any letter case. -/
def special (cs : List Char) : Option (Float64 × Nat) :=
  match cs with
  | [] => none
  | c :: rest =>
    if c = '+' ∨ c = '-' then specialInf (decide (c = '-')) 1 rest
    else if c = 'i' ∨ c = 'I' then specialInf false 0 cs
    else if c = 'n' ∨ c = 'N' then
      if commonPrefixLen cs "nan".data = 3 then some (Float64.nan, 3) else none
    else none

/-- The value of a hexadecimal letter digit. -/
def hexLetter (c : Char) : Option Nat :=
  if 97 ≤ c.toNat ∧ c.toNat ≤ 102 then some (c.toNat - 87)
  else if 65 ≤ c.toNat ∧ c.toNat ≤ 70 then some (c.toNat - 55)
  else none

/-- What the mantissa loop of `readFloat` has seen: all digits read as one
number, and how many of them stood after the point. -/
structure Scan where
  mant : Nat
  fracDigits : Nat
  sawdot : Bool
  sawdigits : Bool
  deriving DecidableEq

/-- One more mantissa digit `d` in base `base`. -/
def Scan.push (st : Scan) (base d : Nat) : Scan :=
  { st with mant := st.mant * base + d,
            fracDigits := if st.sawdot then st.fracDigits + 1 else st.fracDigits,
            sawdigits := true }

/-- The mantissa loop of `readFloat`: digits, underscores and one point; stops
at the first other character and returns the rest. -/
def scanMant (hex : Bool) : List Char → Scan → Scan × List Char
  | [], st => (st, [])
  | c :: cs, st =>
    if c = '_' then scanMant hex cs st
    else if c = '.' then
      if st.sawdot then (st, c :: cs) else scanMant hex cs { st with sawdot := true }
    else if isDigit c then scanMant hex cs (st.push (if hex then 16 else 10) (digitVal c))
    else
      match (if hex then hexLetter c else none) with
      | some d => scanMant hex cs (st.push 16 d)
      | none => (st, c :: cs)

/-- The exponent digit loop of `readFloat`: digits and underscores, the value
no longer growing once it has reached 10000. -/
def scanExp : List Char → Nat → Nat × List Char
  | [], e => (e, [])
  | c :: cs, e =>
    if c = '_' then scanExp cs e
    else if isDigit c then scanExp cs (if e < 10000 then e * 10 + digitVal c else e)
    else (e, c :: cs)

/-- The loop of `underscoreOK`; `saw` is `'0'` after a digit, `'_'` after an
underscore, `'!'` after anything else. -/
def underscoreOKAux (hex : Bool) : List Char → Char → Bool
  | [], saw => saw != '_'
  | c :: cs, saw =>
    if isDigit c || (hex && (hexLetter c).isSome) then underscoreOKAux hex cs '0'
    else if c = '_' then (if saw = '0' then underscoreOKAux hex cs '_' else false)
    else if saw = '_' then false
    else underscoreOKAux hex cs '!'

/-- Model of `underscoreOK`: underscores only between digits, or between a
base prefix and a digit. -/
def underscoreOK (cs : List Char) : Bool :=
  let s := match cs with
    | [] => []
    | c :: rest => if c = '-' ∨ c = '+' then rest else cs
  match s with
  | z :: x :: rest =>
    if z = '0' ∧ (lowerAZ x = 'b' ∨ lowerAZ x = 'o' ∨ lowerAZ x = 'x') then
      underscoreOKAux (decide (lowerAZ x = 'x')) rest '0'
    else underscoreOKAux false s '^'
  | _ => underscoreOKAux false s '^'

/-- The exponent part of `readFloat` after the mantissa, `rest` being what the
mantissa loop left: the signed exponent written, `none` when the text is not
well formed or not consumed to its end. -/
def readExp (hex : Bool) (rest : List Char) : Option Int :=
  match rest with
  | [] => if hex then none else some 0
  | c :: r =>
    if (hex ∧ (c = 'p' ∨ c = 'P')) ∨ (¬ hex ∧ (c = 'e' ∨ c = 'E')) then
      let neg := match r with
        | [] => false
        | s :: _ => decide (s = '-')
      let digits := match r with
        | [] => []
        | s :: r2 => if s = '+' ∨ s = '-' then r2 else r
      match digits with
      | [] => none
      | d :: _ =>
        if isDigit d then
          if (scanExp digits 0).2 = [] then
            some (if neg then -((scanExp digits 0).1 : Int) else ((scanExp digits 0).1 : Int))
          else none
        else none
    else none

/-- Model of `strconv.ParseFloat(s, 64)`: decimal and hexadecimal
floating-point text, `inf`, `infinity` and `nan`; the result is the nearest
`float64`; `none` stands for a returned error (syntax or range). -/
def ParseFloat (s : String) : Option Float64 :=
  match special s.data with
  | some r => if r.2 = s.data.length then some r.1 else none
  | none =>
    match s.data with
    | [] => none
    | c :: rest =>
      let body := if c = '+' ∨ c = '-' then rest else s.data
      let hex := match body with
        | z :: x :: _ :: _ => decide (z = '0' ∧ (x = 'x' ∨ x = 'X'))
        | _ => false
      let sc := scanMant hex (if hex then body.drop 2 else body) ⟨0, 0, false, false⟩
      if sc.1.sawdigits then
        match readExp hex sc.2 with
        | none => none
        | some e =>
          if underscoreOK s.data then
            if hex then
              roundFloat64 (decide (c = '-'))
                (sc.1.mant * 2 ^ (e - 4 * (sc.1.fracDigits : Int)).toNat)
                (2 ^ (4 * (sc.1.fracDigits : Int) - e).toNat)
            else
              roundFloat64 (decide (c = '-'))
                (sc.1.mant * 10 ^ (e - (sc.1.fracDigits : Int)).toNat)
                (10 ^ ((sc.1.fracDigits : Int) - e).toNat)
          else none
      else none

/-! ## Go strings and UTF-8 -/

/-- A Go `string`: a sequence of bytes, each a number below 256, that need not
be valid UTF-8. -/
structure GoString where
  bytes : List Nat
  deriving DecidableEq

/-- The constant `utf8.RuneError`, U+FFFD. -/
def RuneError : Char := Char.ofNat 65533

/-- `utf8.EncodeRune` on a Unicode scalar value: its one to four bytes. -/
def EncodeRune (c : Char) : List Nat :=
  if c.toNat < 128 then [c.toNat]
  else if c.toNat < 2048 then [192 + c.toNat / 64, 128 + c.toNat % 64]
  else if c.toNat < 65536 then
    [224 + c.toNat / 4096, 128 + c.toNat / 64 % 64, 128 + c.toNat % 64]
  else
    [240 + c.toNat / 262144, 128 + c.toNat / 4096 % 64, 128 + c.toNat / 64 % 64,
      128 + c.toNat % 64]

/-- `utf8.DecodeRuneInString`: the first rune of a byte sequence and its width
in bytes; `(RuneError, 0)` for no bytes and `(RuneError, 1)` when the bytes do
not start with a valid UTF-8 sequence. -/
def DecodeRuneInString : List Nat → Char × Nat
  | [] => (RuneError, 0)
  | s0 :: rest =>
    if s0 < 128 then (Char.ofNat s0, 1)
    else if s0 < 194 ∨ 244 < s0 then (RuneError, 1)
    else
      match rest with
      | [] => (RuneError, 1)
      | s1 :: rest1 =>
        if s1 < (if s0 = 224 then 160 else if s0 = 240 then 144 else 128) ∨
            (if s0 = 237 then 159 else if s0 = 244 then 143 else 191) < s1 then
          (RuneError, 1)
        else if s0 < 224 then (Char.ofNat (s0 % 32 * 64 + s1 % 64), 2)
        else
          match rest1 with
          | [] => (RuneError, 1)
          | s2 :: rest2 =>
            if s2 < 128 ∨ 191 < s2 then (RuneError, 1)
            else if s0 < 240 then
              (Char.ofNat (s0 % 16 * 4096 + s1 % 64 * 64 + s2 % 64), 3)
            else
              match rest2 with
              | [] => (RuneError, 1)
              | s3 :: _ =>
                if s3 < 128 ∨ 191 < s3 then (RuneError, 1)
                else
                  (Char.ofNat
                    (s0 % 8 * 262144 + s1 % 64 * 4096 + s2 % 64 * 64 + s3 % 64), 4)

/-- The bytes of a text, rune by rune. -/
def EncodeRunes : List Char → List Nat
  | [] => []
  | c :: cs => EncodeRune c ++ EncodeRunes cs

/-- The Go string holding a text: its UTF-8 bytes. This is what the decoder of
`encoding/json` stores for a JSON string, and what a string literal denotes. -/
def GoString.ofText (s : String) : GoString := ⟨EncodeRunes s.data⟩

instance : Coe String GoString := ⟨GoString.ofText⟩

/-- The loop of `appendString`: runes are copied, a byte that starts no valid
UTF-8 sequence is written as U+FFFD; `fuel` bounds the number of steps. -/
def appendStringAux : Nat → List Nat → List Char
  | 0, _ => []
  | _ + 1, [] => []
  | fuel + 1, b :: bs =>
    (DecodeRuneInString (b :: bs)).1 ::
      appendStringAux fuel ((b :: bs).drop (DecodeRuneInString (b :: bs)).2)

/-- The text of the JSON string that `appendString` of `encoding/json` writes
for the Go string `src`: `src` itself when it is valid UTF-8, otherwise `src`
with each byte that starts no valid sequence replaced by U+FFFD. -/
def appendString (src : GoString) : String :=
  String.mk (appendStringAux src.bytes.length src.bytes)

/-! ## Matching a JSON member name against a struct field -/

/-- Case folding of a rune as `encoding/json` applies it to member names,
exact for comparison with ASCII field names: ASCII letters fold to upper case,
U+017F (long s) and U+212A (Kelvin sign) fold onto `S` and `K`. -/
def foldRune (c : Char) : Char :=
  if 97 ≤ c.toNat ∧ c.toNat ≤ 122 then Char.ofNat (c.toNat - 32)
  else if c.toNat = 383 then 'S'
  else if c.toNat = 8490 then 'K'
  else c

/-- The folded form of a name. -/
def foldName (s : String) : List Char := s.data.map foldRune

/-- Whether the member name `key` selects the struct field tagged `name`:
`encoding/json` prefers an exact match and falls back to a case-insensitive
one; no two fields of the structs below share a folded name. -/
def keyIs (key name : String) : Bool := key == name || foldName key == foldName name

/-- Storing JSON value `v` into a string-typed field named `field` of a
temporary struct, which holds the text `cur`: a JSON string is stored, `null`
leaves the field alone, any other value leaves the field alone and records an
`UnmarshalTypeError` unless an earlier error is already recorded (decoding goes
on either way). -/
def storeString (field : String) (v : JVal) (cur : String) (saved : Option GoErr) :
    String × Option GoErr :=
  match v with
  | .str s => (s, saved)
  | .null => (cur, saved)
  | v =>
    match saved with
    | some e => (cur, some e)
    | none => (cur, some (.typeErr v.kind field))

/-- Storing JSON value `v` into the string field named `field` of a record,
which holds `cur`: as `storeString`, the text of a JSON string being stored as
its UTF-8 bytes. -/
def storeField (field : String) (v : JVal) (cur : GoString) (saved : Option GoErr) :
    GoString × Option GoErr :=
  match v with
  | .str s => (GoString.ofText s, saved)
  | .null => (cur, saved)
  | v =>
    match saved with
    | some e => (cur, some e)
    | none => (cur, some (.typeErr v.kind field))

/-- An `omitempty` string field: no member when the value is empty, otherwise
the member written by `appendString`. -/
def omitEmpty (name : String) (v : GoString) : Members :=
  if v = "" then [] else [(name, .str (appendString v))]

/-! ## users.go -/

/-- The `User` struct. -/
structure User where
  ID : Int
  Name : GoString
  LastName : GoString
  Address : GoString
  FavoriteDogBreed : GoString
  CreatedAt : GoString
  deriving DecidableEq

/-- The zero value `User{}`. -/
def User.zero : User := ⟨0, "", "", "", "", ""⟩

/-- The temporary struct of `User.UnmarshalJSON` and `User.MarshalJSON`: a
string-typed `ID` tagged `id` that shadows the promoted `Alias.ID`, and the
embedded `*Alias`, whose other fields are promoted. `ID` only ever holds the
empty string, the text of a JSON string or the output of `strconv.Itoa`, and is
kept as text. -/
structure UserTemp where
  ID : String
  Alias : User
  deriving DecidableEq

/-- One member of the input object stored by `json.Unmarshal(data, &temp)`;
writes to promoted fields go through the `*Alias` pointer into the target. -/
def UserTemp.setMember (st : UserTemp × Option GoErr) (m : String × JVal) :
    UserTemp × Option GoErr :=
  if keyIs m.1 "id" then
    let r := storeString "id" m.2 st.1.ID st.2
    ({ st.1 with ID := r.1 }, r.2)
  else if keyIs m.1 "name" then
    let r := storeField "name" m.2 st.1.Alias.Name st.2
    ({ st.1 with Alias := { st.1.Alias with Name := r.1 } }, r.2)
  else if keyIs m.1 "lastName" then
    let r := storeField "lastName" m.2 st.1.Alias.LastName st.2
    ({ st.1 with Alias := { st.1.Alias with LastName := r.1 } }, r.2)
  else if keyIs m.1 "address" then
    let r := storeField "address" m.2 st.1.Alias.Address st.2
    ({ st.1 with Alias := { st.1.Alias with Address := r.1 } }, r.2)
  else if keyIs m.1 "favoriteDogBreed" then
    let r := storeField "favoriteDogBreed" m.2 st.1.Alias.FavoriteDogBreed st.2
    ({ st.1 with Alias := { st.1.Alias with FavoriteDogBreed := r.1 } }, r.2)
  else if keyIs m.1 "createdAt" then
    let r := storeField "createdAt" m.2 st.1.Alias.CreatedAt st.2
    ({ st.1 with Alias := { st.1.Alias with CreatedAt := r.1 } }, r.2)
  else st

/-- `json.Unmarshal(data, &temp)` for the temporary struct of `User`: the
members are stored in order, the first recorded error is returned at the end. -/
def UserTemp.unmarshal (temp : UserTemp) (data : Members) : UserTemp × Option GoErr :=
  data.foldl UserTemp.setMember (temp, none)

/-- `func (u *User) UnmarshalJSON(data []byte) error`, on the JSON object in
`data`: the final state of the target `u` and the returned error. -/
def User.UnmarshalJSON (u : User) (data : Members) : User × Option GoErr :=
  let r := UserTemp.unmarshal { ID := "", Alias := u } data
  match r.2 with
  | some err => (r.1.Alias, some err)
  | none =>
    match Atoi r.1.ID with
    | none => (r.1.Alias, some (.errorf ("invalid id: " ++ r.1.ID)))
    | some id => ({ r.1.Alias with ID := id }, none)

/-- `func (u User) MarshalJSON() ([]byte, error)`: the members of the emitted
object, in struct field order; the error is always nil. -/
def User.MarshalJSON (u : User) : Members :=
  [("id", JVal.str (Itoa u.ID))]
    ++ omitEmpty "name" u.Name
    ++ omitEmpty "lastName" u.LastName
    ++ omitEmpty "address" u.Address
    ++ omitEmpty "favoriteDogBreed" u.FavoriteDogBreed
    ++ omitEmpty "createdAt" u.CreatedAt

/-! ## products.go -/

/-- The `Product` struct; `Typ` is the field `Type`. -/
structure Product where
  ID : Int
  Name : GoString
  Price : Float64
  Stock : Int
  CreatedAt : GoString
  Typ : GoString
  Department : GoString
  deriving DecidableEq

/-- The zero value `Product{}`. -/
def Product.zero : Product := ⟨0, "", Float64.zero, 0, "", "", ""⟩

/-- The temporary struct of `Product.UnmarshalJSON` and `Product.MarshalJSON`:
string-typed `ID`, `Price` and `Stock` tagged `id`, `price` and `stock`, which
shadow the promoted fields of the same names, and the embedded `*Alias`. The
three only ever hold the empty string, the text of a JSON string or the output
of `strconv.Itoa` and `fmt.Sprintf`, and are kept as text. -/
structure ProductTemp where
  ID : String
  Price : String
  Stock : String
  Alias : Product
  deriving DecidableEq

/-- One member of the input object stored by `json.Unmarshal(data, &temp)`;
writes to promoted fields go through the `*Alias` pointer into the target. -/
def ProductTemp.setMember (st : ProductTemp × Option GoErr) (m : String × JVal) :
    ProductTemp × Option GoErr :=
  if keyIs m.1 "id" then
    let r := storeString "id" m.2 st.1.ID st.2
    ({ st.1 with ID := r.1 }, r.2)
  else if keyIs m.1 "price" then
    let r := storeString "price" m.2 st.1.Price st.2
    ({ st.1 with Price := r.1 }, r.2)
  else if keyIs m.1 "stock" then
    let r := storeString "stock" m.2 st.1.Stock st.2
    ({ st.1 with Stock := r.1 }, r.2)
  else if keyIs m.1 "name" then
    let r := storeField "name" m.2 st.1.Alias.Name st.2
    ({ st.1 with Alias := { st.1.Alias with Name := r.1 } }, r.2)
  else if keyIs m.1 "createdAt" then
    let r := storeField "createdAt" m.2 st.1.Alias.CreatedAt st.2
    ({ st.1 with Alias := { st.1.Alias with CreatedAt := r.1 } }, r.2)
  else if keyIs m.1 "type" then
    let r := storeField "type" m.2 st.1.Alias.Typ st.2
    ({ st.1 with Alias := { st.1.Alias with Typ := r.1 } }, r.2)
  else if keyIs m.1 "department" then
    let r := storeField "department" m.2 st.1.Alias.Department st.2
    ({ st.1 with Alias := { st.1.Alias with Department := r.1 } }, r.2)
  else st

/-- `json.Unmarshal(data, &temp)` for the temporary struct of `Product`. -/
def ProductTemp.unmarshal (temp : ProductTemp) (data : Members) :
    ProductTemp × Option GoErr :=
  data.foldl ProductTemp.setMember (temp, none)

/-- `func (p *Product) UnmarshalJSON(data []byte) error`, on the JSON object in
`data`: the final state of the target `p` and the returned error. -/
def Product.UnmarshalJSON (p : Product) (data : Members) : Product × Option GoErr :=
  let r := ProductTemp.unmarshal { ID := "", Price := "", Stock := "", Alias := p } data
  match r.2 with
  | some err => (r.1.Alias, some err)
  | none =>
    match Atoi r.1.ID with
    | none => (r.1.Alias, some (.errorf ("invalid id: " ++ r.1.ID)))
    | some id =>
      match Atoi r.1.Stock with
      | none => ({ r.1.Alias with ID := id }, some (.errorf ("invalid stock: " ++ r.1.Stock)))
      | some stock =>
        match ParseFloat r.1.Price with
        | none =>
          ({ r.1.Alias with ID := id, Stock := stock },
            some (.errorf ("invalid price: " ++ r.1.Price)))
        | some price => ({ r.1.Alias with ID := id, Stock := stock, Price := price }, none)

/-- `func (p Product) MarshalJSON() ([]byte, error)`: the members of the
emitted object, in struct field order; the error is always nil. -/
def Product.MarshalJSON (p : Product) : Members :=
  [("id", JVal.str (Itoa p.ID)), ("price", JVal.str (sprintfF p.Price)),
   ("stock", JVal.str (Itoa p.Stock))]
    ++ omitEmpty "name" p.Name
    ++ omitEmpty "createdAt" p.CreatedAt
    ++ omitEmpty "type" p.Typ
    ++ omitEmpty "department" p.Department

/-! ## Vocabulary of the properties -/

/-- Whether a JSON value is a JSON string. -/
def JVal.isStr : JVal → Bool
  | .str _ => true
  | _ => false

/-- Every member of the wire object is a JSON string. -/
def AllStrings (ms : Members) : Prop := ∀ m ∈ ms, m.2.isStr = true

instance (ms : Members) : Decidable (AllStrings ms) := by unfold AllStrings; infer_instance

/-- The wire object has no member for the field tagged `name`. -/
def Absent (name : String) (ms : Members) : Prop := ∀ m ∈ ms, keyIs m.1 name = false

instance (name : String) (ms : Members) : Decidable (Absent name ms) := by
  unfold Absent; infer_instance

/-- The string a wire object gives for the field tagged `name`: the value of
the last member with that name that is a JSON string, `dflt` when there is
none. -/
def lookupStr (name : String) (ms : Members) (dflt : String) : String :=
  ms.foldl (fun cur m =>
    if keyIs m.1 name then (match m.2 with | .str s => s | _ => cur) else cur) dflt

/-- The value a wire object gives to the string field tagged `name` of a
record: the UTF-8 bytes of the last member with that name that is a JSON
string, `dflt` when there is none. -/
def lookupField (name : String) (ms : Members) (dflt : GoString) : GoString :=
  ms.foldl (fun cur m =>
    if keyIs m.1 name then (match m.2 with | .str s => GoString.ofText s | _ => cur)
    else cur) dflt

/-- The Go string is valid UTF-8: it holds the UTF-8 bytes of some Unicode
text. -/
def GoString.IsValidUTF8 (s : GoString) : Prop := ∃ t : String, s = GoString.ofText t

/-- The fields are those of a `float64`: an exponent of 11 bits and a fraction
of 52 bits. -/
def Float64.InRange (x : Float64) : Prop := x.exp < 2048 ∧ x.frac < 4503599627370496

instance (x : Float64) : Decidable x.InRange := by unfold Float64.InRange; infer_instance

/-- Every string field of the `User` is valid UTF-8. -/
def User.ValidStrings (u : User) : Prop :=
  u.Name.IsValidUTF8 ∧ u.LastName.IsValidUTF8 ∧ u.Address.IsValidUTF8 ∧
    u.FavoriteDogBreed.IsValidUTF8 ∧ u.CreatedAt.IsValidUTF8

/-- Every string field of the `Product` is valid UTF-8. -/
def Product.ValidStrings (p : Product) : Prop :=
  p.Name.IsValidUTF8 ∧ p.CreatedAt.IsValidUTF8 ∧ p.Typ.IsValidUTF8 ∧
    p.Department.IsValidUTF8

/-- The number a run of decimal digits writes, most significant digit first. -/
def decimalValue : List Char → Nat
  | [] => 0
  | c :: cs => digitVal c * 10 ^ cs.length + decimalValue cs

/-- The text `raw` is a base-10 integer and denotes `v`: one or more decimal
digits, optionally preceded by one sign. -/
def DenotesInt (raw : String) (v : Int) : Prop :=
  ∃ digits : List Char, digits ≠ [] ∧ (∀ c ∈ digits, isDigit c = true) ∧
    ((raw.data = digits ∧ v = (decimalValue digits : Int)) ∨
     (raw.data = '+' :: digits ∧ v = (decimalValue digits : Int)) ∨
     (raw.data = '-' :: digits ∧ v = -(decimalValue digits : Int)))

/-- The text `raw` is a base-10 integer within the range of `int`. -/
def IsBase10Int (raw : String) : Prop := ∃ v, DenotesInt raw v ∧ IsGoInt v

/-- The phrase "decimal number" of the specification, read strictly: an
optional sign, one or more digits, and optionally a point followed by one or
more digits. -/
def isPlainDecimal (raw : String) : Bool :=
  let body := match raw.data with
    | [] => []
    | c :: cs => if c = '+' ∨ c = '-' then cs else c :: cs
  !(body.takeWhile isDigit).isEmpty &&
    (match body.dropWhile isDigit with
      | [] => true
      | c :: fp => c == '.' && !fp.isEmpty && fp.all isDigit)

/-- The phrase "decimal number" of the specification, read generously: a text
with at least one decimal digit and nothing but digits, signs, a point and an
exponent mark. -/
def isDecimalText (raw : String) : Bool :=
  raw.data.any isDigit &&
    raw.data.all (fun c => isDigit c || c == '+' || c == '-' || c == '.' || c == 'e' || c == 'E')

/-! ## client.go -/

/-- The part of `http.Client` the package sets: `Timeout`, a `time.Duration`
in nanoseconds. -/
structure HTTPClient where
  Timeout : Int
  deriving DecidableEq

/-- The constant `time.Second`, in nanoseconds. -/
def Second : Int := 1000000000

/-- The `Client` struct. -/
structure Client where
  HostURL : String
  HTTPClient : HTTPClient
  deriving DecidableEq

/-- `func NewClient(hostURL *string) (*Client, error)`; `none` is the nil
pointer. -/
def NewClient (hostURL : Option String) : Option Client × Option GoErr :=
  match hostURL with
  | none => (none, some (.errorf "hostURL is required"))
  | some u => (some { HostURL := u, HTTPClient := { Timeout := 10 * Second } }, none)

/-- A JSON scalar. -/
inductive JScalar where
  | null : JScalar
  | bool (b : Bool) : JScalar
  | num (lit : String) : JScalar
  | str (s : String) : JScalar
  deriving DecidableEq

/-- The word `encoding/json` uses for the kind of a scalar. -/
def JScalar.kind : JScalar → String
  | .null => "null"
  | .bool _ => "bool"
  | .num _ => "number"
  | .str _ => "string"

/-- An element of a JSON array as the decoder hands it to `UnmarshalJSON`: an
object with its members, a nested array, or a scalar. -/
inductive JElem where
  | object (ms : Members) : JElem
  | array : JElem
  | scalar (s : JScalar) : JElem
  deriving DecidableEq

/-- The JSON value spelled by a text. -/
inductive JDoc where
  | object (ms : Members) : JDoc
  | array (es : List JElem) : JDoc
  | scalar (s : JScalar) : JDoc
  deriving DecidableEq

/-- What the scanner of `encoding/json` finds in a text: the JSON value it
spells, or the message of the `*json.SyntaxError`. -/
inductive Scanned where
  | invalid (msg : String) : Scanned
  | valid (doc : JDoc) : Scanned
  deriving DecidableEq

/-- A response body: the bytes read, as text, and what the JSON scanner finds
in them. -/
structure Body where
  text : String
  scanned : Scanned
  deriving DecidableEq

/-- What `json.Unmarshal` scans in the slice `body`; a nil slice reads as the
empty text, which is not JSON. -/
def scanBody (body : Option Body) : Scanned :=
  match body with
  | none => .invalid "unexpected end of JSON input"
  | some b => b.scanned

/-- An `*http.Request` as the package builds it: method, URL text, the JSON
object written in the body (`none` for a nil body), and the header fields set
on it. -/
structure Request where
  Method : String
  URL : String
  Body : Option Members
  Header : List (String × String)
  deriving DecidableEq

/-- The outcome of `c.HTTPClient.Do(req)` followed by `io.ReadAll(res.Body)`. -/
inductive RoundTrip where
  /-- `Do` returned an error. -/
  | doErr (err : GoErr) : RoundTrip
  /-- `Do` returned a response and `io.ReadAll` returned an error. -/
  | readErr (err : GoErr) : RoundTrip
  /-- A response with this status code, its body read in full. -/
  | response (status : Int) (body : Body) : RoundTrip
  deriving DecidableEq

/-- The environment of an operation: which URL texts `http.NewRequest` fails
to parse, with the error, and what the network answers to a request. -/
structure World where
  urlError : String → Option GoErr
  exchange : Request → RoundTrip

/-- `http.NewRequest(method, url, body)` for the methods the package uses: the
request, or the error of parsing `url`. -/
def NewRequest (w : World) (method url : String) (body : Option Members) :
    Option Request × Option GoErr :=
  match w.urlError url with
  | some err => (none, some err)
  | none => (some { Method := method, URL := url, Body := body, Header := [] }, none)

/-- `func (c *Client) doRequest(req *http.Request) ([]byte, error)`; `none` is
the nil slice. -/
def Client.doRequest (w : World) (_c : Client) (req : Request) : Option Body × Option GoErr :=
  match w.exchange req with
  | .doErr err => (none, some err)
  | .readErr err => (none, some err)
  | .response status body =>
    if status ≠ 200 ∧ status ≠ 201 ∧ status ≠ 204 then
      (none, some (.errorf ("error: status: " ++ Itoa status ++ ", body: " ++ body.text)))
    else (some body, none)

/-! ## Decoding a response body -/

/-- What a call gives back: the returned pair, `none` standing for nil, or a
run-time panic. -/
inductive Outcome (α : Type) where
  | ret (val : Option α) (err : Option GoErr) : Outcome α
  | panic : Outcome α
  deriving DecidableEq

/-- The value of a document as handed to `UnmarshalJSON`. -/
def JDoc.toElem : JDoc → JElem
  | .object ms => .object ms
  | .array _ => .array
  | .scalar s => .scalar s

/-- The name `reflect` gives to the type of the temporary struct of `User`. -/
def userTempType : String :=
  "struct \x7b ID string \"json:\\\"id\\\"\"; *mockclient.Alias \x7d"

/-- The name `reflect` gives to the type of the temporary struct of `Product`. -/
def productTempType : String :=
  "struct \x7b ID string \"json:\\\"id\\\"\"; Price string \"json:\\\"price\\\"\"; " ++
    "Stock string \"json:\\\"stock\\\"\"; *mockclient.Alias \x7d"

/-- `u.UnmarshalJSON(data)` for `data` holding any JSON value: an object is
decoded member by member; an array or a scalar other than `null` is a type
error of `json.Unmarshal(data, &temp)`; `null` sets the pointer `temp` to nil,
and reading `temp.ID` then panics (`none`). -/
def User.unmarshalElem (u : User) (e : JElem) : Option (User × Option GoErr) :=
  match e with
  | .object ms => some (User.UnmarshalJSON u ms)
  | .array => some (u, some (.valueErr "array" userTempType))
  | .scalar .null => none
  | .scalar s => some (u, some (.valueErr s.kind userTempType))

/-- `p.UnmarshalJSON(data)` for `data` holding any JSON value. -/
def Product.unmarshalElem (p : Product) (e : JElem) : Option (Product × Option GoErr) :=
  match e with
  | .object ms => some (Product.UnmarshalJSON p ms)
  | .array => some (p, some (.valueErr "array" productTempType))
  | .scalar .null => none
  | .scalar s => some (p, some (.valueErr s.kind productTempType))

/-- The decode stage of the operations that return one `User`:
`json.Unmarshal(body, user)` into a fresh `User`, then `nil, err` or
`user, nil`. -/
def unmarshalUser (body : Option Body) : Outcome User :=
  match scanBody body with
  | .invalid msg => .ret none (some (.lib msg))
  | .valid doc =>
    match User.unmarshalElem User.zero doc.toElem with
    | none => .panic
    | some (_, some err) => .ret none (some err)
    | some (u, none) => .ret (some u) none

/-- The elements of a JSON array decoded in order into fresh elements of a
`[]User`, `acc` holding those decoded so far; the first error ends the decode,
a `null` element panics (`none`). A decoder that goes on with the remaining
elements and returns the first error, as the one built on `encoding/json/v2`
does, gives the same result on every array whose elements are objects. -/
def unmarshalUserElems : List JElem → List User → Option (List User × Option GoErr)
  | [], acc => some (acc, none)
  | e :: es, acc =>
    match User.unmarshalElem User.zero e with
    | none => none
    | some (u, none) => unmarshalUserElems es (acc ++ [u])
    | some (u, some err) => some (acc ++ [u], some err)

/-- The decode stage of `GetUsers`: `json.Unmarshal(body, &users)` with
`users := []User{}`, then `nil, err` or `users, nil`; a `null` body
leaves the nil slice and no error. -/
def unmarshalUserSlice (body : Option Body) : Outcome (List User) :=
  match scanBody body with
  | .invalid msg => .ret none (some (.lib msg))
  | .valid (.array es) =>
    match unmarshalUserElems es [] with
    | none => .panic
    | some (_, some err) => .ret none (some err)
    | some (users, none) => .ret (some users) none
  | .valid (.scalar .null) => .ret none none
  | .valid (.scalar s) => .ret none (some (.valueErr s.kind "[]mockclient.User"))
  | .valid (.object _) => .ret none (some (.valueErr "object" "[]mockclient.User"))

/-- The decode stage of the operations that return one `Product`:
`json.Unmarshal(body, product)` into a fresh `Product`, then `nil, err` or
`product, nil`. -/
def unmarshalProduct (body : Option Body) : Outcome Product :=
  match scanBody body with
  | .invalid msg => .ret none (some (.lib msg))
  | .valid doc =>
    match Product.unmarshalElem Product.zero doc.toElem with
    | none => .panic
    | some (_, some err) => .ret none (some err)
    | some (p, none) => .ret (some p) none

/-- The elements of a JSON array decoded in order into fresh elements of a
`[]Product`, `acc` holding those decoded so far; the first error ends the
decode, a `null` element panics (`none`); see `unmarshalUserElems`. -/
def unmarshalProductElems : List JElem → List Product → Option (List Product × Option GoErr)
  | [], acc => some (acc, none)
  | e :: es, acc =>
    match Product.unmarshalElem Product.zero e with
    | none => none
    | some (p, none) => unmarshalProductElems es (acc ++ [p])
    | some (p, some err) => some (acc ++ [p], some err)

/-- The decode stage of `GetProducts`: `json.Unmarshal(body, &products)` with
`products := []Product{}`, then `nil, err` or `products, nil`; a `null` body
leaves the nil slice and no error. -/
def unmarshalProductSlice (body : Option Body) : Outcome (List Product) :=
  match scanBody body with
  | .invalid msg => .ret none (some (.lib msg))
  | .valid (.array es) =>
    match unmarshalProductElems es [] with
    | none => .panic
    | some (_, some err) => .ret none (some err)
    | some (products, none) => .ret (some products) none
  | .valid (.scalar .null) => .ret none none
  | .valid (.scalar s) => .ret none (some (.valueErr s.kind "[]mockclient.Product"))
  | .valid (.object _) => .ret none (some (.valueErr "object" "[]mockclient.Product"))

/-! ## The resource operations -/

/-- A call an operation makes to the outside. -/
inductive Call where
  /-- `http.NewRequest(method, url, body)`. -/
  | newRequest (method url : String) (body : Option Members) : Call
  /-- `c.HTTPClient.Do(req)`, inside `doRequest`. -/
  | roundTrip (req : Request) : Call
  deriving DecidableEq

/-- A run of an operation: the calls it made, in order, and what it gave
back. -/
structure Run (α : Type) where
  calls : List Call
  out : Outcome α
  deriving DecidableEq

/-- `h.Set(key, value)` on a header. -/
def headerSet (h : List (String × String)) (key value : String) : List (String × String) :=
  (key, value) :: h.filter (fun kv => kv.1 ≠ key)

/-- `func (c *Client) GetUsers() ([]User, error)`. -/
def Client.GetUsers (w : World) (c : Client) : Run (List User) :=
  let url := c.HostURL ++ "/user"
  let built := Call.newRequest "GET" url none
  match NewRequest w "GET" url none with
  | (_, some err) => ⟨[built], .ret none (some err)⟩
  | (none, none) => ⟨[built], .panic⟩
  | (some req, none) =>
    match c.doRequest w req with
    | (_, some err) => ⟨[built, .roundTrip req], .ret none (some err)⟩
    | (body, none) => ⟨[built, .roundTrip req], unmarshalUserSlice body⟩

/-- `func (c *Client) GetUserByID(id int) (*User, error)`. -/
def Client.GetUserByID (w : World) (c : Client) (id : Int) : Run User :=
  let url := c.HostURL ++ "/user/" ++ Itoa id
  let built := Call.newRequest "GET" url none
  match NewRequest w "GET" url none with
  | (_, some err) => ⟨[built], .ret none (some err)⟩
  | (none, none) => ⟨[built], .panic⟩
  | (some req, none) =>
    match c.doRequest w req with
    | (_, some err) => ⟨[built, .roundTrip req], .ret none (some err)⟩
    | (body, none) => ⟨[built, .roundTrip req], unmarshalUser body⟩

/-- `func (c *Client) CreateUser(user *User) (*User, error)`, for a non-nil `user`;
`json.Marshal(*user)` never fails. -/
def Client.CreateUser (w : World) (c : Client) (user : User) : Run User :=
  let url := c.HostURL ++ "/user"
  let rb := User.MarshalJSON user
  let built := Call.newRequest "POST" url (some rb)
  match NewRequest w "POST" url (some rb) with
  | (_, some err) => ⟨[built], .ret none (some err)⟩
  | (none, none) => ⟨[built], .panic⟩
  | (some req0, none) =>
    let req : Request :=
      { req0 with Header := headerSet req0.Header "Content-Type" "application/json" }
    match c.doRequest w req with
    | (_, some err) => ⟨[built, .roundTrip req], .ret none (some err)⟩
    | (body, none) => ⟨[built, .roundTrip req], unmarshalUser body⟩

/-- `func (c *Client) UpdateUser(user *User) (*User, error)`, for a non-nil `user`. -/
def Client.UpdateUser (w : World) (c : Client) (user : User) : Run User :=
  let url := c.HostURL ++ "/user/" ++ Itoa user.ID
  let rb := User.MarshalJSON user
  let built := Call.newRequest "PATCH" url (some rb)
  match NewRequest w "PATCH" url (some rb) with
  | (_, some err) => ⟨[built], .ret none (some err)⟩
  | (none, none) => ⟨[built], .panic⟩
  | (some req0, none) =>
    let req : Request :=
      { req0 with Header := headerSet req0.Header "Content-Type" "application/json" }
    match c.doRequest w req with
    | (_, some err) => ⟨[built, .roundTrip req], .ret none (some err)⟩
    | (body, none) => ⟨[built, .roundTrip req], unmarshalUser body⟩

/-- `func (c *Client) DeleteUser(id int) error`: the outcome carries the returned
error and no value. -/
def Client.DeleteUser (w : World) (c : Client) (id : Int) : Run Unit :=
  let url := c.HostURL ++ "/user/" ++ Itoa id
  let built := Call.newRequest "DELETE" url none
  match NewRequest w "DELETE" url none with
  | (_, some err) => ⟨[built], .ret none (some err)⟩
  | (none, none) => ⟨[built], .panic⟩
  | (some req, none) =>
    match c.doRequest w req with
    | (_, some err) => ⟨[built, .roundTrip req], .ret none (some err)⟩
    | (_, none) => ⟨[built, .roundTrip req], .ret none none⟩

/-- `func (c *Client) GetProducts() ([]Product, error)`. -/
def Client.GetProducts (w : World) (c : Client) : Run (List Product) :=
  let url := c.HostURL ++ "/products"
  let built := Call.newRequest "GET" url none
  match NewRequest w "GET" url none with
  | (_, some err) => ⟨[built], .ret none (some err)⟩
  | (none, none) => ⟨[built], .panic⟩
  | (some req, none) =>
    match c.doRequest w req with
    | (_, some err) => ⟨[built, .roundTrip req], .ret none (some err)⟩
    | (body, none) => ⟨[built, .roundTrip req], unmarshalProductSlice body⟩

/-- `func (c *Client) GetProductByID(id int) (*Product, error)`. -/
def Client.GetProductByID (w : World) (c : Client) (id : Int) : Run Product :=
  let url := c.HostURL ++ "/products/" ++ Itoa id
  let built := Call.newRequest "GET" url none
  match NewRequest w "GET" url none with
  | (_, some err) => ⟨[built], .ret none (some err)⟩
  | (none, none) => ⟨[built], .panic⟩
  | (some req, none) =>
    match c.doRequest w req with
    | (_, some err) => ⟨[built, .roundTrip req], .ret none (some err)⟩
    | (body, none) => ⟨[built, .roundTrip req], unmarshalProduct body⟩

/-- `func (c *Client) CreateProduct(product *Product) (*Product, error)`, for a
non-nil `product`;
`json.Marshal(*product)` never fails. -/
def Client.CreateProduct (w : World) (c : Client) (product : Product) : Run Product :=
  let url := c.HostURL ++ "/products"
  let rb := Product.MarshalJSON product
  let built := Call.newRequest "POST" url (some rb)
  match NewRequest w "POST" url (some rb) with
  | (_, some err) => ⟨[built], .ret none (some err)⟩
  | (none, none) => ⟨[built], .panic⟩
  | (some req0, none) =>
    let req : Request :=
      { req0 with Header := headerSet req0.Header "Content-Type" "application/json" }
    match c.doRequest w req with
    | (_, some err) => ⟨[built, .roundTrip req], .ret none (some err)⟩
    | (body, none) => ⟨[built, .roundTrip req], unmarshalProduct body⟩

/-- `func (c *Client) UpdateProduct(product *Product) (*Product, error)`, for a
non-nil `product`. -/
def Client.UpdateProduct (w : World) (c : Client) (product : Product) : Run Product :=
  let url := c.HostURL ++ "/products/" ++ Itoa product.ID
  let rb := Product.MarshalJSON product
  let built := Call.newRequest "PATCH" url (some rb)
  match NewRequest w "PATCH" url (some rb) with
  | (_, some err) => ⟨[built], .ret none (some err)⟩
  | (none, none) => ⟨[built], .panic⟩
  | (some req0, none) =>
    let req : Request :=
      { req0 with Header := headerSet req0.Header "Content-Type" "application/json" }
    match c.doRequest w req with
    | (_, some err) => ⟨[built, .roundTrip req], .ret none (some err)⟩
    | (body, none) => ⟨[built, .roundTrip req], unmarshalProduct body⟩

/-- `func (c *Client) DeleteProduct(id int) error`: the outcome carries the returned
error and no value. -/
def Client.DeleteProduct (w : World) (c : Client) (id : Int) : Run Unit :=
  let url := c.HostURL ++ "/products/" ++ Itoa id
  let built := Call.newRequest "DELETE" url none
  match NewRequest w "DELETE" url none with
  | (_, some err) => ⟨[built], .ret none (some err)⟩
  | (none, none) => ⟨[built], .panic⟩
  | (some req, none) =>
    match c.doRequest w req with
    | (_, some err) => ⟨[built, .roundTrip req], .ret none (some err)⟩
    | (_, none) => ⟨[built, .roundTrip req], .ret none none⟩

/-! ## Vocabulary of the properties: requests and worlds -/

/-- A world in which every URL parses and the network gives the same answer to
every request. -/
def World.fixed (rt : RoundTrip) : World :=
  { urlError := fun _ => none, exchange := fun _ => rt }

/-- A request without body and without header fields. -/
def plainRequest (method url : String) : Request :=
  { Method := method, URL := url, Body := none, Header := [] }

/-- A request carrying a JSON object, with `Content-Type: application/json`. -/
def jsonRequest (method url : String) (body : Members) : Request :=
  { Method := method, URL := url, Body := some body,
    Header := [("Content-Type", "application/json")] }

/-- The calls of an operation that builds the request `req`: `http.NewRequest`
with its method, URL and body and then, when the URL parses, the round trip of
`req`. -/
def callsFor (w : World) (req : Request) : List Call :=
  Call.newRequest req.Method req.URL req.Body ::
    (match w.urlError req.URL with
      | none => [Call.roundTrip req]
      | some _ => [])

/-- An outcome `out` is the transport step `r` followed by the decode step
`dec`: the error of the transport step and no value when it failed, otherwise
what `dec` makes of the body. -/
def TransportThenDecode {α : Type} (r : Option Body × Option GoErr)
    (dec : Option Body → Outcome α) (out : Outcome α) : Prop :=
  (∀ err, r.2 = some err → out = Outcome.ret none (some err)) ∧
  (r.2 = none → out = dec r.1)

/-- The run `run` of an operation is the building of `req`, then the transport
step, then the decode step `dec`: when the URL of `req` does not parse, the
operation returns that error and makes no round trip; otherwise its outcome is
the transport step on `req` followed by `dec`. -/
def BuildTransportDecode {α : Type} (w : World) (c : Client) (req : Request)
    (dec : Option Body → Outcome α) (run : Run α) : Prop :=
  (∀ err, w.urlError req.URL = some err →
    run.out = Outcome.ret none (some err) ∧ ∀ r, Call.roundTrip r ∉ run.calls) ∧
  (w.urlError req.URL = none → TransportThenDecode (c.doRequest w req) dec run.out)

/-- A world in which the URL text `bad` does not parse, every other URL does,
and the network gives the same answer to every request. -/
def World.rejecting (bad : String) (err : GoErr) (rt : RoundTrip) : World :=
  { urlError := fun url => if url = bad then some err else none, exchange := fun _ => rt }

/-- The wire object has a member for the field tagged `name` whose value is a
JSON number. -/
def HasNumber (name : String) (ms : Members) : Prop :=
  ∃ m ∈ ms, keyIs m.1 name = true ∧ ∃ lit, m.2 = JVal.num lit

/-- The error is an `UnmarshalTypeError` about a struct field, made by
`encoding/json`, and not a value of `fmt.Errorf`. -/
def GoErr.isTypeErr : GoErr → Bool
  | .typeErr _ _ => true
  | _ => false

/-- The body of an answer to the product list request: a JSON array of two
objects, the second with the id text `x`. -/
def listBodyBadID : Body :=
  ⟨"[\x7b\"id\":\"1\",\"stock\":\"50\",\"price\":\"10.00\"\x7d," ++
      "\x7b\"id\":\"x\",\"stock\":\"30\",\"price\":\"20.00\"\x7d]",
    Scanned.valid (JDoc.array
      [JElem.object
          [("id", JVal.str "1"), ("stock", JVal.str "50"), ("price", JVal.str "10.00")],
        JElem.object
          [("id", JVal.str "x"), ("stock", JVal.str "30"), ("price", JVal.str "20.00")]])⟩

/-! # Theorems -/

/-! ## Go strings and UTF-8 -/

theorem char_valid (c : Char) :
    c.toNat < 55296 ∨ (57343 < c.toNat ∧ c.toNat < 1114112) := c.valid

theorem encodeRune_length_pos (c : Char) : 0 < (EncodeRune c).length := by
  unfold EncodeRune
  split_ifs <;> simp

theorem decodeRune_encodeRune (c : Char) (rest : List Nat) :
    DecodeRuneInString (EncodeRune c ++ rest) = (c, (EncodeRune c).length) := by
  have hv := char_valid c
  have hc := Char.ofNat_toNat c
  unfold EncodeRune
  generalize c.toNat = n at hv hc
  by_cases h1 : n < 128
  · simp [h1, DecodeRuneInString, hc]
  · by_cases h2 : n < 2048
    · have e1 : ¬ (192 + n / 64 < 128) := by omega
      have e2 : ¬ (192 + n / 64 < 194 ∨ 244 < 192 + n / 64) := by omega
      have e3 : ¬ (128 + n % 64 <
            (if 192 + n / 64 = 224 then 160 else if 192 + n / 64 = 240 then 144 else 128) ∨
          (if 192 + n / 64 = 237 then 159 else if 192 + n / 64 = 244 then 143 else 191) <
            128 + n % 64) := by
        split_ifs <;> omega
      have e4 : 192 + n / 64 < 224 := by omega
      have e5 : (192 + n / 64) % 32 * 64 + (128 + n % 64) % 64 = n := by omega
      simp only [h1, h2, if_true, if_false, List.cons_append, List.nil_append,
        DecodeRuneInString, e1, e2, e3, e4, e5, hc, List.length_cons, List.length_nil]
    · by_cases h3 : n < 65536
      · have e1 : ¬ (224 + n / 4096 < 128) := by omega
        have e2 : ¬ (224 + n / 4096 < 194 ∨ 244 < 224 + n / 4096) := by omega
        have e3 : ¬ (128 + n / 64 % 64 <
              (if 224 + n / 4096 = 224 then 160 else if 224 + n / 4096 = 240 then 144 else 128) ∨
            (if 224 + n / 4096 = 237 then 159 else if 224 + n / 4096 = 244 then 143 else 191) <
              128 + n / 64 % 64) := by
          split_ifs <;> omega
        have e4 : ¬ (224 + n / 4096 < 224) := by omega
        have e5 : ¬ (128 + n % 64 < 128 ∨ 191 < 128 + n % 64) := by omega
        have e6 : 224 + n / 4096 < 240 := by omega
        have e7 : (224 + n / 4096) % 16 * 4096 + (128 + n / 64 % 64) % 64 * 64 +
            (128 + n % 64) % 64 = n := by omega
        simp only [h1, h2, h3, if_true, if_false, List.cons_append, List.nil_append,
          DecodeRuneInString, e1, e2, e3, e4, e5, e6, e7, hc, List.length_cons, List.length_nil]
      · have e1 : ¬ (240 + n / 262144 < 128) := by omega
        have e2 : ¬ (240 + n / 262144 < 194 ∨ 244 < 240 + n / 262144) := by omega
        have e3 : ¬ (128 + n / 4096 % 64 <
              (if 240 + n / 262144 = 224 then 160
                else if 240 + n / 262144 = 240 then 144 else 128) ∨
            (if 240 + n / 262144 = 237 then 159
                else if 240 + n / 262144 = 244 then 143 else 191) <
              128 + n / 4096 % 64) := by
          split_ifs <;> omega
        have e4 : ¬ (240 + n / 262144 < 224) := by omega
        have e5 : ¬ (128 + n / 64 % 64 < 128 ∨ 191 < 128 + n / 64 % 64) := by omega
        have e6 : ¬ (240 + n / 262144 < 240) := by omega
        have e7 : ¬ (128 + n % 64 < 128 ∨ 191 < 128 + n % 64) := by omega
        have e8 : (240 + n / 262144) % 8 * 262144 + (128 + n / 4096 % 64) % 64 * 4096 +
            (128 + n / 64 % 64) % 64 * 64 + (128 + n % 64) % 64 = n := by omega
        simp only [h1, h2, h3, if_true, if_false, List.cons_append, List.nil_append,
          DecodeRuneInString, e1, e2, e3, e4, e5, e6, e7, e8, hc, List.length_cons,
          List.length_nil]

theorem encodeRunes_length (cs : List Char) : cs.length ≤ (EncodeRunes cs).length := by
  induction cs with
  | nil => simp [EncodeRunes]
  | cons c cs ih =>
    have := encodeRune_length_pos c
    simp only [EncodeRunes, List.length_append, List.length_cons]
    omega

theorem appendStringAux_encodeRunes (cs : List Char) (fuel : Nat) (h : cs.length ≤ fuel) :
    appendStringAux fuel (EncodeRunes cs) = cs := by
  induction cs generalizing fuel with
  | nil => cases fuel <;> rfl
  | cons c cs ih =>
    cases fuel with
    | zero => simp at h
    | succ f =>
      have hpos := encodeRune_length_pos c
      have hd := decodeRune_encodeRune c (EncodeRunes cs)
      simp only [EncodeRunes]
      cases he : EncodeRune c ++ EncodeRunes cs with
      | nil =>
        have := congrArg List.length he
        simp only [List.length_append, List.length_nil] at this
        omega
      | cons b bs =>
        rw [he] at hd
        simp only [appendStringAux, hd]
        rw [← he, List.drop_left]
        rw [ih f (by simpa using h)]

theorem appendString_ofText (t : String) : appendString (GoString.ofText t) = t := by
  unfold appendString GoString.ofText
  simp only
  rw [appendStringAux_encodeRunes _ _ (encodeRunes_length _)]

theorem ofText_appendString (s : GoString) (h : s.IsValidUTF8) :
    GoString.ofText (appendString s) = s := by
  obtain ⟨t, rfl⟩ := h
  rw [appendString_ofText]

theorem isValidUTF8_iff (s : GoString) :
    s.IsValidUTF8 ↔ GoString.ofText (appendString s) = s :=
  ⟨ofText_appendString s, fun h => ⟨appendString s, h.symm⟩⟩

theorem isValidUTF8_ofText (t : String) : (GoString.ofText t).IsValidUTF8 := ⟨t, rfl⟩

/-! ## Decimal digits -/

theorem digitChar_toNat (d : Nat) : (digitChar d).toNat = 48 + d % 10 := by
  have h : d % 10 < 10 := Nat.mod_lt _ (by decide)
  unfold digitChar
  generalize d % 10 = r at h
  interval_cases r <;> rfl

theorem isDigit_digitChar (d : Nat) : isDigit (digitChar d) = true := by
  have h : d % 10 < 10 := Nat.mod_lt _ (by decide)
  simp only [isDigit, digitChar_toNat, Bool.and_eq_true, decide_eq_true_eq]
  omega

theorem digitVal_digitChar (d : Nat) : digitVal (digitChar d) = d % 10 := by
  simp only [digitVal, digitChar_toNat]
  omega

theorem parseDigitsAux_append (xs ys : List Char) (acc : Nat) :
    parseDigitsAux (xs ++ ys) acc = (parseDigitsAux xs acc).bind (parseDigitsAux ys) := by
  induction xs generalizing acc with
  | nil => rfl
  | cons c cs ih =>
    simp only [List.cons_append, parseDigitsAux]
    split
    · exact ih _
    · rfl

theorem utoaAux_acc (fuel n : Nat) (acc : List Char) :
    utoaAux fuel n acc = utoaAux fuel n [] ++ acc := by
  induction fuel generalizing n acc with
  | zero => rfl
  | succ f ih =>
    simp only [utoaAux]
    split
    · rfl
    · rw [ih (n / 10) (digitChar (n % 10) :: acc), ih (n / 10) [digitChar (n % 10)]]
      simp

theorem utoaAux_ne_nil (fuel n : Nat) (acc : List Char) : utoaAux (fuel + 1) n acc ≠ [] := by
  simp only [utoaAux]
  split
  · simp
  · rw [utoaAux_acc]
    simp

theorem utoa_ne_nil (n : Nat) : utoa n ≠ [] := utoaAux_ne_nil n n []

theorem utoaAux_digits (fuel n : Nat) : ∀ c ∈ utoaAux fuel n [], isDigit c = true := by
  induction fuel generalizing n with
  | zero => simp [utoaAux]
  | succ f ih =>
    intro c hc
    simp only [utoaAux] at hc
    split at hc
    · simp only [List.mem_singleton] at hc
      rw [hc]
      exact isDigit_digitChar n
    · rw [utoaAux_acc] at hc
      simp only [List.mem_append, List.mem_singleton] at hc
      rcases hc with hc | hc
      · exact ih _ c hc
      · rw [hc]
        exact isDigit_digitChar _

theorem utoa_digits (n : Nat) : ∀ c ∈ utoa n, isDigit c = true := utoaAux_digits _ n

theorem parseDigitsAux_utoaAux (fuel n : Nat) (h : n < fuel) :
    parseDigitsAux (utoaAux fuel n []) 0 = some n := by
  induction fuel generalizing n with
  | zero => omega
  | succ f ih =>
    simp only [utoaAux]
    split
    · rename_i h10
      simp only [parseDigitsAux, isDigit_digitChar, digitVal_digitChar, if_true]
      congr 1
      omega
    · rename_i h10
      rw [utoaAux_acc, parseDigitsAux_append, ih (n / 10) (by omega)]
      simp only [Option.bind, parseDigitsAux, isDigit_digitChar, digitVal_digitChar, if_true]
      congr 1
      omega

theorem parseDigits_utoa (n : Nat) : parseDigits (utoa n) = some n := by
  have h := parseDigitsAux_utoaAux (n + 1) n (by omega)
  have hne := utoa_ne_nil n
  unfold parseDigits
  unfold utoa at hne ⊢
  split
  · rename_i heq
    exact absurd heq hne
  · exact h

theorem utoa_head_not_sign (n : Nat) (c : Char) (cs : List Char) (h : utoa n = c :: cs) :
    c ≠ '-' ∧ c ≠ '+' := by
  have hd := utoa_digits n c (by rw [h]; simp)
  constructor <;> (rintro rfl; revert hd; decide)

theorem Atoi_Itoa (i : Int) (h : IsGoInt i) : Atoi (Itoa i) = some i := by
  unfold IsGoInt minInt maxInt at h
  unfold Itoa
  by_cases hneg : i < 0
  · simp only [hneg, if_true, Atoi, parseDigits_utoa]
    have : i.natAbs ≤ 9223372036854775808 := by omega
    simp only [this, if_true]
    congr 1
    omega
  · simp only [hneg, if_false, Atoi]
    have hne := utoa_ne_nil i.toNat
    cases hu : utoa i.toNat with
    | nil => exact absurd hu hne
    | cons c cs =>
      have hs := utoa_head_not_sign _ c cs hu
      simp only [hs.1, hs.2, if_false]
      rw [← hu, parseDigits_utoa]
      have : i.toNat ≤ 9223372036854775807 := by omega
      simp only [this, if_true]
      congr 1
      omega

/-! ## Atoi against the written integer -/

theorem parseDigitsAux_eq (ds : List Char) (acc : Nat) (h : ∀ c ∈ ds, isDigit c = true) :
    parseDigitsAux ds acc = some (acc * 10 ^ ds.length + decimalValue ds) := by
  induction ds generalizing acc with
  | nil => simp [parseDigitsAux, decimalValue]
  | cons c cs ih =>
    have hc : isDigit c = true := h c (by simp)
    simp only [parseDigitsAux, hc, if_true]
    rw [ih _ (fun x hx => h x (by simp [hx]))]
    simp only [decimalValue, List.length_cons, pow_succ]
    congr 1
    ring

theorem parseDigitsAux_some (ds : List Char) (acc n : Nat) (h : parseDigitsAux ds acc = some n) :
    ∀ c ∈ ds, isDigit c = true := by
  induction ds generalizing acc with
  | nil => simp
  | cons c cs ih =>
    simp only [parseDigitsAux] at h
    split at h
    · rename_i hc
      intro x hx
      simp only [List.mem_cons] at hx
      rcases hx with rfl | hx
      · exact hc
      · exact ih _ h x hx
    · exact absurd h (by simp)

theorem parseDigits_eq_some (ds : List Char) (n : Nat) :
    parseDigits ds = some n ↔
      ds ≠ [] ∧ (∀ c ∈ ds, isDigit c = true) ∧ n = decimalValue ds := by
  cases ds with
  | nil => simp [parseDigits]
  | cons c cs =>
    simp only [parseDigits, ne_eq, reduceCtorEq, not_false_eq_true, true_and]
    constructor
    · intro h
      have hd := parseDigitsAux_some _ _ _ h
      rw [parseDigitsAux_eq _ _ hd] at h
      simp only [zero_mul, zero_add, Option.some.injEq] at h
      exact ⟨hd, h.symm⟩
    · rintro ⟨hd, rfl⟩
      rw [parseDigitsAux_eq _ _ hd]
      simp

theorem Atoi_eq_some (raw : String) (v : Int) :
    Atoi raw = some v ↔ DenotesInt raw v ∧ IsGoInt v := by
  have hminus : isDigit '-' = false := by decide
  have hplus : isDigit '+' = false := by decide
  unfold Atoi DenotesInt IsGoInt minInt maxInt
  cases hdata : raw.data with
  | nil =>
    constructor
    · intro h
      exact absurd h (by simp)
    · rintro ⟨⟨ds, hne, -, h | h | h⟩, -⟩
      · exact absurd h.1.symm hne
      · exact absurd h.1 (by simp)
      · exact absurd h.1 (by simp)
  | cons c cs =>
    by_cases hc1 : c = '-'
    · subst hc1
      simp only [if_true]
      constructor
      · intro h
        cases hp : parseDigits cs with
        | none => simp [hp] at h
        | some n =>
          simp only [hp] at h
          split at h
          · rename_i hn
            simp only [Option.some.injEq] at h
            obtain ⟨hne, hd, rfl⟩ := (parseDigits_eq_some cs n).1 hp
            refine ⟨⟨cs, hne, hd, Or.inr (Or.inr ⟨rfl, h.symm⟩)⟩, ?_⟩
            omega
          · exact absurd h (by simp)
      · rintro ⟨⟨ds, hne, hd, h | h | h⟩, hr⟩
        · exfalso
          have := hd '-' (by rw [← h.1]; simp)
          rw [hminus] at this
          exact absurd this (by simp)
        · exact absurd h.1 (by simp)
        · obtain ⟨h1, h2⟩ := h
          simp only [List.cons.injEq, true_and] at h1
          subst h1
          rw [(parseDigits_eq_some cs _).2 ⟨hne, hd, rfl⟩]
          have : decimalValue cs ≤ 9223372036854775808 := by omega
          simp only [this, if_true, h2]
    · simp only [hc1, if_false]
      by_cases hc2 : c = '+'
      · subst hc2
        simp only [if_true]
        constructor
        · intro h
          cases hp : parseDigits cs with
          | none => simp [hp] at h
          | some n =>
            simp only [hp] at h
            split at h
            · rename_i hn
              simp only [Option.some.injEq] at h
              obtain ⟨hne, hd, rfl⟩ := (parseDigits_eq_some cs n).1 hp
              refine ⟨⟨cs, hne, hd, Or.inr (Or.inl ⟨rfl, h.symm⟩)⟩, ?_⟩
              omega
            · exact absurd h (by simp)
        · rintro ⟨⟨ds, hne, hd, h | h | h⟩, hr⟩
          · exfalso
            have := hd '+' (by rw [← h.1]; simp)
            rw [hplus] at this
            exact absurd this (by simp)
          · obtain ⟨h1, h2⟩ := h
            simp only [List.cons.injEq, true_and] at h1
            subst h1
            rw [(parseDigits_eq_some cs _).2 ⟨hne, hd, rfl⟩]
            have : decimalValue cs ≤ 9223372036854775807 := by omega
            simp only [this, if_true, h2]
          · exact absurd h.1 (by simp)
      · simp only [hc2, if_false]
        constructor
        · intro h
          cases hp : parseDigits (c :: cs) with
          | none => simp [hp] at h
          | some n =>
            simp only [hp] at h
            split at h
            · rename_i hn
              simp only [Option.some.injEq] at h
              obtain ⟨hne, hd, rfl⟩ := (parseDigits_eq_some _ n).1 hp
              refine ⟨⟨c :: cs, hne, hd, Or.inl ⟨rfl, h.symm⟩⟩, ?_⟩
              omega
            · exact absurd h (by simp)
        · rintro ⟨⟨ds, hne, hd, h | h | h⟩, hr⟩
          · obtain ⟨h1, h2⟩ := h
            subst h1
            rw [(parseDigits_eq_some _ _).2 ⟨hne, hd, rfl⟩]
            have : decimalValue (c :: cs) ≤ 9223372036854775807 := by omega
            simp only [this, if_true, h2]
          · exact absurd h.1 (by simp [hc2])
          · exact absurd h.1 (by simp [hc1])

theorem Atoi_eq_none (raw : String) : Atoi raw = none ↔ ¬ IsBase10Int raw := by
  unfold IsBase10Int
  constructor
  · rintro h ⟨v, hv⟩
    rw [(Atoi_eq_some raw v).2 hv] at h
    exact absurd h (by simp)
  · intro h
    cases ha : Atoi raw with
    | none => rfl
    | some v => exact absurd ⟨v, (Atoi_eq_some raw v).1 ha⟩ h

/-! ## Member names and the temporary structs -/

theorem keyIs_iff (k a : String) : keyIs k a = true ↔ foldName k = foldName a := by
  unfold keyIs
  simp only [Bool.or_eq_true, beq_iff_eq]
  constructor
  · rintro (h | h)
    · rw [h]
    · exact h
  · intro h
    exact Or.inr h

theorem keyIs_excl (k a b : String) (h : keyIs k a = true) (hab : foldName a ≠ foldName b) :
    keyIs k b = false := by
  cases hb : keyIs k b with
  | false => rfl
  | true =>
    rw [keyIs_iff] at h hb
    exact absurd (h.symm.trans hb) hab

theorem lookupStr_nil (name dflt : String) : lookupStr name [] dflt = dflt := rfl

theorem lookupStr_cons (name dflt : String) (m : String × JVal) (ms : Members) :
    lookupStr name (m :: ms) dflt =
      lookupStr name ms
        (if keyIs m.1 name then (match m.2 with | .str s => s | _ => dflt) else dflt) := rfl

theorem lookupStr_append (name dflt : String) (xs ys : Members) :
    lookupStr name (xs ++ ys) dflt = lookupStr name ys (lookupStr name xs dflt) := by
  simp only [lookupStr, List.foldl_append]

theorem lookupStr_omitEmpty (name key : String) (v : GoString) (dflt : String) :
    lookupStr name (omitEmpty key v) dflt =
      if keyIs key name ∧ v ≠ "" then appendString v else dflt := by
  unfold omitEmpty
  by_cases hv : v = ""
  · simp [hv, lookupStr_nil]
  · simp [hv, lookupStr_cons, lookupStr_nil]

theorem lookupField_nil (name : String) (dflt : GoString) : lookupField name [] dflt = dflt := rfl

theorem lookupField_cons (name : String) (dflt : GoString) (m : String × JVal) (ms : Members) :
    lookupField name (m :: ms) dflt =
      lookupField name ms
        (if keyIs m.1 name then (match m.2 with | .str s => GoString.ofText s | _ => dflt)
          else dflt) := rfl

theorem lookupField_append (name : String) (dflt : GoString) (xs ys : Members) :
    lookupField name (xs ++ ys) dflt = lookupField name ys (lookupField name xs dflt) := by
  simp only [lookupField, List.foldl_append]

theorem lookupField_omitEmpty (name key : String) (v dflt : GoString) :
    lookupField name (omitEmpty key v) dflt =
      if keyIs key name ∧ v ≠ "" then GoString.ofText (appendString v) else dflt := by
  unfold omitEmpty
  by_cases hv : v = ""
  · simp [hv, lookupField_nil]
  · simp [hv, lookupField_cons, lookupField_nil]

theorem lookupField_absent (name : String) (dflt : GoString) (ms : Members)
    (h : Absent name ms) : lookupField name ms dflt = dflt := by
  induction ms generalizing dflt with
  | nil => rfl
  | cons m ms ih =>
    rw [lookupField_cons, h m (by simp)]
    exact ih _ (fun x hx => h x (by simp [hx]))

theorem lookupStr_absent (name dflt : String) (ms : Members) (h : Absent name ms) :
    lookupStr name ms dflt = dflt := by
  induction ms generalizing dflt with
  | nil => rfl
  | cons m ms ih =>
    rw [lookupStr_cons, h m (by simp)]
    exact ih _ (fun x hx => h x (by simp [hx]))

theorem isStr_iff (v : JVal) : v.isStr = true ↔ ∃ s, v = JVal.str s := by
  cases v <;> simp [JVal.isStr]

theorem allStrings_cons (m : String × JVal) (ms : Members) (h : AllStrings (m :: ms)) :
    (∃ s, m.2 = JVal.str s) ∧ AllStrings ms :=
  ⟨(isStr_iff _).1 (h m (by simp)), fun x hx => h x (by simp [hx])⟩

theorem allStrings_append (xs ys : Members) (hx : AllStrings xs) (hy : AllStrings ys) :
    AllStrings (xs ++ ys) := by
  intro m hm
  rcases List.mem_append.1 hm with h | h
  · exact hx m h
  · exact hy m h

theorem allStrings_omitEmpty (k : String) (v : GoString) : AllStrings (omitEmpty k v) := by
  unfold omitEmpty
  split
  · intro m hm
    simp at hm
  · intro m hm
    simp only [List.mem_singleton] at hm
    subst hm
    rfl

theorem ite_empty (v : GoString) :
    (if v = "" then ("" : GoString) else GoString.ofText (appendString v)) =
      GoString.ofText (appendString v) := by
  by_cases h : v = ""
  · rw [if_pos h, h]
    rfl
  · rw [if_neg h]

theorem user_key_cases (k : String) :
    (keyIs k "id" = true ∧ keyIs k "name" = false ∧ keyIs k "lastName" = false ∧
      keyIs k "address" = false ∧ keyIs k "favoriteDogBreed" = false ∧
      keyIs k "createdAt" = false) ∨
    (keyIs k "id" = false ∧ keyIs k "name" = true ∧ keyIs k "lastName" = false ∧
      keyIs k "address" = false ∧ keyIs k "favoriteDogBreed" = false ∧
      keyIs k "createdAt" = false) ∨
    (keyIs k "id" = false ∧ keyIs k "name" = false ∧ keyIs k "lastName" = true ∧
      keyIs k "address" = false ∧ keyIs k "favoriteDogBreed" = false ∧
      keyIs k "createdAt" = false) ∨
    (keyIs k "id" = false ∧ keyIs k "name" = false ∧ keyIs k "lastName" = false ∧
      keyIs k "address" = true ∧ keyIs k "favoriteDogBreed" = false ∧
      keyIs k "createdAt" = false) ∨
    (keyIs k "id" = false ∧ keyIs k "name" = false ∧ keyIs k "lastName" = false ∧
      keyIs k "address" = false ∧ keyIs k "favoriteDogBreed" = true ∧
      keyIs k "createdAt" = false) ∨
    (keyIs k "id" = false ∧ keyIs k "name" = false ∧ keyIs k "lastName" = false ∧
      keyIs k "address" = false ∧ keyIs k "favoriteDogBreed" = false ∧
      keyIs k "createdAt" = true) ∨
    (keyIs k "id" = false ∧ keyIs k "name" = false ∧ keyIs k "lastName" = false ∧
      keyIs k "address" = false ∧ keyIs k "favoriteDogBreed" = false ∧
      keyIs k "createdAt" = false) := by
  cases h1 : keyIs k "id"
  · cases h2 : keyIs k "name"
    · cases h3 : keyIs k "lastName"
      · cases h4 : keyIs k "address"
        · cases h5 : keyIs k "favoriteDogBreed"
          · cases h6 : keyIs k "createdAt"
            · simp
            · simp
          · simp [keyIs_excl k _ "createdAt" h5 (by decide)]
        · simp [keyIs_excl k _ "favoriteDogBreed" h4 (by decide),
            keyIs_excl k _ "createdAt" h4 (by decide)]
      · simp [keyIs_excl k _ "address" h3 (by decide),
          keyIs_excl k _ "favoriteDogBreed" h3 (by decide),
          keyIs_excl k _ "createdAt" h3 (by decide)]
    · simp [keyIs_excl k _ "lastName" h2 (by decide), keyIs_excl k _ "address" h2 (by decide),
        keyIs_excl k _ "favoriteDogBreed" h2 (by decide),
        keyIs_excl k _ "createdAt" h2 (by decide)]
  · simp [keyIs_excl k _ "name" h1 (by decide), keyIs_excl k _ "lastName" h1 (by decide),
      keyIs_excl k _ "address" h1 (by decide), keyIs_excl k _ "favoriteDogBreed" h1 (by decide),
      keyIs_excl k _ "createdAt" h1 (by decide)]

theorem userTemp_foldl_strings (ms : Members) (h : AllStrings ms) (t : UserTemp)
    (saved : Option GoErr) :
    ms.foldl UserTemp.setMember (t, saved) =
      (⟨lookupStr "id" ms t.ID,
        ⟨t.Alias.ID, lookupField "name" ms t.Alias.Name,
          lookupField "lastName" ms t.Alias.LastName,
          lookupField "address" ms t.Alias.Address,
          lookupField "favoriteDogBreed" ms t.Alias.FavoriteDogBreed,
          lookupField "createdAt" ms t.Alias.CreatedAt⟩⟩, saved) := by
  induction ms generalizing t with
  | nil => rfl
  | cons m ms ih =>
    obtain ⟨⟨s, hs⟩, hrest⟩ := allStrings_cons m ms h
    obtain ⟨k, v⟩ := m
    simp only at hs
    subst hs
    rw [List.foldl_cons]
    rcases user_key_cases k with h | h | h | h | h | h | h <;>
      obtain ⟨h1, h2, h3, h4, h5, h6⟩ := h <;>
      simp only [UserTemp.setMember, storeString, storeField, lookupStr_cons, lookupField_cons,
        h1, h2, h3, h4, h5, h6, if_true, if_false, Bool.false_eq_true] <;>
      rw [ih hrest]

/-! ## User: round trip and id validation -/

theorem user_keys :
    keyIs "id" "id" = true ∧ keyIs "id" "name" = false ∧ keyIs "id" "lastName" = false ∧
    keyIs "id" "address" = false ∧ keyIs "id" "favoriteDogBreed" = false ∧
    keyIs "id" "createdAt" = false ∧
    keyIs "name" "id" = false ∧ keyIs "name" "name" = true ∧ keyIs "name" "lastName" = false ∧
    keyIs "name" "address" = false ∧ keyIs "name" "favoriteDogBreed" = false ∧
    keyIs "name" "createdAt" = false ∧
    keyIs "lastName" "id" = false ∧ keyIs "lastName" "name" = false ∧
    keyIs "lastName" "lastName" = true ∧ keyIs "lastName" "address" = false ∧
    keyIs "lastName" "favoriteDogBreed" = false ∧ keyIs "lastName" "createdAt" = false ∧
    keyIs "address" "id" = false ∧ keyIs "address" "name" = false ∧
    keyIs "address" "lastName" = false ∧ keyIs "address" "address" = true ∧
    keyIs "address" "favoriteDogBreed" = false ∧ keyIs "address" "createdAt" = false ∧
    keyIs "favoriteDogBreed" "id" = false ∧ keyIs "favoriteDogBreed" "name" = false ∧
    keyIs "favoriteDogBreed" "lastName" = false ∧ keyIs "favoriteDogBreed" "address" = false ∧
    keyIs "favoriteDogBreed" "favoriteDogBreed" = true ∧
    keyIs "favoriteDogBreed" "createdAt" = false ∧
    keyIs "createdAt" "id" = false ∧ keyIs "createdAt" "name" = false ∧
    keyIs "createdAt" "lastName" = false ∧ keyIs "createdAt" "address" = false ∧
    keyIs "createdAt" "favoriteDogBreed" = false ∧ keyIs "createdAt" "createdAt" = true := by
  decide

theorem user_marshal_allStrings (u : User) : AllStrings (User.MarshalJSON u) := by
  unfold User.MarshalJSON
  refine allStrings_append _ _ (allStrings_append _ _ (allStrings_append _ _
    (allStrings_append _ _ (allStrings_append _ _ ?_ ?_) ?_) ?_) ?_) ?_
  · intro m hm
    simp only [List.mem_singleton] at hm
    subst hm
    rfl
  all_goals exact allStrings_omitEmpty _ _

theorem user_unmarshal_strings (u : User) (ms : Members) (hs : AllStrings ms) :
    User.UnmarshalJSON u ms =
      match Atoi (lookupStr "id" ms "") with
      | none =>
        (⟨u.ID, lookupField "name" ms u.Name, lookupField "lastName" ms u.LastName,
          lookupField "address" ms u.Address,
          lookupField "favoriteDogBreed" ms u.FavoriteDogBreed,
          lookupField "createdAt" ms u.CreatedAt⟩,
          some (GoErr.errorf ("invalid id: " ++ lookupStr "id" ms "")))
      | some id =>
        (⟨id, lookupField "name" ms u.Name, lookupField "lastName" ms u.LastName,
          lookupField "address" ms u.Address,
          lookupField "favoriteDogBreed" ms u.FavoriteDogBreed,
          lookupField "createdAt" ms u.CreatedAt⟩, none) := by
  unfold User.UnmarshalJSON UserTemp.unmarshal
  rw [userTemp_foldl_strings ms hs]

theorem user_marshal_lookups (u : User) :
    lookupStr "id" (User.MarshalJSON u) "" = Itoa u.ID ∧
    lookupField "name" (User.MarshalJSON u) "" = GoString.ofText (appendString u.Name) ∧
    lookupField "lastName" (User.MarshalJSON u) "" =
      GoString.ofText (appendString u.LastName) ∧
    lookupField "address" (User.MarshalJSON u) "" = GoString.ofText (appendString u.Address) ∧
    lookupField "favoriteDogBreed" (User.MarshalJSON u) "" =
      GoString.ofText (appendString u.FavoriteDogBreed) ∧
    lookupField "createdAt" (User.MarshalJSON u) "" =
      GoString.ofText (appendString u.CreatedAt) := by
  simp [User.MarshalJSON, lookupStr_append, lookupStr_cons, lookupStr_nil,
    lookupStr_omitEmpty, lookupField_append, lookupField_cons, lookupField_nil,
    lookupField_omitEmpty, user_keys, ite_empty]

theorem user_decode_encode (u : User) (h : IsGoInt u.ID) :
    User.UnmarshalJSON User.zero (User.MarshalJSON u) =
      (⟨u.ID, GoString.ofText (appendString u.Name), GoString.ofText (appendString u.LastName),
        GoString.ofText (appendString u.Address),
        GoString.ofText (appendString u.FavoriteDogBreed),
        GoString.ofText (appendString u.CreatedAt)⟩, none) := by
  obtain ⟨h0, h1, h2, h3, h4, h5⟩ := user_marshal_lookups u
  rw [user_unmarshal_strings _ _ (user_marshal_allStrings u), h0, Atoi_Itoa _ h]
  simp only [User.zero, h1, h2, h3, h4, h5]

theorem user_valid_coerced (u : User) (h : u.ValidStrings) :
    (⟨u.ID, GoString.ofText (appendString u.Name), GoString.ofText (appendString u.LastName),
      GoString.ofText (appendString u.Address),
      GoString.ofText (appendString u.FavoriteDogBreed),
      GoString.ofText (appendString u.CreatedAt)⟩ : User) = u := by
  obtain ⟨h1, h2, h3, h4, h5⟩ := h
  rw [ofText_appendString _ h1, ofText_appendString _ h2, ofText_appendString _ h3,
    ofText_appendString _ h4, ofText_appendString _ h5]

/-- C1, counterexample: the `User` with id 5 and the three-byte name `a`, 0xFF,
`b`, which is not valid UTF-8. Encoding writes the name as `a`, U+FFFD, `b`,
and decoding the output into a fresh `User` succeeds with the five-byte name
`a`, 0xEF, 0xBF, 0xBD, `b`: the decoded record differs from the original. -/
theorem user_round_trip_counterexample :
    IsGoInt 5 ∧ ¬ GoString.IsValidUTF8 ⟨[97, 255, 98]⟩ ∧
    User.MarshalJSON ⟨5, ⟨[97, 255, 98]⟩, "", "", "", ""⟩ =
      [("id", JVal.str "5"), ("name", JVal.str (String.mk ['a', Char.ofNat 65533, 'b']))] ∧
    User.UnmarshalJSON User.zero (User.MarshalJSON ⟨5, ⟨[97, 255, 98]⟩, "", "", "", ""⟩) =
      (⟨5, ⟨[97, 239, 191, 189, 98]⟩, "", "", "", ""⟩, none) ∧
    User.UnmarshalJSON User.zero (User.MarshalJSON ⟨5, ⟨[97, 255, 98]⟩, "", "", "", ""⟩) ≠
      (⟨5, ⟨[97, 255, 98]⟩, "", "", "", ""⟩, none) :=
  ⟨by decide, fun h => absurd ((isValidUTF8_iff _).1 h) (by decide), by decide, by decide,
    by decide⟩

/-- C1, amended: for every User record whose id is a Go int and whose string
fields are valid UTF-8 (empty ones included), decoding the output of
`MarshalJSON` into a fresh `User` succeeds and yields the same record. Whatever
the string fields, decoding succeeds and yields the record with every string
field replaced by its valid UTF-8 form, each byte that is not part of a valid
UTF-8 sequence having become U+FFFD; so the result is the same record only when
every string field is valid UTF-8. -/
theorem user_round_trip (u : User) (h : IsGoInt u.ID) :
    (u.ValidStrings → User.UnmarshalJSON User.zero (User.MarshalJSON u) = (u, none)) ∧
    User.UnmarshalJSON User.zero (User.MarshalJSON u) =
      (⟨u.ID, GoString.ofText (appendString u.Name), GoString.ofText (appendString u.LastName),
        GoString.ofText (appendString u.Address),
        GoString.ofText (appendString u.FavoriteDogBreed),
        GoString.ofText (appendString u.CreatedAt)⟩, none) ∧
    (User.UnmarshalJSON User.zero (User.MarshalJSON u) = (u, none) → u.ValidStrings) := by
  have hd := user_decode_encode u h
  refine ⟨fun hv => ?_, hd, ?_⟩
  · rw [hd, user_valid_coerced u hv]
  · rw [hd]
    unfold User.ValidStrings
    simp only [isValidUTF8_iff]
    intro he
    have hu := congrArg Prod.fst he
    simp only at hu
    exact ⟨congrArg User.Name hu, congrArg User.LastName hu, congrArg User.Address hu,
      congrArg User.FavoriteDogBreed hu, congrArg User.CreatedAt hu⟩

/-- Witness of C1 (amended): the record of `TestUserMarshalUnmarshal`, whose
strings are valid UTF-8, comes back unchanged. -/
theorem user_round_trip_witness :
    IsGoInt 2 ∧
    User.ValidStrings
      ⟨2, "Alice", "Smith", "456 Oak St", "Golden Retriever", "2024-08-06T10:00:00Z"⟩ ∧
    User.UnmarshalJSON User.zero
      (User.MarshalJSON
        ⟨2, "Alice", "Smith", "456 Oak St", "Golden Retriever", "2024-08-06T10:00:00Z"⟩) =
      (⟨2, "Alice", "Smith", "456 Oak St", "Golden Retriever", "2024-08-06T10:00:00Z"⟩, none) :=
  ⟨by decide,
    ⟨isValidUTF8_ofText _, isValidUTF8_ofText _, isValidUTF8_ofText _, isValidUTF8_ofText _,
      isValidUTF8_ofText _⟩,
    (user_round_trip _ (by decide)).1
      ⟨isValidUTF8_ofText _, isValidUTF8_ofText _, isValidUTF8_ofText _, isValidUTF8_ofText _,
        isValidUTF8_ofText _⟩⟩

/-- C3: on a wire object whose members are JSON strings, with `raw` the value
given for `id` (empty when absent), `User.UnmarshalJSON` fails with exactly
`invalid id: <raw>` when `raw` is not a base-10 integer within the `int` range
(as for the empty text, `abc` and `1.5`), and otherwise succeeds with the
integer denoted as id (`0` gives 0) and every other field taken from the
input. -/
theorem user_decode_id_validation (u : User) (ms : Members) (hs : AllStrings ms) :
    (¬ IsBase10Int (lookupStr "id" ms "") →
      ∃ t, User.UnmarshalJSON u ms =
        (t, some (GoErr.errorf ("invalid id: " ++ lookupStr "id" ms ""))) ∧
        (GoErr.errorf ("invalid id: " ++ lookupStr "id" ms "")).Error =
          "invalid id: " ++ lookupStr "id" ms "") ∧
    (∀ v, DenotesInt (lookupStr "id" ms "") v → IsGoInt v →
      User.UnmarshalJSON u ms =
        (⟨v, lookupField "name" ms u.Name, lookupField "lastName" ms u.LastName,
          lookupField "address" ms u.Address,
          lookupField "favoriteDogBreed" ms u.FavoriteDogBreed,
          lookupField "createdAt" ms u.CreatedAt⟩, none)) ∧
    ¬ IsBase10Int "" ∧ ¬ IsBase10Int "abc" ∧ ¬ IsBase10Int "1.5" ∧
    DenotesInt "0" 0 ∧ IsGoInt 0 := by
  refine ⟨?_, ?_, (Atoi_eq_none _).1 (by decide), (Atoi_eq_none _).1 (by decide),
    (Atoi_eq_none _).1 (by decide), ((Atoi_eq_some "0" 0).1 (by decide)).1, by decide⟩
  · intro h
    rw [user_unmarshal_strings u ms hs, (Atoi_eq_none _).2 h]
    exact ⟨_, rfl, rfl⟩
  · intro v hv hr
    rw [user_unmarshal_strings u ms hs, (Atoi_eq_some _ v).2 ⟨hv, hr⟩]

/-- Witness of C3: the object of `TestUserUnmarshalJSON_InvalidID`. -/
theorem user_decode_id_validation_witness :
    AllStrings [("id", JVal.str "abc"), ("name", JVal.str "John"), ("lastName", JVal.str "Doe")] ∧
    ∃ t, User.UnmarshalJSON User.zero
        [("id", JVal.str "abc"), ("name", JVal.str "John"), ("lastName", JVal.str "Doe")] =
      (t, some (GoErr.errorf ("invalid id: " ++
        lookupStr "id"
          [("id", JVal.str "abc"), ("name", JVal.str "John"), ("lastName", JVal.str "Doe")] "")))
      ∧ (GoErr.errorf ("invalid id: " ++
        lookupStr "id"
          [("id", JVal.str "abc"), ("name", JVal.str "John"), ("lastName", JVal.str "Doe")]
          "")).Error = "invalid id: " ++
        lookupStr "id"
          [("id", JVal.str "abc"), ("name", JVal.str "John"), ("lastName", JVal.str "Doe")] "" :=
  ⟨by decide, (user_decode_id_validation User.zero
    [("id", JVal.str "abc"), ("name", JVal.str "John"), ("lastName", JVal.str "Doe")]
    (by decide)).1 ((Atoi_eq_none _).1 (by decide))⟩

/-! ## Product: member names and the temporary struct -/

theorem product_key_cases (k : String) :
(keyIs k "id" = true ∧ keyIs k "price" = false ∧ keyIs k "stock" = false ∧ keyIs k "name" = false
      ∧ keyIs k "createdAt" = false ∧ keyIs k "type" = false ∧ keyIs k "department" = false) ∨
    (keyIs k "id" = false ∧ keyIs k "price" = true ∧ keyIs k "stock" = false ∧ keyIs k "name" = false
      ∧ keyIs k "createdAt" = false ∧ keyIs k "type" = false ∧ keyIs k "department" = false) ∨
    (keyIs k "id" = false ∧ keyIs k "price" = false ∧ keyIs k "stock" = true ∧ keyIs k "name" = false
      ∧ keyIs k "createdAt" = false ∧ keyIs k "type" = false ∧ keyIs k "department" = false) ∨
    (keyIs k "id" = false ∧ keyIs k "price" = false ∧ keyIs k "stock" = false ∧ keyIs k "name" = true
      ∧ keyIs k "createdAt" = false ∧ keyIs k "type" = false ∧ keyIs k "department" = false) ∨
    (keyIs k "id" = false ∧ keyIs k "price" = false ∧ keyIs k "stock" = false ∧ keyIs k "name" = false
      ∧ keyIs k "createdAt" = true ∧ keyIs k "type" = false ∧ keyIs k "department" = false) ∨
    (keyIs k "id" = false ∧ keyIs k "price" = false ∧ keyIs k "stock" = false ∧ keyIs k "name" = false
      ∧ keyIs k "createdAt" = false ∧ keyIs k "type" = true ∧ keyIs k "department" = false) ∨
    (keyIs k "id" = false ∧ keyIs k "price" = false ∧ keyIs k "stock" = false ∧ keyIs k "name" = false
      ∧ keyIs k "createdAt" = false ∧ keyIs k "type" = false ∧ keyIs k "department" = true) ∨
    (keyIs k "id" = false ∧ keyIs k "price" = false ∧ keyIs k "stock" = false ∧ keyIs k "name" = false
      ∧ keyIs k "createdAt" = false ∧ keyIs k "type" = false ∧ keyIs k "department" = false) := by
  cases h0 : keyIs k "id"
  · cases h1 : keyIs k "price"
    · cases h2 : keyIs k "stock"
      · cases h3 : keyIs k "name"
        · cases h4 : keyIs k "createdAt"
          · cases h5 : keyIs k "type"
            · cases h6 : keyIs k "department"
              · simp
              · simp
            · simp [keyIs_excl k _ "department" h5 (by decide)]
          · simp [keyIs_excl k _ "type" h4 (by decide),
              keyIs_excl k _ "department" h4 (by decide)]
        · simp [keyIs_excl k _ "createdAt" h3 (by decide), keyIs_excl k _ "type" h3 (by decide),
            keyIs_excl k _ "department" h3 (by decide)]
      · simp [keyIs_excl k _ "name" h2 (by decide), keyIs_excl k _ "createdAt" h2 (by decide),
          keyIs_excl k _ "type" h2 (by decide), keyIs_excl k _ "department" h2 (by decide)]
    · simp [keyIs_excl k _ "stock" h1 (by decide), keyIs_excl k _ "name" h1 (by decide),
        keyIs_excl k _ "createdAt" h1 (by decide), keyIs_excl k _ "type" h1 (by decide),
        keyIs_excl k _ "department" h1 (by decide)]
  · simp [keyIs_excl k _ "price" h0 (by decide), keyIs_excl k _ "stock" h0 (by decide),
      keyIs_excl k _ "name" h0 (by decide), keyIs_excl k _ "createdAt" h0 (by decide),
      keyIs_excl k _ "type" h0 (by decide), keyIs_excl k _ "department" h0 (by decide)]

theorem product_keys :
    keyIs "id" "id" = true ∧ keyIs "id" "price" = false ∧ keyIs "id" "stock" = false ∧
    keyIs "id" "name" = false ∧ keyIs "id" "createdAt" = false ∧ keyIs "id" "type" = false ∧
    keyIs "id" "department" = false ∧ keyIs "price" "id" = false ∧ keyIs "price" "price" = true ∧
    keyIs "price" "stock" = false ∧ keyIs "price" "name" = false ∧
    keyIs "price" "createdAt" = false ∧ keyIs "price" "type" = false ∧
    keyIs "price" "department" = false ∧ keyIs "stock" "id" = false ∧
    keyIs "stock" "price" = false ∧ keyIs "stock" "stock" = true ∧ keyIs "stock" "name" = false ∧
    keyIs "stock" "createdAt" = false ∧ keyIs "stock" "type" = false ∧
    keyIs "stock" "department" = false ∧ keyIs "name" "id" = false ∧
    keyIs "name" "price" = false ∧ keyIs "name" "stock" = false ∧ keyIs "name" "name" = true ∧
    keyIs "name" "createdAt" = false ∧ keyIs "name" "type" = false ∧
    keyIs "name" "department" = false ∧ keyIs "createdAt" "id" = false ∧
    keyIs "createdAt" "price" = false ∧ keyIs "createdAt" "stock" = false ∧
    keyIs "createdAt" "name" = false ∧ keyIs "createdAt" "createdAt" = true ∧
    keyIs "createdAt" "type" = false ∧ keyIs "createdAt" "department" = false ∧
    keyIs "type" "id" = false ∧ keyIs "type" "price" = false ∧ keyIs "type" "stock" = false ∧
    keyIs "type" "name" = false ∧ keyIs "type" "createdAt" = false ∧ keyIs "type" "type" = true ∧
    keyIs "type" "department" = false ∧ keyIs "department" "id" = false ∧
    keyIs "department" "price" = false ∧ keyIs "department" "stock" = false ∧
    keyIs "department" "name" = false ∧ keyIs "department" "createdAt" = false ∧
    keyIs "department" "type" = false ∧ keyIs "department" "department" = true := by
  decide

theorem productTemp_foldl_strings (ms : Members) (h : AllStrings ms) (t : ProductTemp)
    (saved : Option GoErr) :
    ms.foldl ProductTemp.setMember (t, saved) =
      (⟨lookupStr "id" ms t.ID, lookupStr "price" ms t.Price, lookupStr "stock" ms t.Stock,
        ⟨t.Alias.ID, lookupField "name" ms t.Alias.Name, t.Alias.Price, t.Alias.Stock,
          lookupField "createdAt" ms t.Alias.CreatedAt, lookupField "type" ms t.Alias.Typ,
          lookupField "department" ms t.Alias.Department⟩⟩, saved) := by
  induction ms generalizing t with
  | nil => rfl
  | cons m ms ih =>
    obtain ⟨⟨s, hs⟩, hrest⟩ := allStrings_cons m ms h
    obtain ⟨k, v⟩ := m
    simp only at hs
    subst hs
    rw [List.foldl_cons]
    rcases product_key_cases k with h | h | h | h | h | h | h | h <;>
      obtain ⟨h1, h2, h3, h4, h5, h6, h7⟩ := h <;>
      simp only [ProductTemp.setMember, storeString, storeField, lookupStr_cons,
        lookupField_cons, h1, h2, h3, h4, h5, h6, h7, if_true, if_false,
        Bool.false_eq_true] <;>
      rw [ih hrest]

theorem product_marshal_allStrings (p : Product) : AllStrings (Product.MarshalJSON p) := by
  unfold Product.MarshalJSON
  refine allStrings_append _ _ (allStrings_append _ _ (allStrings_append _ _
    (allStrings_append _ _ ?_ ?_) ?_) ?_) ?_
  · intro m hm
    simp only [List.mem_cons, List.mem_singleton, List.not_mem_nil, or_false] at hm
    rcases hm with rfl | rfl | rfl <;> rfl
  all_goals exact allStrings_omitEmpty _ _

theorem product_unmarshal_strings (p : Product) (ms : Members) (hs : AllStrings ms) :
    Product.UnmarshalJSON p ms =
      match Atoi (lookupStr "id" ms "") with
      | none =>
        (⟨p.ID, lookupField "name" ms p.Name, p.Price, p.Stock,
          lookupField "createdAt" ms p.CreatedAt, lookupField "type" ms p.Typ,
          lookupField "department" ms p.Department⟩,
          some (GoErr.errorf ("invalid id: " ++ lookupStr "id" ms "")))
      | some id =>
        match Atoi (lookupStr "stock" ms "") with
        | none =>
          (⟨id, lookupField "name" ms p.Name, p.Price, p.Stock,
            lookupField "createdAt" ms p.CreatedAt, lookupField "type" ms p.Typ,
            lookupField "department" ms p.Department⟩,
            some (GoErr.errorf ("invalid stock: " ++ lookupStr "stock" ms "")))
        | some stock =>
          match ParseFloat (lookupStr "price" ms "") with
          | none =>
            (⟨id, lookupField "name" ms p.Name, p.Price, stock,
              lookupField "createdAt" ms p.CreatedAt, lookupField "type" ms p.Typ,
              lookupField "department" ms p.Department⟩,
              some (GoErr.errorf ("invalid price: " ++ lookupStr "price" ms "")))
          | some price =>
            (⟨id, lookupField "name" ms p.Name, price, stock,
              lookupField "createdAt" ms p.CreatedAt, lookupField "type" ms p.Typ,
              lookupField "department" ms p.Department⟩, none) := by
  unfold Product.UnmarshalJSON ProductTemp.unmarshal
  rw [productTemp_foldl_strings ms hs]

theorem product_marshal_lookups (p : Product) :
    lookupStr "id" (Product.MarshalJSON p) "" = Itoa p.ID ∧
    lookupStr "price" (Product.MarshalJSON p) "" = sprintfF p.Price ∧
    lookupStr "stock" (Product.MarshalJSON p) "" = Itoa p.Stock ∧
    lookupField "name" (Product.MarshalJSON p) "" = GoString.ofText (appendString p.Name) ∧
    lookupField "createdAt" (Product.MarshalJSON p) "" =
      GoString.ofText (appendString p.CreatedAt) ∧
    lookupField "type" (Product.MarshalJSON p) "" = GoString.ofText (appendString p.Typ) ∧
    lookupField "department" (Product.MarshalJSON p) "" =
      GoString.ofText (appendString p.Department) := by
  simp [Product.MarshalJSON, lookupStr_append, lookupStr_cons, lookupStr_nil,
    lookupStr_omitEmpty, lookupField_append, lookupField_cons, lookupField_nil,
    lookupField_omitEmpty, product_keys, ite_empty]

theorem product_decode_encode (p : Product) (hid : IsGoInt p.ID) (hstock : IsGoInt p.Stock)
    (x : Float64) (hx : ParseFloat (sprintfF p.Price) = some x) :
    Product.UnmarshalJSON Product.zero (Product.MarshalJSON p) =
      (⟨p.ID, GoString.ofText (appendString p.Name), x, p.Stock,
        GoString.ofText (appendString p.CreatedAt), GoString.ofText (appendString p.Typ),
        GoString.ofText (appendString p.Department)⟩, none) := by
  rw [product_unmarshal_strings _ _ (product_marshal_allStrings p)]
  obtain ⟨h1, h2, h3, h4, h5, h6, h7⟩ := product_marshal_lookups p
  rw [h1, h2, h3, Atoi_Itoa _ hid, Atoi_Itoa _ hstock, hx]
  simp only [Product.zero, h4, h5, h6, h7]

theorem product_valid_coerced (p : Product) (h : p.ValidStrings) :
    (⟨p.ID, GoString.ofText (appendString p.Name), p.Price, p.Stock,
      GoString.ofText (appendString p.CreatedAt), GoString.ofText (appendString p.Typ),
      GoString.ofText (appendString p.Department)⟩ : Product) = p := by
  obtain ⟨h1, h2, h3, h4⟩ := h
  rw [ofText_appendString _ h1, ofText_appendString _ h2, ofText_appendString _ h3,
    ofText_appendString _ h4]

/-! ## Product: validation order, decode success -/

/-- C4, counterexample: with id `1` and stock `100` valid, the price text `NaN`
is not a decimal number, yet `Product.UnmarshalJSON` returns no error and
stores the NaN value as price; and with the id text `9223372036854775808`, a
base-10 integer, and the stock text `x`, the error names the id, not the
stock. -/
theorem product_validation_order_counterexample :
    (AllStrings [("id", JVal.str "1"), ("stock", JVal.str "100"), ("price", JVal.str "NaN")] ∧
      Atoi "1" = some 1 ∧ Atoi "100" = some 100 ∧
      lookupStr "price"
        [("id", JVal.str "1"), ("stock", JVal.str "100"), ("price", JVal.str "NaN")] "" = "NaN" ∧
      isDecimalText "NaN" = false ∧
      Product.UnmarshalJSON Product.zero
          [("id", JVal.str "1"), ("stock", JVal.str "100"), ("price", JVal.str "NaN")] =
        (⟨1, "", Float64.nan, 100, "", "", ""⟩, none)) ∧
    (DenotesInt "9223372036854775808" 9223372036854775808 ∧
      Atoi "x" = none ∧
      Product.UnmarshalJSON Product.zero
          [("id", JVal.str "9223372036854775808"), ("stock", JVal.str "x")] =
        (Product.zero, some (GoErr.errorf "invalid id: 9223372036854775808"))) :=
  ⟨by decide,
    ⟨"9223372036854775808".data, by decide, by decide, Or.inl ⟨rfl, by decide⟩⟩,
    by decide, by decide⟩

/-- C4, amended: on a wire object whose members are JSON strings,
`Product.UnmarshalJSON` validates id, then stock, then price: a text for id
that is not a base-10 integer within the `int` range gives exactly
`invalid id: <raw id>` whatever stock and price are; else such a text for stock
gives exactly `invalid stock: <raw stock>` whatever price is; else a price text
that `ParseFloat` rejects gives exactly `invalid price: <raw price>`. -/
theorem product_validation_order (p : Product) (ms : Members) (hs : AllStrings ms) :
    (¬ IsBase10Int (lookupStr "id" ms "") →
      ∃ t, Product.UnmarshalJSON p ms =
        (t, some (GoErr.errorf ("invalid id: " ++ lookupStr "id" ms "")))) ∧
    (IsBase10Int (lookupStr "id" ms "") → ¬ IsBase10Int (lookupStr "stock" ms "") →
      ∃ t, Product.UnmarshalJSON p ms =
        (t, some (GoErr.errorf ("invalid stock: " ++ lookupStr "stock" ms "")))) ∧
    (IsBase10Int (lookupStr "id" ms "") → IsBase10Int (lookupStr "stock" ms "") →
      ParseFloat (lookupStr "price" ms "") = none →
      ∃ t, Product.UnmarshalJSON p ms =
        (t, some (GoErr.errorf ("invalid price: " ++ lookupStr "price" ms "")))) := by
  rw [product_unmarshal_strings p ms hs]
  refine ⟨?_, ?_, ?_⟩
  · intro h
    rw [(Atoi_eq_none _).2 h]
    exact ⟨_, rfl⟩
  · rintro ⟨i, hi⟩ h
    rw [(Atoi_eq_some _ i).2 hi, (Atoi_eq_none _).2 h]
    exact ⟨_, rfl⟩
  · rintro ⟨i, hi⟩ ⟨s, hs'⟩ h
    rw [(Atoi_eq_some _ i).2 hi, (Atoi_eq_some _ s).2 hs', h]
    exact ⟨_, rfl⟩

/-- Witness of C4 (amended): an object with a bad id, a bad stock and a bad
price reports the id. -/
theorem product_validation_order_witness :
    AllStrings [("price", JVal.str "abc"), ("stock", JVal.str "x"), ("id", JVal.str "1.5")] ∧
    ∃ t, Product.UnmarshalJSON Product.zero
        [("price", JVal.str "abc"), ("stock", JVal.str "x"), ("id", JVal.str "1.5")] =
      (t, some (GoErr.errorf ("invalid id: " ++ lookupStr "id"
        [("price", JVal.str "abc"), ("stock", JVal.str "x"), ("id", JVal.str "1.5")] ""))) :=
  ⟨by decide, (product_validation_order Product.zero
    [("price", JVal.str "abc"), ("stock", JVal.str "x"), ("id", JVal.str "1.5")]
    (by decide)).1 ((Atoi_eq_none _).1 (by decide))⟩

/-- C5, counterexample: the id text `9223372036854775808` is a base-10 integer
string, stock `100` is one and price `19.99` is a decimal number, yet decoding
fails with `invalid id: 9223372036854775808`, the integer being outside the
range of `int`; and with id `1` and stock `100`, the price text made of `1`
followed by 309 zeros is a decimal number, yet decoding fails with
`invalid price: ...`, the number being outside the range of `float64`. -/
theorem product_decode_success_counterexample :
    (AllStrings [("id", JVal.str "9223372036854775808"), ("name", JVal.str "Test"),
        ("price", JVal.str "19.99"), ("stock", JVal.str "100")] ∧
      DenotesInt "9223372036854775808" 9223372036854775808 ∧ DenotesInt "100" 100 ∧
      isPlainDecimal "19.99" = true ∧
      Product.UnmarshalJSON Product.zero
          [("id", JVal.str "9223372036854775808"), ("name", JVal.str "Test"),
            ("price", JVal.str "19.99"), ("stock", JVal.str "100")] =
        (⟨0, "Test", Float64.zero, 0, "", "", ""⟩,
          some (GoErr.errorf "invalid id: 9223372036854775808"))) ∧
    (DenotesInt "1" 1 ∧ IsGoInt 1 ∧ IsGoInt 100 ∧
      isPlainDecimal (String.mk ('1' :: List.replicate 309 '0')) = true ∧
      Product.UnmarshalJSON Product.zero
          [("id", JVal.str "1"), ("name", JVal.str "Test"),
            ("price", JVal.str (String.mk ('1' :: List.replicate 309 '0'))),
            ("stock", JVal.str "100")] =
        (⟨1, "Test", Float64.zero, 100, "", "", ""⟩,
          some (GoErr.errorf
            ("invalid price: " ++ String.mk ('1' :: List.replicate 309 '0'))))) :=
  ⟨⟨by decide, ⟨"9223372036854775808".data, by decide, by decide, Or.inl ⟨rfl, by decide⟩⟩,
    ⟨"100".data, by decide, by decide, Or.inl ⟨rfl, by decide⟩⟩, by decide, by decide⟩,
    ⟨"1".data, by decide, by decide, Or.inl ⟨rfl, by decide⟩⟩, by decide, by decide,
    by decide, by decide⟩

/-- C5, amended: on a wire object whose members are JSON strings, in which the
texts for id and stock are base-10 integers within the `int` range and the text
for price is accepted by `ParseFloat`, decoding into a fresh `Product` succeeds
and yields the integers denoted as id and stock, the `float64` parsed as price,
and the input strings as name, createdAt, type and department. -/
theorem product_decode_success (ms : Members) (hs : AllStrings ms) (i s : Int) (x : Float64)
    (hi : DenotesInt (lookupStr "id" ms "") i) (hir : IsGoInt i)
    (hst : DenotesInt (lookupStr "stock" ms "") s) (hsr : IsGoInt s)
    (hx : ParseFloat (lookupStr "price" ms "") = some x) :
    Product.UnmarshalJSON Product.zero ms =
      (⟨i, lookupField "name" ms "", x, s, lookupField "createdAt" ms "", lookupField "type" ms "",
        lookupField "department" ms ""⟩, none) := by
  rw [product_unmarshal_strings _ ms hs, (Atoi_eq_some _ i).2 ⟨hi, hir⟩,
    (Atoi_eq_some _ s).2 ⟨hst, hsr⟩, hx]
  rfl

/-- Witness of C5 (amended): the object with id `1`, name `Test`, price
`19.99`, stock `100`; the price obtained lies within half a unit in the last
place of 19.99. -/
theorem product_decode_success_witness :
    Product.UnmarshalJSON Product.zero
        [("id", JVal.str "1"), ("name", JVal.str "Test"), ("price", JVal.str "19.99"),
          ("stock", JVal.str "100")] =
      (⟨1, "Test", ⟨false, 1027, 1123085157075517⟩, 100, "", "", ""⟩, none) ∧
    (1999 / 100 - 1 / 2 ^ 49 ≤ (⟨false, 1027, 1123085157075517⟩ : Float64).toRat ∧
      (⟨false, 1027, 1123085157075517⟩ : Float64).toRat ≤ 1999 / 100 + 1 / 2 ^ 49) := by
  refine ⟨?_, ?_⟩
  · exact product_decode_success
      [("id", JVal.str "1"), ("name", JVal.str "Test"), ("price", JVal.str "19.99"),
        ("stock", JVal.str "100")] (by decide) 1 100 ⟨false, 1027, 1123085157075517⟩
      ((Atoi_eq_some "1" 1).1 (by decide)).1 (by decide)
      ((Atoi_eq_some "100" 100).1 (by decide)).1 (by decide) (by decide)
  · norm_num [Float64.toRat, Float64.mant]

/-! ## Absent fields and omitted fields -/

/-- C6, counterexample: a Product object with a valid id and no other member
does not decode; the absent stock is read as the empty text and rejected, and
with stock present the absent price is rejected the same way. -/
theorem absent_fields_counterexample :
    (AllStrings [("id", JVal.str "1")] ∧ Atoi "1" = some 1 ∧
      Absent "stock" [("id", JVal.str "1")] ∧ Absent "price" [("id", JVal.str "1")] ∧
      Product.UnmarshalJSON Product.zero [("id", JVal.str "1")] =
        (⟨1, "", Float64.zero, 0, "", "", ""⟩, some (GoErr.errorf "invalid stock: "))) ∧
    (Absent "price" [("id", JVal.str "1"), ("stock", JVal.str "5")] ∧
      Product.UnmarshalJSON Product.zero [("id", JVal.str "1"), ("stock", JVal.str "5")] =
        (⟨1, "", Float64.zero, 5, "", "", ""⟩, some (GoErr.errorf "invalid price: "))) := by
  decide

/-- C6, amended: on a wire object whose members are JSON strings and whose id
is valid, an absent plain string field does not make decoding fail and is the
empty string in the result, for `User` and, when stock and price are valid, for
`Product`; an absent Product stock makes decoding fail with `invalid stock: `
and, stock being valid, an absent price makes it fail with `invalid price: `. -/
theorem absent_fields (ms : Members) (hs : AllStrings ms) :
    (IsBase10Int (lookupStr "id" ms "") →
      (User.UnmarshalJSON User.zero ms).2 = none ∧
      (Absent "name" ms → (User.UnmarshalJSON User.zero ms).1.Name = "") ∧
      (Absent "lastName" ms → (User.UnmarshalJSON User.zero ms).1.LastName = "") ∧
      (Absent "address" ms → (User.UnmarshalJSON User.zero ms).1.Address = "") ∧
      (Absent "favoriteDogBreed" ms →
        (User.UnmarshalJSON User.zero ms).1.FavoriteDogBreed = "") ∧
      (Absent "createdAt" ms → (User.UnmarshalJSON User.zero ms).1.CreatedAt = "")) ∧
    (IsBase10Int (lookupStr "id" ms "") → IsBase10Int (lookupStr "stock" ms "") →
      (ParseFloat (lookupStr "price" ms "")).isSome = true →
      (Product.UnmarshalJSON Product.zero ms).2 = none ∧
      (Absent "name" ms → (Product.UnmarshalJSON Product.zero ms).1.Name = "") ∧
      (Absent "createdAt" ms → (Product.UnmarshalJSON Product.zero ms).1.CreatedAt = "") ∧
      (Absent "type" ms → (Product.UnmarshalJSON Product.zero ms).1.Typ = "") ∧
      (Absent "department" ms → (Product.UnmarshalJSON Product.zero ms).1.Department = "")) ∧
    (IsBase10Int (lookupStr "id" ms "") → Absent "stock" ms →
      (Product.UnmarshalJSON Product.zero ms).2 = some (GoErr.errorf "invalid stock: ")) ∧
    (IsBase10Int (lookupStr "id" ms "") → IsBase10Int (lookupStr "stock" ms "") →
      Absent "price" ms →
      (Product.UnmarshalJSON Product.zero ms).2 = some (GoErr.errorf "invalid price: ")) := by
  rw [user_unmarshal_strings _ ms hs, product_unmarshal_strings _ ms hs]
  refine ⟨?_, ?_, ?_, ?_⟩
  · rintro ⟨i, hi⟩
    rw [(Atoi_eq_some _ i).2 hi]
    refine ⟨rfl, ?_, ?_, ?_, ?_, ?_⟩ <;> intro h <;> exact lookupField_absent _ _ ms h
  · rintro ⟨i, hi⟩ ⟨s, hs'⟩ hx
    obtain ⟨x, hx⟩ := Option.isSome_iff_exists.1 hx
    rw [(Atoi_eq_some _ i).2 hi, (Atoi_eq_some _ s).2 hs', hx]
    refine ⟨rfl, ?_, ?_, ?_, ?_⟩ <;> intro h <;> exact lookupField_absent _ _ ms h
  · rintro ⟨i, hi⟩ h
    rw [(Atoi_eq_some _ i).2 hi, lookupStr_absent _ _ ms h]
    rfl
  · rintro ⟨i, hi⟩ ⟨s, hs'⟩ h
    rw [(Atoi_eq_some _ i).2 hi, (Atoi_eq_some _ s).2 hs', lookupStr_absent _ _ ms h]
    rfl

/-- Witness of C6 (amended): a User object holding only an id decodes, every
other field empty. -/
theorem absent_fields_witness :
    AllStrings [("id", JVal.str "7")] ∧
    (User.UnmarshalJSON User.zero [("id", JVal.str "7")]).2 = none ∧
    (User.UnmarshalJSON User.zero [("id", JVal.str "7")]).1.Name = "" ∧
    (Product.UnmarshalJSON Product.zero [("id", JVal.str "7")]).2 =
      some (GoErr.errorf "invalid stock: ") :=
  ⟨by decide,
    ((absent_fields [("id", JVal.str "7")] (by decide)).1
      ⟨7, (Atoi_eq_some "7" 7).1 (by decide)⟩).1,
    ((absent_fields [("id", JVal.str "7")] (by decide)).1
      ⟨7, (Atoi_eq_some "7" 7).1 (by decide)⟩).2.1 (by decide),
    (absent_fields [("id", JVal.str "7")] (by decide)).2.2.1
      ⟨7, (Atoi_eq_some "7" 7).1 (by decide)⟩ (by decide)⟩

theorem absent_append (name : String) (xs ys : Members) :
    Absent name (xs ++ ys) ↔ Absent name xs ∧ Absent name ys := by
  unfold Absent
  constructor
  · intro h
    exact ⟨fun m hm => h m (List.mem_append.2 (Or.inl hm)),
      fun m hm => h m (List.mem_append.2 (Or.inr hm))⟩
  · rintro ⟨h1, h2⟩ m hm
    rcases List.mem_append.1 hm with h | h
    · exact h1 m h
    · exact h2 m h

theorem absent_nil (name : String) : Absent name [] := by
  intro m hm
  simp at hm

theorem absent_cons (name : String) (m : String × JVal) (ms : Members) :
    Absent name (m :: ms) ↔ keyIs m.1 name = false ∧ Absent name ms := by
  unfold Absent
  simp

theorem absent_omitEmpty (name k : String) (v : GoString) :
    Absent name (omitEmpty k v) ↔ (v = "" ∨ keyIs k name = false) := by
  unfold omitEmpty
  by_cases h : v = ""
  · simp [h, Absent]
  · simp [h, Absent]

theorem user_unmarshal_fields (u : User) (ms : Members) (hs : AllStrings ms) :
    (User.UnmarshalJSON u ms).1.Name = lookupField "name" ms u.Name ∧
    (User.UnmarshalJSON u ms).1.LastName = lookupField "lastName" ms u.LastName ∧
    (User.UnmarshalJSON u ms).1.Address = lookupField "address" ms u.Address ∧
    (User.UnmarshalJSON u ms).1.FavoriteDogBreed =
      lookupField "favoriteDogBreed" ms u.FavoriteDogBreed ∧
    (User.UnmarshalJSON u ms).1.CreatedAt = lookupField "createdAt" ms u.CreatedAt := by
  rw [user_unmarshal_strings u ms hs]
  cases Atoi (lookupStr "id" ms "") <;> exact ⟨rfl, rfl, rfl, rfl, rfl⟩

theorem product_unmarshal_fields (p : Product) (ms : Members) (hs : AllStrings ms) :
    (Product.UnmarshalJSON p ms).1.Name = lookupField "name" ms p.Name ∧
    (Product.UnmarshalJSON p ms).1.CreatedAt = lookupField "createdAt" ms p.CreatedAt ∧
    (Product.UnmarshalJSON p ms).1.Typ = lookupField "type" ms p.Typ ∧
    (Product.UnmarshalJSON p ms).1.Department = lookupField "department" ms p.Department := by
  rw [product_unmarshal_strings p ms hs]
  cases Atoi (lookupStr "id" ms "") with
  | none => exact ⟨rfl, rfl, rfl, rfl⟩
  | some i =>
    cases Atoi (lookupStr "stock" ms "") with
    | none => exact ⟨rfl, rfl, rfl, rfl⟩
    | some s => cases ParseFloat (lookupStr "price" ms "") <;> exact ⟨rfl, rfl, rfl, rfl⟩

/-- C7, counterexample: the zero `Product` and the zero `User` are encoded
with a member for the identifier, and for price and stock, although these
fields hold their zero values. -/
theorem omit_if_default_counterexample :
    Product.MarshalJSON Product.zero =
      [("id", JVal.str "0"), ("price", JVal.str "0.000000"), ("stock", JVal.str "0")] ∧
    User.MarshalJSON User.zero = [("id", JVal.str "0")] ∧
    ¬ Absent "id" (Product.MarshalJSON Product.zero) ∧
    ¬ Absent "price" (Product.MarshalJSON Product.zero) ∧
    ¬ Absent "stock" (Product.MarshalJSON Product.zero) ∧
    ¬ Absent "id" (User.MarshalJSON User.zero) := by
  decide

/-- C7, amended: omit-if-default holds for the plain string fields: when such a
field is empty the encoded object has no member for it and decoding that object
into a fresh record leaves the field empty. The identifier, price and stock are
always emitted, as JSON strings; a zero identifier or stock is written `0`, a
zero price `0.000000`, and decoding yields zero back. -/
theorem omit_if_default (u : User) (p : Product) :
    ((u.Name = "" → Absent "name" (User.MarshalJSON u) ∧
        (User.UnmarshalJSON User.zero (User.MarshalJSON u)).1.Name = "") ∧
      (u.LastName = "" → Absent "lastName" (User.MarshalJSON u) ∧
        (User.UnmarshalJSON User.zero (User.MarshalJSON u)).1.LastName = "") ∧
      (u.Address = "" → Absent "address" (User.MarshalJSON u) ∧
        (User.UnmarshalJSON User.zero (User.MarshalJSON u)).1.Address = "") ∧
      (u.FavoriteDogBreed = "" → Absent "favoriteDogBreed" (User.MarshalJSON u) ∧
        (User.UnmarshalJSON User.zero (User.MarshalJSON u)).1.FavoriteDogBreed = "") ∧
      (u.CreatedAt = "" → Absent "createdAt" (User.MarshalJSON u) ∧
        (User.UnmarshalJSON User.zero (User.MarshalJSON u)).1.CreatedAt = "")) ∧
    ((p.Name = "" → Absent "name" (Product.MarshalJSON p) ∧
        (Product.UnmarshalJSON Product.zero (Product.MarshalJSON p)).1.Name = "") ∧
      (p.CreatedAt = "" → Absent "createdAt" (Product.MarshalJSON p) ∧
        (Product.UnmarshalJSON Product.zero (Product.MarshalJSON p)).1.CreatedAt = "") ∧
      (p.Typ = "" → Absent "type" (Product.MarshalJSON p) ∧
        (Product.UnmarshalJSON Product.zero (Product.MarshalJSON p)).1.Typ = "") ∧
      (p.Department = "" → Absent "department" (Product.MarshalJSON p) ∧
        (Product.UnmarshalJSON Product.zero (Product.MarshalJSON p)).1.Department = "")) ∧
    (("id", JVal.str (Itoa u.ID)) ∈ User.MarshalJSON u ∧
      ("id", JVal.str (Itoa p.ID)) ∈ Product.MarshalJSON p ∧
      ("price", JVal.str (sprintfF p.Price)) ∈ Product.MarshalJSON p ∧
      ("stock", JVal.str (Itoa p.Stock)) ∈ Product.MarshalJSON p) ∧
    (Itoa 0 = "0" ∧ sprintfF Float64.zero = "0.000000") ∧
    ((u.ID = 0 →
        (User.UnmarshalJSON User.zero (User.MarshalJSON u)).2 = none ∧
        (User.UnmarshalJSON User.zero (User.MarshalJSON u)).1.ID = 0 ∧
        (u.ValidStrings → User.UnmarshalJSON User.zero (User.MarshalJSON u) = (u, none))) ∧
      (p.ID = 0 → (Product.UnmarshalJSON Product.zero (Product.MarshalJSON p)).1.ID = 0) ∧
      (p.Stock = 0 → IsGoInt p.ID →
        (Product.UnmarshalJSON Product.zero (Product.MarshalJSON p)).1.Stock = 0) ∧
      (p.Price = Float64.zero → IsGoInt p.ID → IsGoInt p.Stock →
        (Product.UnmarshalJSON Product.zero (Product.MarshalJSON p)).2 = none ∧
        (Product.UnmarshalJSON Product.zero (Product.MarshalJSON p)).1.Price = Float64.zero ∧
        (p.ValidStrings →
          Product.UnmarshalJSON Product.zero (Product.MarshalJSON p) = (p, none)))) := by
  obtain ⟨-, hu1, hu2, hu3, hu4, hu5⟩ := user_marshal_lookups u
  obtain ⟨hf1, hf2, hf3, hf4, hf5⟩ :=
    user_unmarshal_fields User.zero _ (user_marshal_allStrings u)
  obtain ⟨hq1, hq2, hq3, hp1, hp2, hp3, hp4⟩ := product_marshal_lookups p
  obtain ⟨hg1, hg2, hg3, hg4⟩ :=
    product_unmarshal_fields Product.zero _ (product_marshal_allStrings p)
  refine ⟨⟨?_, ?_, ?_, ?_, ?_⟩, ⟨?_, ?_, ?_, ?_⟩, ?_, ⟨by decide, by decide⟩, ?_, ?_, ?_, ?_⟩
  · intro h
    refine ⟨?_, by rw [hf1]; simpa [User.zero, h] using hu1⟩
    simp [User.MarshalJSON, absent_append, absent_cons, absent_nil, absent_omitEmpty, user_keys, h]
  · intro h
    refine ⟨?_, by rw [hf2]; simpa [User.zero, h] using hu2⟩
    simp [User.MarshalJSON, absent_append, absent_cons, absent_nil, absent_omitEmpty, user_keys, h]
  · intro h
    refine ⟨?_, by rw [hf3]; simpa [User.zero, h] using hu3⟩
    simp [User.MarshalJSON, absent_append, absent_cons, absent_nil, absent_omitEmpty, user_keys, h]
  · intro h
    refine ⟨?_, by rw [hf4]; simpa [User.zero, h] using hu4⟩
    simp [User.MarshalJSON, absent_append, absent_cons, absent_nil, absent_omitEmpty, user_keys, h]
  · intro h
    refine ⟨?_, by rw [hf5]; simpa [User.zero, h] using hu5⟩
    simp [User.MarshalJSON, absent_append, absent_cons, absent_nil, absent_omitEmpty, user_keys, h]
  · intro h
    refine ⟨?_, by rw [hg1]; simpa [Product.zero, h] using hp1⟩
    simp [Product.MarshalJSON, absent_append, absent_cons, absent_nil, absent_omitEmpty,
      product_keys, h]
  · intro h
    refine ⟨?_, by rw [hg2]; simpa [Product.zero, h] using hp2⟩
    simp [Product.MarshalJSON, absent_append, absent_cons, absent_nil, absent_omitEmpty,
      product_keys, h]
  · intro h
    refine ⟨?_, by rw [hg3]; simpa [Product.zero, h] using hp3⟩
    simp [Product.MarshalJSON, absent_append, absent_cons, absent_nil, absent_omitEmpty,
      product_keys, h]
  · intro h
    refine ⟨?_, by rw [hg4]; simpa [Product.zero, h] using hp4⟩
    simp [Product.MarshalJSON, absent_append, absent_cons, absent_nil, absent_omitEmpty,
      product_keys, h]
  · simp [User.MarshalJSON, Product.MarshalJSON]
  · intro h
    have hd := user_decode_encode u (by rw [h]; decide)
    rw [hd]
    refine ⟨rfl, h, fun hv => ?_⟩
    rw [user_valid_coerced u hv]
  · intro h
    rw [product_unmarshal_strings _ _ (product_marshal_allStrings p), hq1, h,
      show Atoi (Itoa 0) = some 0 by decide]
    cases Atoi (lookupStr "stock" (Product.MarshalJSON p) "") with
    | none => rfl
    | some s =>
      cases ParseFloat (lookupStr "price" (Product.MarshalJSON p) "") <;> rfl
  · intro h hid
    rw [product_unmarshal_strings _ _ (product_marshal_allStrings p), hq1, hq3, h,
      Atoi_Itoa _ hid, show Atoi (Itoa 0) = some 0 by decide]
    cases ParseFloat (lookupStr "price" (Product.MarshalJSON p) "") <;> rfl
  · intro h hid hstock
    have hd := product_decode_encode p hid hstock Float64.zero (by rw [h]; decide)
    rw [hd]
    refine ⟨rfl, rfl, fun hv => ?_⟩
    rw [← h, product_valid_coerced p hv]

/-- Witness of C7 (amended): the zero records. -/
theorem omit_if_default_witness :
    (User.zero.Name = "" ∧ Absent "name" (User.MarshalJSON User.zero) ∧
      (User.UnmarshalJSON User.zero (User.MarshalJSON User.zero)).1.Name = "") ∧
    (Product.zero.Price = Float64.zero ∧ IsGoInt Product.zero.ID ∧
      IsGoInt Product.zero.Stock ∧ Product.zero.ValidStrings ∧
      Product.UnmarshalJSON Product.zero (Product.MarshalJSON Product.zero) =
        (Product.zero, none)) :=
  ⟨⟨rfl, (omit_if_default User.zero Product.zero).1.1 rfl⟩,
    ⟨rfl, by decide, by decide,
      ⟨isValidUTF8_ofText _, isValidUTF8_ofText _, isValidUTF8_ofText _, isValidUTF8_ofText _⟩,
      ((omit_if_default User.zero Product.zero).2.2.2.2.2.2.2 rfl (by decide) (by decide)).2.2
        ⟨isValidUTF8_ofText _, isValidUTF8_ofText _, isValidUTF8_ofText _,
          isValidUTF8_ofText _⟩⟩⟩

/-! ## The rendering of price, identifier and stock -/

theorem decimalValue_utoa (n : Nat) : decimalValue (utoa n) = n :=
  ((parseDigits_eq_some (utoa n) n).1 (parseDigits_utoa n)).2.2.symm

theorem pad6_length (n : Nat) : (pad6 n).length = 6 := rfl

theorem pad6_digits (n : Nat) : ∀ c ∈ pad6 n, isDigit c = true := by
  intro c hc
  simp only [pad6, List.mem_cons, List.mem_singleton, List.not_mem_nil, or_false] at hc
  rcases hc with rfl | rfl | rfl | rfl | rfl | rfl <;> exact isDigit_digitChar _

theorem decimalValue_pad6 (n : Nat) : decimalValue (pad6 n) = n % 1000000 := by
  simp only [pad6, decimalValue, digitVal_digitChar, List.length_cons, List.length_nil]
  omega

theorem divRoundHalfEven_bound (num den : Nat) (hden : 0 < den) :
    2 * (divRoundHalfEven num den * den) ≤ 2 * num + den ∧
    2 * num ≤ 2 * (divRoundHalfEven num den * den) + den := by
  have hdm := Nat.div_add_mod num den
  have hlt := Nat.mod_lt num hden
  have hmul : den * (num / den) = num / den * den := Nat.mul_comm _ _
  unfold divRoundHalfEven
  split
  · rename_i h
    rw [Nat.add_mul, Nat.one_mul]
    rcases h with h | ⟨h, -⟩ <;> omega
  · rename_i h
    have h2 : 2 * (num % den) ≤ den := by
      by_contra hc
      exact h (Or.inl (by omega))
    omega

theorem divRoundHalfEven_rat (num den : Nat) (hden : 0 < den) :
    |(divRoundHalfEven num den : ℚ) - (num : ℚ) / (den : ℚ)| ≤ 1 / 2 := by
  obtain ⟨h1, h2⟩ := divRoundHalfEven_bound num den hden
  have hd : (0 : ℚ) < (den : ℚ) := by exact_mod_cast hden
  have h1q : (2 : ℚ) * ((divRoundHalfEven num den : ℚ) * den) ≤ 2 * num + den := by
    exact_mod_cast h1
  have h2q : (2 : ℚ) * num ≤ 2 * ((divRoundHalfEven num den : ℚ) * den) + den := by
    exact_mod_cast h2
  have hq : (num : ℚ) / (den : ℚ) * den = num := div_mul_cancel₀ _ (ne_of_gt hd)
  rw [abs_le]
  constructor
  · have : (-(1 / 2) + (num : ℚ) / den) * den ≤ (divRoundHalfEven num den : ℚ) * den := by
      rw [add_mul, hq]
      linarith
    have := le_of_mul_le_mul_right this hd
    linarith
  · have : (divRoundHalfEven num den : ℚ) * den ≤ (1 / 2 + (num : ℚ) / den) * den := by
      rw [add_mul, hq]
      linarith
    have := le_of_mul_le_mul_right this hd
    linarith

theorem micros_rounds (x : Float64) :
    |(x.micros : ℚ) - |x.toRat| * 1000000| ≤ 1 / 2 := by
  have hpos : 0 < 2 ^ (1075 - max x.exp 1) := Nat.pow_pos (by decide)
  have h := divRoundHalfEven_rat (x.mant * 1000000 * 2 ^ (max x.exp 1 - 1075))
    (2 ^ (1075 - max x.exp 1)) hpos
  have hval : |x.toRat| * 1000000 =
      ((x.mant * 1000000 * 2 ^ (max x.exp 1 - 1075) : Nat) : ℚ) /
        ((2 ^ (1075 - max x.exp 1) : Nat) : ℚ) := by
    have habs : |x.toRat| = (x.mant : ℚ) * 2 ^ (max x.exp 1) / 2 ^ 1075 := by
      unfold Float64.toRat
      have hnn : (0 : ℚ) ≤ (x.mant : ℚ) * 2 ^ (max x.exp 1) / 2 ^ 1075 := by positivity
      cases x.sign
      · simp [abs_of_nonneg hnn]
      · simp [abs_of_nonneg hnn]
    rw [habs]
    push_cast
    by_cases hE : max x.exp 1 ≤ 1075
    · have h1 : max x.exp 1 - 1075 = 0 := by omega
      have h2 : (2 : ℚ) ^ 1075 = 2 ^ (max x.exp 1) * 2 ^ (1075 - max x.exp 1) := by
        rw [← pow_add]
        congr 1
        omega
      rw [h1, h2]
      field_simp
      ring
    · have h1 : 1075 - max x.exp 1 = 0 := by omega
      have h2 : (2 : ℚ) ^ (max x.exp 1) = 2 ^ (max x.exp 1 - 1075) * 2 ^ 1075 := by
        rw [← pow_add]
        congr 1
        omega
      rw [h1, h2]
      field_simp
      ring
  rw [hval]
  exact h

/-- C8, counterexample: the price values NaN and the infinities are not
printed with six digits after a decimal point; a Product holding a NaN price is
encoded with the price member `NaN`. -/
theorem price_six_decimals_counterexample :
    sprintfF Float64.nan = "NaN" ∧ sprintfF (Float64.inf false) = "+Inf" ∧
    sprintfF (Float64.inf true) = "-Inf" ∧ '.' ∉ (sprintfF Float64.nan).data ∧
    Product.MarshalJSON ⟨1, "", Float64.nan, 0, "", "", ""⟩ =
      [("id", JVal.str "1"), ("price", JVal.str "NaN"), ("stock", JVal.str "0")] := by
  decide

/-- C8, amended: for every finite price, `MarshalJSON` formats the price as a
fixed-point decimal text: an optional `-`, one or more integer digits, a point
and exactly six digits, which together write the magnitude of the price in
millionths, rounded to within one half (19.99 becomes `19.990000`); the `price`
member of the encoded object is that text as a JSON string, never a JSON
number. -/
theorem price_six_decimals (x : Float64) (p : Product) :
    (x.isFinite = true →
      ∃ ip fp : List Char,
        (sprintfF x).data = (if x.sign then ['-'] else []) ++ ip ++ '.' :: fp ∧
        ip ≠ [] ∧ (∀ c ∈ ip, isDigit c = true) ∧
        fp.length = 6 ∧ (∀ c ∈ fp, isDigit c = true) ∧
        decimalValue ip * 1000000 + decimalValue fp = x.micros ∧
        |(x.micros : ℚ) - |x.toRat| * 1000000| ≤ 1 / 2) ∧
    sprintfF ⟨false, 1027, 1123085157075517⟩ = "19.990000" ∧
    ("price", JVal.str (sprintfF p.Price)) ∈ Product.MarshalJSON p ∧
    (∀ v, ("price", v) ∈ Product.MarshalJSON p → v = JVal.str (sprintfF p.Price)) := by
  refine ⟨?_, by decide, by simp [Product.MarshalJSON], ?_⟩
  · intro h
    have hlt : x.exp < 2047 := by simpa [Float64.isFinite] using h
    refine ⟨utoa (x.micros / 1000000), pad6 (x.micros % 1000000), ?_, utoa_ne_nil _,
      utoa_digits _, pad6_length _, pad6_digits _, ?_, micros_rounds x⟩
    · simp [sprintfF, hlt]
    · rw [decimalValue_utoa, decimalValue_pad6]
      omega
  · intro v hv
    simp only [Product.MarshalJSON, omitEmpty, List.mem_append, List.mem_cons,
      List.mem_singleton, List.not_mem_nil, or_false, Prod.mk.injEq] at hv
    rcases hv with ((((⟨h, -⟩ | ⟨-, h⟩ | ⟨h, -⟩) | h) | h) | h) | h
    · exact absurd h (by decide)
    · exact h
    · exact absurd h (by decide)
    all_goals
      split at h
      · simp at h
      · simp only [List.mem_singleton, Prod.mk.injEq] at h
        exact absurd h.1 (by decide)

/-- Witness of C8 (amended): the price 19.99. -/
theorem price_six_decimals_witness :
    (⟨false, 1027, 1123085157075517⟩ : Float64).isFinite = true ∧
    ∃ ip fp : List Char,
      (sprintfF ⟨false, 1027, 1123085157075517⟩).data =
        (if (⟨false, 1027, 1123085157075517⟩ : Float64).sign then ['-'] else []) ++ ip
          ++ '.' :: fp ∧
      ip ≠ [] ∧ (∀ c ∈ ip, isDigit c = true) ∧
      fp.length = 6 ∧ (∀ c ∈ fp, isDigit c = true) ∧
      decimalValue ip * 1000000 + decimalValue fp =
        (⟨false, 1027, 1123085157075517⟩ : Float64).micros ∧
      |((⟨false, 1027, 1123085157075517⟩ : Float64).micros : ℚ) -
        |(⟨false, 1027, 1123085157075517⟩ : Float64).toRat| * 1000000| ≤ 1 / 2 :=
  ⟨by decide, (price_six_decimals ⟨false, 1027, 1123085157075517⟩ Product.zero).1 (by decide)⟩

/-! ## ParseFloat on the text printed by the `%f` verb -/

theorem isDigit_ne (c d : Char) (h : isDigit c = true) (hd : isDigit d = false) : c ≠ d := by
  rintro rfl
  rw [h] at hd
  cases hd

theorem isDigit_toNat (c : Char) (h : isDigit c = true) : 48 ≤ c.toNat ∧ c.toNat ≤ 57 := by
  simpa [isDigit] using h

theorem lowerAZ_digit (c : Char) (h : isDigit c = true) : lowerAZ c = c := by
  have := isDigit_toNat c h
  unfold lowerAZ
  rw [if_neg (by omega)]

theorem scanMant_digits (ds rest : List Char) (st : Scan) (h : ∀ c ∈ ds, isDigit c = true) :
    scanMant false (ds ++ rest) st =
      scanMant false rest
        ⟨st.mant * 10 ^ ds.length + decimalValue ds,
          if st.sawdot then st.fracDigits + ds.length else st.fracDigits,
          st.sawdot, st.sawdigits || !ds.isEmpty⟩ := by
  induction ds generalizing st with
  | nil => simp [decimalValue]
  | cons c ds ih =>
    have hc : isDigit c = true := h c (by simp)
    have h1 : c ≠ '_' := isDigit_ne c _ hc (by decide)
    have h2 : c ≠ '.' := isDigit_ne c _ hc (by decide)
    rw [List.cons_append]
    simp only [scanMant, h1, h2, hc, if_true, if_false]
    rw [ih _ (fun x hx => h x (by simp [hx]))]
    congr 1
    simp only [Scan.push, Bool.false_eq_true, if_false, decimalValue, List.length_cons,
      List.isEmpty_cons, Bool.not_false, Bool.or_true, Bool.true_or, Scan.mk.injEq, and_true,
      true_and]
    constructor
    · ring
    · cases st.sawdot <;> simp
      omega

theorem underscoreOKAux_digits (ds rest : List Char) (saw : Char)
    (h : ∀ c ∈ ds, isDigit c = true) :
    underscoreOKAux false (ds ++ rest) saw =
      underscoreOKAux false rest (if ds.isEmpty then saw else '0') := by
  induction ds generalizing saw with
  | nil => simp
  | cons c ds ih =>
    have hc : isDigit c = true := h c (by simp)
    rw [List.cons_append]
    simp only [underscoreOKAux, hc, Bool.true_or, if_true]
    rw [ih _ (fun x hx => h x (by simp [hx]))]
    cases ds <;> simp

theorem underscoreOKAux_fixed (ip fp : List Char) (saw : Char) (hip : ip ≠ [])
    (hipd : ∀ c ∈ ip, isDigit c = true) (hfpd : ∀ c ∈ fp, isDigit c = true) :
    underscoreOKAux false (ip ++ '.' :: fp) saw = true := by
  rw [underscoreOKAux_digits ip _ saw hipd]
  have : ip.isEmpty = false := by cases ip <;> simp_all
  simp only [this, Bool.false_eq_true, if_false]
  have hdot : underscoreOKAux false ('.' :: fp) '0' = underscoreOKAux false fp '!' := by
    simp only [underscoreOKAux]
    rw [if_neg (by decide), if_neg (by decide), if_neg (by decide)]
  rw [hdot]
  have := underscoreOKAux_digits fp [] '!' hfpd
  rw [List.append_nil] at this
  rw [this]
  simp only [underscoreOKAux]
  cases fp <;> simp

theorem commonPrefixLen_digit (c p : Char) (cs ps : List Char) (h : isDigit c = true)
    (hp : isDigit p = false) : commonPrefixLen (c :: cs) (p :: ps) = 0 := by
  simp only [commonPrefixLen, lowerAZ_digit c h]
  rw [if_neg (isDigit_ne c p h hp)]

theorem special_fixed (neg : Bool) (d : Char) (rest : List Char) (hd : isDigit d = true) :
    special ((if neg then ['-'] else []) ++ d :: rest) = none := by
  cases neg with
  | true =>
    have hc : commonPrefixLen (d :: rest) "infinity".data = 0 :=
      commonPrefixLen_digit d 'i' rest "nfinity".data hd (by decide)
    have hs : special ('-' :: d :: rest) = specialInf true 1 (d :: rest) := by
      simp [special]
    simp only [if_true, List.cons_append, List.nil_append]
    rw [hs]
    unfold specialInf
    rw [hc]
    rfl
  | false =>
    simp only [Bool.false_eq_true, if_false, List.nil_append, special]
    have h1 : ¬ (d = '+' ∨ d = '-') := by
      rintro (h | h)
      · exact isDigit_ne d _ hd (by decide) h
      · exact isDigit_ne d _ hd (by decide) h
    have h2 : ¬ (d = 'i' ∨ d = 'I') := by
      rintro (h | h)
      · exact isDigit_ne d _ hd (by decide) h
      · exact isDigit_ne d _ hd (by decide) h
    have h3 : ¬ (d = 'n' ∨ d = 'N') := by
      rintro (h | h)
      · exact isDigit_ne d _ hd (by decide) h
      · exact isDigit_ne d _ hd (by decide) h
    rw [if_neg h1, if_neg h2, if_neg h3]

theorem underscoreOK_fixed (neg : Bool) (ip fp : List Char) (hip : ip ≠ [])
    (hipd : ∀ c ∈ ip, isDigit c = true) (hfpd : ∀ c ∈ fp, isDigit c = true) :
    underscoreOK ((if neg then ['-'] else []) ++ ip ++ '.' :: fp) = true := by
  obtain ⟨z, ip1, rfl⟩ := List.exists_cons_of_ne_nil hip
  have hz : isDigit z = true := hipd z (by simp)
  have hstrip : (match (if neg then ['-'] else []) ++ (z :: ip1) ++ '.' :: fp with
      | [] => []
      | c :: rest => if c = '-' ∨ c = '+' then rest
        else (if neg then ['-'] else []) ++ (z :: ip1) ++ '.' :: fp) =
      (z :: ip1) ++ '.' :: fp := by
    cases neg with
    | true => simp
    | false =>
      simp only [Bool.false_eq_true, if_false, List.nil_append, List.cons_append]
      rw [if_neg]
      rintro (h | h)
      · exact isDigit_ne z _ hz (by decide) h
      · exact isDigit_ne z _ hz (by decide) h
  unfold underscoreOK
  simp only [hstrip]
  have hx : ∀ x, (x = '.' ∨ isDigit x = true) →
      ¬ (z = '0' ∧ (lowerAZ x = 'b' ∨ lowerAZ x = 'o' ∨ lowerAZ x = 'x')) := by
    rintro x (rfl | hx) ⟨-, h⟩
    · revert h
      decide
    · rw [lowerAZ_digit x hx] at h
      rcases h with h | h | h
      · exact isDigit_ne x _ hx (by decide) h
      · exact isDigit_ne x _ hx (by decide) h
      · exact isDigit_ne x _ hx (by decide) h
  have hall := underscoreOKAux_fixed (z :: ip1) fp '^' (by simp) hipd hfpd
  cases ip1 with
  | nil =>
    simp only [List.cons_append, List.nil_append] at hall ⊢
    rw [if_neg (hx '.' (Or.inl rfl))]
    exact hall
  | cons x ip2 =>
    simp only [List.cons_append] at hall ⊢
    rw [if_neg (hx x (Or.inr (hipd x (by simp))))]
    exact hall

theorem scanMant_fixed (ip fp : List Char) (hip : ip ≠ [])
    (hipd : ∀ c ∈ ip, isDigit c = true) (hfpd : ∀ c ∈ fp, isDigit c = true) :
    scanMant false (ip ++ '.' :: fp) ⟨0, 0, false, false⟩ =
      (⟨decimalValue ip * 10 ^ fp.length + decimalValue fp, fp.length, true, true⟩, []) := by
  rw [scanMant_digits ip _ _ hipd]
  have hne : ip.isEmpty = false := by cases ip <;> simp_all
  have hdot : ∀ st : Scan, st.sawdot = false →
      scanMant false ('.' :: fp) st = scanMant false fp { st with sawdot := true } := by
    intro st hst
    simp only [scanMant]
    rw [if_neg (by decide), if_pos trivial, hst]
    rfl
  rw [hdot _ rfl]
  have h2 := scanMant_digits fp [] ⟨0 * 10 ^ ip.length + decimalValue ip,
    0, true, false || !ip.isEmpty⟩ hfpd
  rw [List.append_nil] at h2
  simp only [Bool.false_eq_true, if_false] at h2 ⊢
  rw [h2]
  simp only [scanMant, hne, if_true]
  simp

theorem hex_fixed (ip fp : List Char) (hip : ip ≠ [])
    (hipd : ∀ c ∈ ip, isDigit c = true) :
    (match ip ++ '.' :: fp with
      | z :: x :: _ :: _ => decide (z = '0' ∧ (x = 'x' ∨ x = 'X'))
      | _ => false) = false := by
  obtain ⟨z, ip1, rfl⟩ := List.exists_cons_of_ne_nil hip
  cases ip1 with
  | nil =>
    cases fp with
    | nil => rfl
    | cons y fp1 =>
      simp only [List.cons_append, List.nil_append, decide_eq_false_iff_not]
      rintro ⟨-, h | h⟩
      · exact absurd h (by decide)
      · exact absurd h (by decide)
  | cons x ip2 =>
    have hx : isDigit x = true := hipd x (by simp)
    cases ip2 with
    | nil =>
      simp only [List.cons_append, List.nil_append, decide_eq_false_iff_not]
      rintro ⟨-, h | h⟩
      · exact isDigit_ne x _ hx (by decide) h
      · exact isDigit_ne x _ hx (by decide) h
    | cons y ip3 =>
      simp only [List.cons_append, decide_eq_false_iff_not]
      rintro ⟨-, h | h⟩
      · exact isDigit_ne x _ hx (by decide) h
      · exact isDigit_ne x _ hx (by decide) h

theorem ParseFloat_fixed (neg : Bool) (ip fp : List Char) (hip : ip ≠ [])
    (hipd : ∀ c ∈ ip, isDigit c = true) (hfpd : ∀ c ∈ fp, isDigit c = true) :
    ParseFloat (String.mk ((if neg then ['-'] else []) ++ ip ++ '.' :: fp)) =
      roundFloat64 neg (decimalValue ip * 10 ^ fp.length + decimalValue fp)
        (10 ^ fp.length) := by
  have hsc := scanMant_fixed ip fp hip hipd hfpd
  have hhex := hex_fixed ip fp hip hipd
  have hus := underscoreOK_fixed neg ip fp hip hipd hfpd
  obtain ⟨z, ip1, rfl⟩ := List.exists_cons_of_ne_nil hip
  have hz : isDigit z = true := hipd z (by simp)
  have hsp := special_fixed neg z (ip1 ++ '.' :: fp) hz
  have hexp : ((0 : Int) - (fp.length : Int)).toNat = 0 := by omega
  have hexp2 : ((fp.length : Int) - 0).toNat = fp.length := by omega
  unfold ParseFloat
  cases neg with
  | true =>
    simp only [if_true, List.cons_append, List.nil_append, List.append_assoc] at hsp hus ⊢
    rw [hsp]
    simp only [true_or, or_true, if_true]
    simp only [List.cons_append] at hhex hsc
    rw [hhex]
    simp only [Bool.false_eq_true, if_false, hsc, if_true, readExp, hus, hexp, hexp2,
      decide_True, pow_zero, mul_one]
  | false =>
    simp only [Bool.false_eq_true, if_false, List.cons_append, List.nil_append] at hsp hus ⊢
    rw [hsp]
    have hs : ¬ (z = '+' ∨ z = '-') := by
      rintro (h | h)
      · exact isDigit_ne z _ hz (by decide) h
      · exact isDigit_ne z _ hz (by decide) h
    have hm : z ≠ '-' := isDigit_ne z _ hz (by decide)
    simp only [hs, if_false]
    simp only [List.cons_append] at hhex hsc
    rw [hhex]
    simp only [Bool.false_eq_true, if_false, hsc, if_true, readExp, hus, hexp, hexp2,
      hm, decide_False, pow_zero, mul_one]

theorem ParseFloat_sprintfF (x : Float64) (h : x.exp < 2047) :
    ParseFloat (sprintfF x) = roundFloat64 x.sign x.micros 1000000 := by
  unfold sprintfF
  rw [if_pos h, ParseFloat_fixed x.sign _ _ (utoa_ne_nil _) (utoa_digits _) (pad6_digits _)]
  rw [decimalValue_utoa, decimalValue_pad6, pad6_length]
  have h1 : x.micros / 1000000 * 10 ^ 6 + x.micros % 1000000 % 1000000 = x.micros := by
    norm_num
    omega
  have h2 : 10 ^ 6 = 1000000 := by norm_num
  rw [h1, h2]

theorem bitLenAux_le (fuel n b : Nat) (h : n < 2 ^ b) : bitLenAux fuel n ≤ b := by
  induction fuel generalizing n b with
  | zero => simp [bitLenAux]
  | succ f ih =>
    unfold bitLenAux
    split
    · omega
    · rename_i hn
      cases b with
      | zero =>
        simp at h
        exact absurd h hn
      | succ b =>
        have : n / 2 < 2 ^ b := by
          rw [Nat.pow_succ] at h
          omega
        have := ih (n / 2) b this
        omega

theorem divRoundHalfEven_le (num den c : Nat) (hden : 0 < den) (h : num ≤ c * den) :
    divRoundHalfEven num den ≤ c := by
  have hdm := Nat.div_add_mod num den
  have hlt := Nat.mod_lt num hden
  have hq : num / den ≤ c := by
    calc num / den ≤ c * den / den := Nat.div_le_div_right h
      _ = c := Nat.mul_div_cancel c hden
  unfold divRoundHalfEven
  split
  · rename_i hr
    have hpos : 0 < num % den := by
      rcases hr with hr | ⟨hr, -⟩ <;> omega
    by_contra hc
    have hqc : num / den = c := by omega
    rw [hqc] at hdm
    have : den * c = c * den := Nat.mul_comm _ _
    omega
  · exact hq

theorem roundFloat64_branch (neg : Bool) (e1 : Int) (m : Nat) (h1 : e1 ≤ 971)
    (h2 : e1 = 971 → m < 9007199254740992) :
    ∃ y, (if (if m = 9007199254740992 then 4503599627370496 else m) < 4503599627370496 then
        some (⟨neg, 0, if m = 9007199254740992 then 4503599627370496 else m⟩ : Float64)
      else if 2047 ≤ (if m = 9007199254740992 then e1 + 1 else e1) + 1075 then none
      else some ⟨neg, ((if m = 9007199254740992 then e1 + 1 else e1) + 1075).toNat,
        (if m = 9007199254740992 then 4503599627370496 else m) - 4503599627370496⟩) =
      some y := by
  by_cases hm : m = 9007199254740992
  · have he : e1 ≤ 970 := by
      by_contra hc
      have := h2 (by omega)
      omega
    simp only [hm, if_true]
    rw [if_neg (by decide), if_neg (by omega)]
    exact ⟨_, rfl⟩
  · simp only [hm, if_false]
    by_cases hs : m < 4503599627370496
    · rw [if_pos hs]
      exact ⟨_, rfl⟩
    · rw [if_neg hs, if_neg (by omega)]
      exact ⟨_, rfl⟩

theorem roundFloat64_isSome (neg : Bool) (k : Nat)
    (hk : k ≤ (2 ^ 53 - 1) * 2 ^ 971 * 1000000) :
    ∃ y, roundFloat64 neg k 1000000 = some y := by
  unfold roundFloat64
  by_cases hk0 : k = 0
  · exact ⟨_, if_pos hk0⟩
  · rw [if_neg hk0]
    have hden : bitLen 1000000 = 20 := by decide
    have hbl : bitLen k ≤ 1044 := by
      apply bitLenAux_le
      calc k ≤ (2 ^ 53 - 1) * 2 ^ 971 * 1000000 := hk
        _ < 2 ^ 1044 := by norm_num
    rw [hden]
    dsimp only
    have he0 : max ((bitLen k : Int) - ((20 : Nat) : Int) - 53) (-1074) ≤ 971 := by omega
    generalize max ((bitLen k : Int) - ((20 : Nat) : Int) - 53) (-1074) = e0 at he0 ⊢
    have hk1 : k * 2 ^ 0 ≤ (2 ^ 53 - 1) * (1000000 * 2 ^ 971) := by
      calc k * 2 ^ 0 = k := by simp
        _ ≤ (2 ^ 53 - 1) * 2 ^ 971 * 1000000 := hk
        _ = (2 ^ 53 - 1) * (1000000 * 2 ^ 971) := by ring
    have h971 : (-(971 : Int)).toNat = 0 := by decide
    have h971b : (971 : Int).toNat = 971 := by decide
    have hpos : 0 < 1000000 * 2 ^ 971 := by positivity
    have he1 : (if 9007199254740992 ≤ k * 2 ^ (-e0).toNat / (1000000 * 2 ^ e0.toNat)
        then e0 + 1 else e0) ≤ 971 := by
      by_cases he : e0 = 971
      · subst he
        rw [h971, h971b, if_neg]
        rw [not_le]
        apply Nat.div_lt_of_lt_mul
        calc k * 2 ^ 0 ≤ (2 ^ 53 - 1) * (1000000 * 2 ^ 971) := hk1
          _ < 1000000 * 2 ^ 971 * 9007199254740992 := by norm_num
      · split_ifs <;> omega
    generalize (if 9007199254740992 ≤ k * 2 ^ (-e0).toNat / (1000000 * 2 ^ e0.toNat)
        then e0 + 1 else e0) = e1 at he1 ⊢
    apply roundFloat64_branch neg e1 _ he1
    intro he
    subst he
    rw [h971, h971b]
    have := divRoundHalfEven_le (k * 2 ^ 0) (1000000 * 2 ^ 971) (2 ^ 53 - 1) hpos hk1
    calc divRoundHalfEven (k * 2 ^ 0) (1000000 * 2 ^ 971) ≤ 2 ^ 53 - 1 := this
      _ < 9007199254740992 := by norm_num

theorem micros_le (x : Float64) (h : x.exp < 2047) (hf : x.frac < 4503599627370496) :
    x.micros ≤ (2 ^ 53 - 1) * 2 ^ 971 * 1000000 := by
  unfold Float64.micros
  have hden : 0 < 2 ^ (1075 - max x.exp 1) := Nat.pow_pos (by decide)
  apply divRoundHalfEven_le _ _ _ hden
  have hm : x.mant ≤ 2 ^ 53 - 1 := by
    unfold Float64.mant
    split <;> norm_num <;> omega
  have hp : 2 ^ (max x.exp 1 - 1075) ≤ 2 ^ 971 :=
    Nat.pow_le_pow_right (by decide) (by omega)
  calc x.mant * 1000000 * 2 ^ (max x.exp 1 - 1075)
      ≤ (2 ^ 53 - 1) * 1000000 * 2 ^ 971 :=
        Nat.mul_le_mul (Nat.mul_le_mul hm (le_refl _)) hp
    _ = (2 ^ 53 - 1) * 2 ^ 971 * 1000000 * 1 := by ring
    _ ≤ (2 ^ 53 - 1) * 2 ^ 971 * 1000000 * 2 ^ (1075 - max x.exp 1) :=
        Nat.mul_le_mul (le_refl _) hden

theorem ParseFloat_sprintfF_isSome (x : Float64) (h : x.exp < 2047)
    (hf : x.frac < 4503599627370496) :
    ∃ y, ParseFloat (sprintfF x) = some y ∧ roundFloat64 x.sign x.micros 1000000 = some y := by
  obtain ⟨y, hy⟩ := roundFloat64_isSome x.sign x.micros (micros_le x h hf)
  exact ⟨y, by rw [ParseFloat_sprintfF x h, hy], hy⟩

theorem bitLenAux_zero (fuel : Nat) : bitLenAux fuel 0 = 0 := by
  cases fuel <;> simp [bitLenAux]

theorem bitLenAux_lower (fuel n : Nat) (hn : 0 < n) (hf : n < 2 ^ fuel) :
    1 ≤ bitLenAux fuel n ∧ 2 ^ (bitLenAux fuel n - 1) ≤ n := by
  induction fuel generalizing n with
  | zero =>
    simp at hf
    omega
  | succ f ih =>
    unfold bitLenAux
    rw [if_neg (by omega)]
    by_cases h2 : n / 2 = 0
    · rw [h2, bitLenAux_zero]
      simp
      omega
    · have hlt : n / 2 < 2 ^ f := by
        rw [Nat.pow_succ] at hf
        omega
      obtain ⟨h1, hp⟩ := ih (n / 2) (by omega) hlt
      refine ⟨by omega, ?_⟩
      have : bitLenAux f (n / 2) + 1 - 1 = (bitLenAux f (n / 2) - 1) + 1 := by omega
      rw [this, Nat.pow_succ]
      omega

theorem bitLen_lower (n : Nat) (hn : 0 < n) : 1 ≤ bitLen n ∧ 2 ^ (bitLen n - 1) ≤ n :=
  bitLenAux_lower n n hn (Nat.lt_two_pow n)

theorem divRoundHalfEven_ge (num den : Nat) : num / den ≤ divRoundHalfEven num den := by
  unfold divRoundHalfEven
  split <;> omega

theorem divRoundHalfEven_eq (num den k : Nat) (h1 : 2 * num < 2 * (k * den) + den)
    (h2 : 2 * (k * den) < 2 * num + den) : divRoundHalfEven num den = k := by
  have hden : 0 < den := by
    rcases Nat.eq_zero_or_pos den with h | h
    · subst h
      simp at h1
    · exact h
  have hb := divRoundHalfEven_bound num den hden
  generalize divRoundHalfEven num den = r at hb
  obtain ⟨hb1, hb2⟩ := hb
  by_contra hne
  rcases Nat.lt_or_gt_of_ne hne with hlt | hgt
  · have : (r + 1) * den ≤ k * den := Nat.mul_le_mul_right den hlt
    rw [Nat.add_mul, Nat.one_mul] at this
    omega
  · have : (k + 1) * den ≤ r * den := Nat.mul_le_mul_right den hgt
    rw [Nat.add_mul, Nat.one_mul] at this
    omega

theorem roundFloat64_branch_val (neg : Bool) (s1 m : Nat) (hs : 20 ≤ s1 ∧ s1 ≤ 72)
    (hm : 4503599627370496 ≤ m) (x : Float64)
    (h : (if (if m = 9007199254740992 then 4503599627370496 else m) < 4503599627370496 then
        some (⟨neg, 0, if m = 9007199254740992 then 4503599627370496 else m⟩ : Float64)
      else if 2047 ≤ (if m = 9007199254740992 then -(s1 : Int) + 1 else -(s1 : Int)) + 1075
        then none
      else some ⟨neg, ((if m = 9007199254740992 then -(s1 : Int) + 1 else -(s1 : Int))
          + 1075).toNat,
        (if m = 9007199254740992 then 4503599627370496 else m) - 4503599627370496⟩) =
      some x) :
    x.sign = neg ∧
      ((m ≠ 9007199254740992 ∧ x.mant = m ∧ x.exp = 1075 - s1) ∨
        (m = 9007199254740992 ∧ x.mant = 4503599627370496 ∧ x.exp = 1076 - s1)) := by
  by_cases hc : m = 9007199254740992
  · simp only [hc, if_true] at h
    rw [if_neg (by decide), if_neg (by omega)] at h
    simp only [Option.some.injEq] at h
    subst h
    refine ⟨rfl, Or.inr ⟨hc, ?_, ?_⟩⟩
    · simp only [Float64.mant]
      rw [if_neg (by omega)]
    · simp only
      omega
  · simp only [hc, if_false] at h
    rw [if_neg (by omega), if_neg (by omega)] at h
    simp only [Option.some.injEq] at h
    subst h
    refine ⟨rfl, Or.inl ⟨hc, ?_, ?_⟩⟩
    · simp only [Float64.mant]
      rw [if_neg (by omega)]
      omega
    · simp only
      omega

theorem roundFloat64_sixDecimal_aux (neg : Bool) (k s1 : Nat) (hs : 20 ≤ s1 ∧ s1 ≤ 72)
    (hlow : 4503599627370496 * 1000000 ≤ k * 2 ^ s1) (x : Float64)
    (h : (if (if divRoundHalfEven (k * 2 ^ s1) (1000000 * 2 ^ 0) = 9007199254740992
            then 4503599627370496 else divRoundHalfEven (k * 2 ^ s1) (1000000 * 2 ^ 0)) <
          4503599627370496 then
        some (⟨neg, 0, if divRoundHalfEven (k * 2 ^ s1) (1000000 * 2 ^ 0) = 9007199254740992
          then 4503599627370496 else divRoundHalfEven (k * 2 ^ s1) (1000000 * 2 ^ 0)⟩ : Float64)
      else if 2047 ≤ (if divRoundHalfEven (k * 2 ^ s1) (1000000 * 2 ^ 0) = 9007199254740992
          then -(s1 : Int) + 1 else -(s1 : Int)) + 1075
        then none
      else some ⟨neg, ((if divRoundHalfEven (k * 2 ^ s1) (1000000 * 2 ^ 0) = 9007199254740992
          then -(s1 : Int) + 1 else -(s1 : Int)) + 1075).toNat,
        (if divRoundHalfEven (k * 2 ^ s1) (1000000 * 2 ^ 0) = 9007199254740992
          then 4503599627370496 else divRoundHalfEven (k * 2 ^ s1) (1000000 * 2 ^ 0)) -
          4503599627370496⟩) =
      some x) :
    x.sign = neg ∧ x.exp < 2047 ∧ x.micros = k := by
  have hb := divRoundHalfEven_bound (k * 2 ^ s1) (1000000 * 2 ^ 0) (by norm_num)
  have hge := divRoundHalfEven_ge (k * 2 ^ s1) (1000000 * 2 ^ 0)
  have hm : 4503599627370496 ≤ divRoundHalfEven (k * 2 ^ s1) (1000000 * 2 ^ 0) := by
    refine le_trans ?_ hge
    rw [Nat.le_div_iff_mul_le (by norm_num)]
    simpa using hlow
  generalize divRoundHalfEven (k * 2 ^ s1) (1000000 * 2 ^ 0) = m at h hb hm
  obtain ⟨hsign, hx⟩ := roundFloat64_branch_val neg s1 m hs hm x h
  have hP : 2 ^ 20 ≤ 2 ^ s1 := Nat.pow_le_pow_right (by decide) hs.1
  rcases hx with ⟨-, hmant, hexp⟩ | ⟨hc, hmant, hexp⟩
  · refine ⟨hsign, by omega, ?_⟩
    unfold Float64.micros
    have e1 : max x.exp 1 - 1075 = 0 := by omega
    have e2 : 1075 - max x.exp 1 = s1 := by omega
    rw [e1, e2, hmant]
    apply divRoundHalfEven_eq
    · generalize k * 2 ^ s1 = N at hb
      generalize 2 ^ s1 = P at hP
      norm_num at hb hP ⊢
      omega
    · generalize k * 2 ^ s1 = N at hb
      generalize 2 ^ s1 = P at hP
      norm_num at hb hP ⊢
      omega
  · refine ⟨hsign, by omega, ?_⟩
    unfold Float64.micros
    have e1 : max x.exp 1 - 1075 = 0 := by omega
    have e2 : 1075 - max x.exp 1 = s1 - 1 := by omega
    have e3 : 2 ^ s1 = 2 ^ (s1 - 1) * 2 := by
      rw [← Nat.pow_succ]
      congr 1
      omega
    have e4 : k * 2 ^ s1 = 2 * (k * 2 ^ (s1 - 1)) := by
      rw [e3]
      ring
    rw [e1, e2, hmant]
    rw [hc, e4] at hb
    rw [e3] at hP
    clear hge hlow e3 e4
    apply divRoundHalfEven_eq
    · generalize k * 2 ^ (s1 - 1) = N at hb
      generalize 2 ^ (s1 - 1) = P at hP
      norm_num at hb hP ⊢
      omega
    · generalize k * 2 ^ (s1 - 1) = N at hb
      generalize 2 ^ (s1 - 1) = P at hP
      norm_num at hb hP ⊢
      omega

theorem roundFloat64_sixDecimal (neg : Bool) (k : Nat) (hk : k < 2 ^ 52) (x : Float64)
    (h : roundFloat64 neg k 1000000 = some x) :
    x.sign = neg ∧ x.exp < 2047 ∧ x.micros = k := by
  unfold roundFloat64 at h
  by_cases hk0 : k = 0
  · rw [if_pos hk0] at h
    simp only [Option.some.injEq] at h
    subst h
    subst hk0
    cases neg <;> exact ⟨rfl, by decide, by decide⟩
  · rw [if_neg hk0] at h
    have hden : bitLen 1000000 = 20 := by decide
    obtain ⟨hb1, hb2⟩ := bitLen_lower k (by omega)
    have hb3 : bitLen k ≤ 52 := bitLenAux_le _ _ _ hk
    rw [hden] at h
    dsimp only at h
    have he0 : max ((bitLen k : Int) - ((20 : Nat) : Int) - 53) (-1074) =
        -((73 - bitLen k : Nat) : Int) := by omega
    rw [he0] at h
    have hlow : 2 ^ 72 ≤ k * 2 ^ (73 - bitLen k) := by
      calc 2 ^ 72 = 2 ^ (bitLen k - 1) * 2 ^ (73 - bitLen k) := by
            rw [← pow_add]
            congr 1
            omega
        _ ≤ k * 2 ^ (73 - bitLen k) := Nat.mul_le_mul_right _ hb2
    have hs : 21 ≤ 73 - bitLen k ∧ 73 - bitLen k ≤ 72 := by omega
    generalize 73 - bitLen k = s at h hlow hs
    have t1 : ∀ n : Nat, (-(-(n : Int))).toNat = n := by
      intro n
      omega
    have t2 : ∀ n : Nat, (-(n : Int)).toNat = 0 := by
      intro n
      omega
    by_cases hq : 9007199254740992 ≤ k * 2 ^ (-(-(s : Int))).toNat /
        (1000000 * 2 ^ (-(s : Int)).toNat)
    · have t5 : -(s : Int) + 1 = -((s - 1 : Nat) : Int) := by omega
      simp only [hq, if_true] at h
      rw [t5] at h
      simp only [t1, t2] at h hq
      refine roundFloat64_sixDecimal_aux neg k (s - 1) (by omega) ?_ x h
      have hq2 := (Nat.le_div_iff_mul_le (by norm_num)).1 hq
      have e3 : 2 ^ s = 2 ^ (s - 1) * 2 := by
        rw [← Nat.pow_succ]
        congr 1
        omega
      have e4 : k * 2 ^ s = 2 * (k * 2 ^ (s - 1)) := by
        rw [e3]
        ring
      rw [e4] at hq2
      clear hlow e3 e4 hq h
      generalize k * 2 ^ (s - 1) = N at hq2 ⊢
      norm_num at hq2
      omega
    · simp only [hq, if_false] at h
      simp only [t1, t2] at h
      refine roundFloat64_sixDecimal_aux neg k s (by omega) ?_ x h
      calc 4503599627370496 * 1000000 ≤ 2 ^ 72 := by norm_num
        _ ≤ k * 2 ^ s := hlow

/-! ## Product: round trip -/

/-- C2, counterexample: two Products whose fields are all non-zero and that do
not come back equal. The first has the price written `1.2345678`, with more
than six decimals: encoding prints `1.234568` and decoding yields that other
number. The second has the price 19.99 and the three-byte name `a`, 0xFF, `b`,
which is not valid UTF-8: decoding yields the five-byte name `a`, 0xEF, 0xBF,
0xBD, `b`. -/
theorem product_round_trip_counterexample :
    ((1 : Int) ≠ 0 ∧ (100 : Int) ≠ 0 ∧ GoString.ofText "Test Product" ≠ "" ∧
      GoString.ofText "2024-08-05T10:00:00Z" ≠ "" ∧ GoString.ofText "Gadget" ≠ "" ∧
      GoString.ofText "Electronics" ≠ "" ∧ (⟨[97, 255, 98]⟩ : GoString) ≠ "" ∧
      ParseFloat "1.2345678" = some ⟨false, 1023, 1056399456673117⟩ ∧
      (⟨false, 1023, 1056399456673117⟩ : Float64).mant ≠ 0 ∧
      ParseFloat "19.99" = some ⟨false, 1027, 1123085157075517⟩ ∧
      (⟨false, 1027, 1123085157075517⟩ : Float64).mant ≠ 0) ∧
    (sprintfF ⟨false, 1023, 1056399456673117⟩ = "1.234568" ∧
      Product.UnmarshalJSON Product.zero
          (Product.MarshalJSON ⟨1, "Test Product", ⟨false, 1023, 1056399456673117⟩, 100,
            "2024-08-05T10:00:00Z", "Gadget", "Electronics"⟩) =
        (⟨1, "Test Product", ⟨false, 1023, 1056400357393043⟩, 100,
            "2024-08-05T10:00:00Z", "Gadget", "Electronics"⟩, none) ∧
      Product.UnmarshalJSON Product.zero
          (Product.MarshalJSON ⟨1, "Test Product", ⟨false, 1023, 1056399456673117⟩, 100,
            "2024-08-05T10:00:00Z", "Gadget", "Electronics"⟩) ≠
        (⟨1, "Test Product", ⟨false, 1023, 1056399456673117⟩, 100,
            "2024-08-05T10:00:00Z", "Gadget", "Electronics"⟩, none)) ∧
    (Product.UnmarshalJSON Product.zero
          (Product.MarshalJSON ⟨1, ⟨[97, 255, 98]⟩, ⟨false, 1027, 1123085157075517⟩, 100,
            "2024-08-05T10:00:00Z", "Gadget", "Electronics"⟩) =
        (⟨1, ⟨[97, 239, 191, 189, 98]⟩, ⟨false, 1027, 1123085157075517⟩, 100,
            "2024-08-05T10:00:00Z", "Gadget", "Electronics"⟩, none) ∧
      Product.UnmarshalJSON Product.zero
          (Product.MarshalJSON ⟨1, ⟨[97, 255, 98]⟩, ⟨false, 1027, 1123085157075517⟩, 100,
            "2024-08-05T10:00:00Z", "Gadget", "Electronics"⟩) ≠
        (⟨1, ⟨[97, 255, 98]⟩, ⟨false, 1027, 1123085157075517⟩, 100,
            "2024-08-05T10:00:00Z", "Gadget", "Electronics"⟩, none)) := by
  decide

/-- C2, amended: for every Product whose id and stock are Go ints, whose string
fields are valid UTF-8 and whose price is the `float64` nearest to a whole
number of millionths below `2 ^ 52` (fields zero or not), decoding the output
of `MarshalJSON` into a fresh `Product` succeeds and yields the same record,
price included. For every finite price and whatever the string fields, decoding
succeeds and yields the record with every string field replaced by its valid
UTF-8 form and with the price replaced by what `ParseFloat` gives for the
six-decimal text of the price: the `float64` nearest to the price in
millionths, rounded to within one half, over one million; so the result is the
same record exactly when every string field is valid UTF-8 and the price is
that `float64`. -/
theorem product_round_trip (p : Product) (hid : IsGoInt p.ID) (hstock : IsGoInt p.Stock) :
    (p.ValidStrings →
      ∀ k, k < 2 ^ 52 → roundFloat64 p.Price.sign k 1000000 = some p.Price →
        Product.UnmarshalJSON Product.zero (Product.MarshalJSON p) = (p, none)) ∧
    (p.Price.InRange → p.Price.isFinite = true →
      ∃ y, ParseFloat (sprintfF p.Price) = some y ∧
        roundFloat64 p.Price.sign p.Price.micros 1000000 = some y ∧
        |(p.Price.micros : ℚ) - |p.Price.toRat| * 1000000| ≤ 1 / 2 ∧
        Product.UnmarshalJSON Product.zero (Product.MarshalJSON p) =
          (⟨p.ID, GoString.ofText (appendString p.Name), y, p.Stock,
            GoString.ofText (appendString p.CreatedAt), GoString.ofText (appendString p.Typ),
            GoString.ofText (appendString p.Department)⟩, none) ∧
        (Product.UnmarshalJSON Product.zero (Product.MarshalJSON p) = (p, none) ↔
          p.ValidStrings ∧ y = p.Price)) := by
  constructor
  · intro hv k hk hx
    obtain ⟨-, hlt, hm⟩ := roundFloat64_sixDecimal p.Price.sign k hk p.Price hx
    have hy : ParseFloat (sprintfF p.Price) = some p.Price := by
      rw [ParseFloat_sprintfF p.Price hlt, hm, hx]
    rw [product_decode_encode p hid hstock p.Price hy, product_valid_coerced p hv]
  · intro hrange hfin
    have hlt : p.Price.exp < 2047 := by simpa [Float64.isFinite] using hfin
    obtain ⟨y, hy, hr⟩ := ParseFloat_sprintfF_isSome p.Price hlt hrange.2
    have hd := product_decode_encode p hid hstock y hy
    refine ⟨y, hy, hr, micros_rounds p.Price, hd, ?_⟩
    rw [hd]
    unfold Product.ValidStrings
    simp only [isValidUTF8_iff]
    constructor
    · intro he
      have hp := congrArg Prod.fst he
      simp only at hp
      exact ⟨⟨congrArg Product.Name hp, congrArg Product.CreatedAt hp,
        congrArg Product.Typ hp, congrArg Product.Department hp⟩, congrArg Product.Price hp⟩
    · rintro ⟨⟨h1, h2, h3, h4⟩, h5⟩
      rw [h1, h2, h3, h4, h5]

/-- Witness of C2 (amended): the record of `TestProductMarshalJSON`, whose
strings are valid UTF-8 and whose price 19.99 is the `float64` nearest to
19990000 millionths, comes back unchanged. -/
theorem product_round_trip_witness :
    (IsGoInt 1 ∧ IsGoInt 100 ∧
      Product.ValidStrings ⟨1, "Test Product", ⟨false, 1027, 1123085157075517⟩, 100,
        "2024-08-05T10:00:00Z", "Gadget", "Electronics"⟩ ∧
      19990000 < 2 ^ 52 ∧
      roundFloat64 false 19990000 1000000 = some ⟨false, 1027, 1123085157075517⟩ ∧
      ParseFloat "19.99" = some ⟨false, 1027, 1123085157075517⟩) ∧
    Product.UnmarshalJSON Product.zero
        (Product.MarshalJSON ⟨1, "Test Product", ⟨false, 1027, 1123085157075517⟩, 100,
          "2024-08-05T10:00:00Z", "Gadget", "Electronics"⟩) =
      (⟨1, "Test Product", ⟨false, 1027, 1123085157075517⟩, 100,
          "2024-08-05T10:00:00Z", "Gadget", "Electronics"⟩, none) :=
  ⟨⟨by decide, by decide,
      ⟨isValidUTF8_ofText _, isValidUTF8_ofText _, isValidUTF8_ofText _, isValidUTF8_ofText _⟩,
      by decide, by decide, by decide⟩,
    (product_round_trip ⟨1, "Test Product", ⟨false, 1027, 1123085157075517⟩, 100,
      "2024-08-05T10:00:00Z", "Gadget", "Electronics"⟩ (by decide) (by decide)).1
      ⟨isValidUTF8_ofText _, isValidUTF8_ofText _, isValidUTF8_ofText _, isValidUTF8_ofText _⟩
      19990000 (by decide) (by decide)⟩

theorem digitChar_eq_zero (n : Nat) (h : digitChar n = '0') : n % 10 = 0 := by
  have h2 := digitChar_toNat n
  rw [h] at h2
  have h3 : ('0' : Char).toNat = 48 := rfl
  omega

theorem utoaAux_head_zero (fuel n : Nat) (h : n < fuel)
    (hz : (utoaAux fuel n []).head? = some '0') : n = 0 := by
  induction fuel generalizing n with
  | zero => omega
  | succ f ih =>
    simp only [utoaAux] at hz
    split at hz
    · simp only [List.head?_cons, Option.some.injEq] at hz
      have := digitChar_eq_zero n hz
      omega
    · rename_i h10
      rw [utoaAux_acc] at hz
      have hf : n / 10 < f := by omega
      have hne : utoaAux f (n / 10) [] ≠ [] := by
        cases f with
        | zero => omega
        | succ g => exact utoaAux_ne_nil g _ _
      rw [List.head?_append_of_ne_nil _ hne] at hz
      have := ih (n / 10) hf hz
      omega

theorem Itoa_nonneg (v : Int) (hv : 0 ≤ v) : Itoa v = String.mk (utoa v.toNat) := by
  unfold Itoa
  have : ¬ v < 0 := by omega
  simp [this]

/-- C9: both encoders emit the identifier, and `Product.MarshalJSON` the stock,
as a JSON string holding `strconv.Itoa` of the integer; for every non-negative
value that text is non-empty, consists of decimal digits only (hence carries no
sign), starts with `0` only when the value is 0 (written `0`), and denotes the
value as a base-10 integer, `Atoi` giving it back. -/
theorem id_stock_canonical (u : User) (p : Product) (v : Int) (hv : 0 ≤ v) :
    (("id", JVal.str (Itoa u.ID)) ∈ User.MarshalJSON u ∧
      ("id", JVal.str (Itoa p.ID)) ∈ Product.MarshalJSON p ∧
      ("stock", JVal.str (Itoa p.Stock)) ∈ Product.MarshalJSON p) ∧
    (Itoa v).data ≠ [] ∧ (∀ c ∈ (Itoa v).data, isDigit c = true) ∧
    ((Itoa v).data.head? = some '0' → v = 0) ∧ (v = 0 → Itoa v = "0") ∧
    DenotesInt (Itoa v) v ∧ (IsGoInt v → Atoi (Itoa v) = some v) := by
  have hd : (Itoa v).data = utoa v.toNat := by rw [Itoa_nonneg v hv]
  refine ⟨by simp [User.MarshalJSON, Product.MarshalJSON], ?_, ?_, ?_, ?_, ?_, Atoi_Itoa v⟩
  · rw [hd]
    exact utoa_ne_nil _
  · rw [hd]
    exact utoa_digits _
  · rw [hd]
    intro h
    have := utoaAux_head_zero (v.toNat + 1) v.toNat (by omega) h
    omega
  · rintro rfl
    decide
  · refine ⟨utoa v.toNat, utoa_ne_nil _, utoa_digits _, Or.inl ⟨hd, ?_⟩⟩
    rw [decimalValue_utoa]
    omega

/-- Witness of C9: the identifier 1 of `TestUserMarshalJSON` is written `1`. -/
theorem id_stock_canonical_witness :
    (0 : Int) ≤ 1 ∧ Itoa 1 = "1" ∧ (Itoa 1).data ≠ [] ∧
    (∀ c ∈ (Itoa 1).data, isDigit c = true) ∧ DenotesInt (Itoa 1) 1 :=
  ⟨by decide, by decide,
    (id_stock_canonical User.zero Product.zero 1 (by decide)).2.1,
    (id_stock_canonical User.zero Product.zero 1 (by decide)).2.2.1,
    (id_stock_canonical User.zero Product.zero 1 (by decide)).2.2.2.2.2.1⟩

/-! ## client.go: doRequest and NewClient -/

theorem denotesInt_Itoa (v : Int) : DenotesInt (Itoa v) v := by
  unfold Itoa
  by_cases h : v < 0
  · simp only [h, if_true]
    refine ⟨utoa v.natAbs, utoa_ne_nil _, utoa_digits _, Or.inr (Or.inr ⟨rfl, ?_⟩)⟩
    rw [decimalValue_utoa]
    omega
  · simp only [h, if_false]
    refine ⟨utoa v.toNat, utoa_ne_nil _, utoa_digits _, Or.inl ⟨rfl, ?_⟩⟩
    rw [decimalValue_utoa]
    omega

/-- C11: when the round trip yields status code `status` and body `body`,
`doRequest` returns the body unchanged and no error exactly when the status is
200, 201 or 204; for every other status it returns no body and the error whose
message is exactly `error: status: <status in base 10>, body: <body text>`. -/
theorem doRequest_status (w : World) (c : Client) (req : Request) (status : Int) (body : Body)
    (h : w.exchange req = RoundTrip.response status body) :
    (c.doRequest w req = (some body, none) ↔ status = 200 ∨ status = 201 ∨ status = 204) ∧
    (¬ (status = 200 ∨ status = 201 ∨ status = 204) →
      c.doRequest w req =
        (none, some (GoErr.errorf
          ("error: status: " ++ Itoa status ++ ", body: " ++ body.text))) ∧
      (GoErr.errorf ("error: status: " ++ Itoa status ++ ", body: " ++ body.text)).Error =
        "error: status: " ++ Itoa status ++ ", body: " ++ body.text) ∧
    DenotesInt (Itoa status) status := by
  have hd : c.doRequest w req =
      if status ≠ 200 ∧ status ≠ 201 ∧ status ≠ 204 then
        (none, some (GoErr.errorf
          ("error: status: " ++ Itoa status ++ ", body: " ++ body.text)))
      else (some body, none) := by
    unfold Client.doRequest
    rw [h]
  refine ⟨?_, ?_, denotesInt_Itoa status⟩
  · rw [hd]
    by_cases hs : status ≠ 200 ∧ status ≠ 201 ∧ status ≠ 204
    · rw [if_pos hs]
      constructor
      · intro hc
        exact absurd (congrArg Prod.snd hc) (by simp)
      · intro hc
        omega
    · rw [if_neg hs]
      constructor
      · intro _
        omega
      · intro _
        rfl
  · intro hs
    have hs' : status ≠ 200 ∧ status ≠ 201 ∧ status ≠ 204 := by omega
    rw [hd, if_pos hs']
    exact ⟨rfl, rfl⟩

/-- Witness of C11: the 404 answer of `TestDoRequest_NonOKResponse`. -/
theorem doRequest_status_witness :
    (World.fixed (RoundTrip.response 404
        ⟨"\x7b\"error\": \"not found\"\x7d", Scanned.valid (JDoc.object
          [("error", JVal.str "not found")])⟩)).exchange (plainRequest "GET" "http://h") =
      RoundTrip.response 404
        ⟨"\x7b\"error\": \"not found\"\x7d", Scanned.valid (JDoc.object
          [("error", JVal.str "not found")])⟩ ∧
    Client.doRequest (World.fixed (RoundTrip.response 404
        ⟨"\x7b\"error\": \"not found\"\x7d", Scanned.valid (JDoc.object
          [("error", JVal.str "not found")])⟩)) ⟨"http://h", ⟨10 * Second⟩⟩
        (plainRequest "GET" "http://h") =
      (none, some (GoErr.errorf
        "error: status: 404, body: \x7b\"error\": \"not found\"\x7d")) :=
  ⟨rfl, ((doRequest_status _ ⟨"http://h", ⟨10 * Second⟩⟩ (plainRequest "GET" "http://h") 404
    ⟨"\x7b\"error\": \"not found\"\x7d", Scanned.valid (JDoc.object
      [("error", JVal.str "not found")])⟩ rfl).2.1 (by decide)).1⟩

/-- C13: `NewClient` with a nil base URL returns no client and the error
`hostURL is required`; with a base URL `u` it returns a client whose `HostURL`
is `u` and whose HTTP timeout is exactly ten seconds. -/
theorem newClient_result (u : String) :
    NewClient none = (none, some (GoErr.errorf "hostURL is required")) ∧
    (GoErr.errorf "hostURL is required").Error = "hostURL is required" ∧
    (∃ c, NewClient (some u) = (some c, none) ∧ c.HostURL = u ∧
      c.HTTPClient.Timeout = 10 * Second) ∧
    10 * Second = 10000000000 := by
  refine ⟨rfl, rfl, ⟨_, rfl, rfl, rfl⟩, by decide⟩

/-- C14, counterexample: `NewClient` given the empty string as base URL
returns a client, with an empty `HostURL`, and no error. -/
theorem newClient_nonempty_counterexample :
    NewClient (some "") = (some ⟨"", ⟨10000000000⟩⟩, none) := by
  decide

/-- C14, amended: `NewClient` fails, returning an error and no client, exactly
when the base URL is missing (nil); for every base URL given, the empty string
included, it returns a client and no error. -/
theorem newClient_fails_iff (hostURL : Option String) :
    (((NewClient hostURL).2 ≠ none ∧ (NewClient hostURL).1 = none) ↔ hostURL = none) ∧
    (((NewClient hostURL).2 = none ∧ (NewClient hostURL).1 ≠ none) ↔ hostURL ≠ none) := by
  cases hostURL with
  | none => simp [NewClient]
  | some u => simp [NewClient]

/-! ## The resource operations: calls made and outcome -/

theorem headerSet_nil (k v : String) : headerSet [] k v = [(k, v)] := rfl

theorem getUsers_run (w : World) (c : Client) :
    c.GetUsers w =
      ⟨callsFor w (plainRequest "GET" (c.HostURL ++ "/user")),
        match w.urlError (c.HostURL ++ "/user") with
        | some err => Outcome.ret none (some err)
        | none =>
          match c.doRequest w (plainRequest "GET" (c.HostURL ++ "/user")) with
          | (_, some err) => Outcome.ret none (some err)
          | (body, none) => unmarshalUserSlice body⟩ := by
  unfold Client.GetUsers NewRequest callsFor
  cases h : w.urlError (c.HostURL ++ "/user") with
  | some err => simp only [h, plainRequest, jsonRequest]
  | none =>
    simp only [h, plainRequest, jsonRequest, headerSet_nil]
    cases hd : c.doRequest w
      ⟨"GET", c.HostURL ++ "/user", none, []⟩ with
    | mk b e => cases e <;> rfl

theorem getUserByID_run (w : World) (c : Client) (id : Int) :
    c.GetUserByID w id =
      ⟨callsFor w (plainRequest "GET" (c.HostURL ++ "/user/" ++ Itoa id)),
        match w.urlError (c.HostURL ++ "/user/" ++ Itoa id) with
        | some err => Outcome.ret none (some err)
        | none =>
          match c.doRequest w (plainRequest "GET" (c.HostURL ++ "/user/" ++ Itoa id)) with
          | (_, some err) => Outcome.ret none (some err)
          | (body, none) => unmarshalUser body⟩ := by
  unfold Client.GetUserByID NewRequest callsFor
  cases h : w.urlError (c.HostURL ++ "/user/" ++ Itoa id) with
  | some err => simp only [h, plainRequest, jsonRequest]
  | none =>
    simp only [h, plainRequest, jsonRequest, headerSet_nil]
    cases hd : c.doRequest w
      ⟨"GET", c.HostURL ++ "/user/" ++ Itoa id, none, []⟩ with
    | mk b e => cases e <;> rfl

theorem createUser_run (w : World) (c : Client) (user : User) :
    c.CreateUser w user =
      ⟨callsFor w (jsonRequest "POST" (c.HostURL ++ "/user") (User.MarshalJSON user)),
        match w.urlError (c.HostURL ++ "/user") with
        | some err => Outcome.ret none (some err)
        | none =>
          match c.doRequest w (jsonRequest "POST" (c.HostURL ++ "/user") (User.MarshalJSON user)) with
          | (_, some err) => Outcome.ret none (some err)
          | (body, none) => unmarshalUser body⟩ := by
  unfold Client.CreateUser NewRequest callsFor
  cases h : w.urlError (c.HostURL ++ "/user") with
  | some err => simp only [h, plainRequest, jsonRequest]
  | none =>
    simp only [h, plainRequest, jsonRequest, headerSet_nil]
    cases hd : c.doRequest w
      ⟨"POST", c.HostURL ++ "/user", some (User.MarshalJSON user),
      [("Content-Type", "application/json")]⟩ with
    | mk b e => cases e <;> rfl

theorem updateUser_run (w : World) (c : Client) (user : User) :
    c.UpdateUser w user =
      ⟨callsFor w (jsonRequest "PATCH" (c.HostURL ++ "/user/" ++ Itoa user.ID) (User.MarshalJSON user)),
        match w.urlError (c.HostURL ++ "/user/" ++ Itoa user.ID) with
        | some err => Outcome.ret none (some err)
        | none =>
          match c.doRequest w (jsonRequest "PATCH" (c.HostURL ++ "/user/" ++ Itoa user.ID) (User.MarshalJSON user)) with
          | (_, some err) => Outcome.ret none (some err)
          | (body, none) => unmarshalUser body⟩ := by
  unfold Client.UpdateUser NewRequest callsFor
  cases h : w.urlError (c.HostURL ++ "/user/" ++ Itoa user.ID) with
  | some err => simp only [h, plainRequest, jsonRequest]
  | none =>
    simp only [h, plainRequest, jsonRequest, headerSet_nil]
    cases hd : c.doRequest w
      ⟨"PATCH", c.HostURL ++ "/user/" ++ Itoa user.ID, some (User.MarshalJSON user),
      [("Content-Type", "application/json")]⟩ with
    | mk b e => cases e <;> rfl

theorem deleteUser_run (w : World) (c : Client) (id : Int) :
    c.DeleteUser w id =
      ⟨callsFor w (plainRequest "DELETE" (c.HostURL ++ "/user/" ++ Itoa id)),
        match w.urlError (c.HostURL ++ "/user/" ++ Itoa id) with
        | some err => Outcome.ret none (some err)
        | none =>
          match c.doRequest w (plainRequest "DELETE" (c.HostURL ++ "/user/" ++ Itoa id)) with
          | (_, some err) => Outcome.ret none (some err)
          | (_, none) => Outcome.ret none none⟩ := by
  unfold Client.DeleteUser NewRequest callsFor
  cases h : w.urlError (c.HostURL ++ "/user/" ++ Itoa id) with
  | some err => simp only [h, plainRequest, jsonRequest]
  | none =>
    simp only [h, plainRequest, jsonRequest, headerSet_nil]
    cases hd : c.doRequest w
      ⟨"DELETE", c.HostURL ++ "/user/" ++ Itoa id, none, []⟩ with
    | mk b e => cases e <;> rfl

theorem getProducts_run (w : World) (c : Client) :
    c.GetProducts w =
      ⟨callsFor w (plainRequest "GET" (c.HostURL ++ "/products")),
        match w.urlError (c.HostURL ++ "/products") with
        | some err => Outcome.ret none (some err)
        | none =>
          match c.doRequest w (plainRequest "GET" (c.HostURL ++ "/products")) with
          | (_, some err) => Outcome.ret none (some err)
          | (body, none) => unmarshalProductSlice body⟩ := by
  unfold Client.GetProducts NewRequest callsFor
  cases h : w.urlError (c.HostURL ++ "/products") with
  | some err => simp only [h, plainRequest, jsonRequest]
  | none =>
    simp only [h, plainRequest, jsonRequest, headerSet_nil]
    cases hd : c.doRequest w
      ⟨"GET", c.HostURL ++ "/products", none, []⟩ with
    | mk b e => cases e <;> rfl

theorem getProductByID_run (w : World) (c : Client) (id : Int) :
    c.GetProductByID w id =
      ⟨callsFor w (plainRequest "GET" (c.HostURL ++ "/products/" ++ Itoa id)),
        match w.urlError (c.HostURL ++ "/products/" ++ Itoa id) with
        | some err => Outcome.ret none (some err)
        | none =>
          match c.doRequest w (plainRequest "GET" (c.HostURL ++ "/products/" ++ Itoa id)) with
          | (_, some err) => Outcome.ret none (some err)
          | (body, none) => unmarshalProduct body⟩ := by
  unfold Client.GetProductByID NewRequest callsFor
  cases h : w.urlError (c.HostURL ++ "/products/" ++ Itoa id) with
  | some err => simp only [h, plainRequest, jsonRequest]
  | none =>
    simp only [h, plainRequest, jsonRequest, headerSet_nil]
    cases hd : c.doRequest w
      ⟨"GET", c.HostURL ++ "/products/" ++ Itoa id, none, []⟩ with
    | mk b e => cases e <;> rfl

theorem createProduct_run (w : World) (c : Client) (product : Product) :
    c.CreateProduct w product =
      ⟨callsFor w (jsonRequest "POST" (c.HostURL ++ "/products") (Product.MarshalJSON product)),
        match w.urlError (c.HostURL ++ "/products") with
        | some err => Outcome.ret none (some err)
        | none =>
          match c.doRequest w (jsonRequest "POST" (c.HostURL ++ "/products") (Product.MarshalJSON product)) with
          | (_, some err) => Outcome.ret none (some err)
          | (body, none) => unmarshalProduct body⟩ := by
  unfold Client.CreateProduct NewRequest callsFor
  cases h : w.urlError (c.HostURL ++ "/products") with
  | some err => simp only [h, plainRequest, jsonRequest]
  | none =>
    simp only [h, plainRequest, jsonRequest, headerSet_nil]
    cases hd : c.doRequest w
      ⟨"POST", c.HostURL ++ "/products", some (Product.MarshalJSON product),
      [("Content-Type", "application/json")]⟩ with
    | mk b e => cases e <;> rfl

theorem updateProduct_run (w : World) (c : Client) (product : Product) :
    c.UpdateProduct w product =
      ⟨callsFor w (jsonRequest "PATCH" (c.HostURL ++ "/products/" ++ Itoa product.ID) (Product.MarshalJSON product)),
        match w.urlError (c.HostURL ++ "/products/" ++ Itoa product.ID) with
        | some err => Outcome.ret none (some err)
        | none =>
          match c.doRequest w (jsonRequest "PATCH" (c.HostURL ++ "/products/" ++ Itoa product.ID) (Product.MarshalJSON product)) with
          | (_, some err) => Outcome.ret none (some err)
          | (body, none) => unmarshalProduct body⟩ := by
  unfold Client.UpdateProduct NewRequest callsFor
  cases h : w.urlError (c.HostURL ++ "/products/" ++ Itoa product.ID) with
  | some err => simp only [h, plainRequest, jsonRequest]
  | none =>
    simp only [h, plainRequest, jsonRequest, headerSet_nil]
    cases hd : c.doRequest w
      ⟨"PATCH", c.HostURL ++ "/products/" ++ Itoa product.ID, some (Product.MarshalJSON product),
      [("Content-Type", "application/json")]⟩ with
    | mk b e => cases e <;> rfl

theorem deleteProduct_run (w : World) (c : Client) (id : Int) :
    c.DeleteProduct w id =
      ⟨callsFor w (plainRequest "DELETE" (c.HostURL ++ "/products/" ++ Itoa id)),
        match w.urlError (c.HostURL ++ "/products/" ++ Itoa id) with
        | some err => Outcome.ret none (some err)
        | none =>
          match c.doRequest w (plainRequest "DELETE" (c.HostURL ++ "/products/" ++ Itoa id)) with
          | (_, some err) => Outcome.ret none (some err)
          | (_, none) => Outcome.ret none none⟩ := by
  unfold Client.DeleteProduct NewRequest callsFor
  cases h : w.urlError (c.HostURL ++ "/products/" ++ Itoa id) with
  | some err => simp only [h, plainRequest, jsonRequest]
  | none =>
    simp only [h, plainRequest, jsonRequest, headerSet_nil]
    cases hd : c.doRequest w
      ⟨"DELETE", c.HostURL ++ "/products/" ++ Itoa id, none, []⟩ with
    | mk b e => cases e <;> rfl

theorem build_compose {α : Type} (w : World) (c : Client) (req : Request)
    (dec : Option Body → Outcome α) (run : Run α)
    (h : run =
      ⟨callsFor w req,
        match w.urlError req.URL with
        | some err => Outcome.ret none (some err)
        | none =>
          match c.doRequest w req with
          | (_, some err) => Outcome.ret none (some err)
          | (body, none) => dec body⟩) :
    BuildTransportDecode w c req dec run := by
  subst h
  constructor
  · intro err he
    simp only [he, callsFor]
    refine ⟨trivial, ?_⟩
    intro r hr
    simp at hr
  · intro hn
    simp only [hn]
    cases hd : c.doRequest w req with
    | mk b e =>
      cases e with
      | none =>
        constructor
        · intro err he
          simp at he
        · intro _
          rfl
      | some e =>
        constructor
        · intro err he
          simp only [Option.some.injEq] at he
          subst he
          rfl
        · intro he
          simp at he

/-- C12, counterexample: in a world where the URL text built by `GetUserByID`
does not parse (it holds a line feed), the operation returns the error of
`http.NewRequest` and makes no round trip, although the network would have
answered 200 with a `User` object: the outcome is neither a transport error
nor the decode of a body. -/
theorem operations_compose_counterexample :
    Client.GetUserByID
        (World.rejecting "http://h\n/user/1"
          (GoErr.lib "parse \"http://h\\n/user/1\": net/url: invalid control character in URL")
          (RoundTrip.response 200
            ⟨"\x7b\"id\":\"1\"\x7d", Scanned.valid (JDoc.object [("id", JVal.str "1")])⟩))
        ⟨"http://h\n", ⟨10 * Second⟩⟩ 1 =
      ⟨[Call.newRequest "GET" "http://h\n/user/1" none],
        Outcome.ret none (some (GoErr.lib
          "parse \"http://h\\n/user/1\": net/url: invalid control character in URL"))⟩ ∧
    unmarshalUser (some
        ⟨"\x7b\"id\":\"1\"\x7d", Scanned.valid (JDoc.object [("id", JVal.str "1")])⟩) =
      Outcome.ret (some ⟨1, "", "", "", "", ""⟩) none := by
  decide

/-- C12, amended: every resource operation is the building of its request,
then the transport step, then the decode step, with errors passed through
unchanged. When the request cannot be built, its URL not parsing, the
operation returns that error and makes no round trip. Otherwise, for list,
get, create and update, a failing transport step makes the operation return no
record and exactly that error (a 404 with body `b` gives
`error: status: 404, body: <b>`), and a successful one makes it give exactly
what decoding the body gives; delete returns exactly the error or success of
the transport step and decodes nothing, so a 204 is success whatever the
body. -/
theorem operations_compose (w : World) (c : Client) (id : Int) (user : User)
    (product : Product) :
    BuildTransportDecode w c
      (plainRequest "GET" (c.HostURL ++ "/user")) unmarshalUserSlice
      (c.GetUsers w) ∧
    BuildTransportDecode w c
      (plainRequest "GET" (c.HostURL ++ "/user/" ++ Itoa id)) unmarshalUser
      (c.GetUserByID w id) ∧
    BuildTransportDecode w c
      (jsonRequest "POST" (c.HostURL ++ "/user")
        (User.MarshalJSON user)) unmarshalUser
      (c.CreateUser w user) ∧
    BuildTransportDecode w c
      (jsonRequest "PATCH" (c.HostURL ++ "/user/" ++ Itoa user.ID)
        (User.MarshalJSON user)) unmarshalUser
      (c.UpdateUser w user) ∧
    BuildTransportDecode w c
      (plainRequest "DELETE" (c.HostURL ++ "/user/" ++ Itoa id)) (fun _ => Outcome.ret none none)
      (c.DeleteUser w id) ∧
    BuildTransportDecode w c
      (plainRequest "GET" (c.HostURL ++ "/products")) unmarshalProductSlice
      (c.GetProducts w) ∧
    BuildTransportDecode w c
      (plainRequest "GET" (c.HostURL ++ "/products/" ++ Itoa id)) unmarshalProduct
      (c.GetProductByID w id) ∧
    BuildTransportDecode w c
      (jsonRequest "POST" (c.HostURL ++ "/products")
        (Product.MarshalJSON product)) unmarshalProduct
      (c.CreateProduct w product) ∧
    BuildTransportDecode w c
      (jsonRequest "PATCH" (c.HostURL ++ "/products/" ++ Itoa product.ID)
        (Product.MarshalJSON product)) unmarshalProduct
      (c.UpdateProduct w product) ∧
    BuildTransportDecode w c
      (plainRequest "DELETE" (c.HostURL ++ "/products/" ++ Itoa id)) (fun _ => Outcome.ret none none)
      (c.DeleteProduct w id) ∧
    (∀ b, w.urlError (c.HostURL ++ "/user/" ++ Itoa id) = none →
      w.exchange (plainRequest "GET" (c.HostURL ++ "/user/" ++ Itoa id)) =
        RoundTrip.response 404 b →
      (c.GetUserByID w id).out =
        Outcome.ret none (some (GoErr.errorf ("error: status: 404, body: " ++ b.text)))) ∧
    (∀ b, w.urlError (c.HostURL ++ "/user/" ++ Itoa id) = none →
      w.exchange (plainRequest "DELETE" (c.HostURL ++ "/user/" ++ Itoa id)) =
        RoundTrip.response 204 b →
      (c.DeleteUser w id).out = Outcome.ret none none) := by
  refine ⟨build_compose _ _ _ _ _ (getUsers_run w c),
    build_compose _ _ _ _ _ (getUserByID_run w c id),
    build_compose _ _ _ _ _ (createUser_run w c user),
    build_compose _ _ _ _ _ (updateUser_run w c user),
    build_compose _ _ _ _ _ (deleteUser_run w c id),
    build_compose _ _ _ _ _ (getProducts_run w c),
    build_compose _ _ _ _ _ (getProductByID_run w c id),
    build_compose _ _ _ _ _ (createProduct_run w c product),
    build_compose _ _ _ _ _ (updateProduct_run w c product),
    build_compose _ _ _ _ _ (deleteProduct_run w c id), ?_, ?_⟩
  · intro b hu hx
    rw [getUserByID_run]
    simp only [hu, Client.doRequest, hx]
    rfl
  · intro b hu hx
    rw [deleteUser_run]
    simp only [hu, Client.doRequest, hx]
    rfl

/-- Witness of C12 (amended): a 404 answer to `GetUserByID`, and a 204 answer
with an empty body to `DeleteUser`. -/
theorem operations_compose_witness :
    Run.out (Client.GetUserByID
        (World.fixed (RoundTrip.response 404
          ⟨"not here", Scanned.invalid "invalid character 'o' in literal null (expecting 'u')"⟩))
        ⟨"http://h", ⟨10 * Second⟩⟩ 1) =
      Outcome.ret none (some (GoErr.errorf ("error: status: 404, body: " ++ "not here"))) ∧
    Run.out (Client.DeleteUser
        (World.fixed (RoundTrip.response 204 ⟨"", Scanned.invalid "unexpected end of JSON input"⟩))
        ⟨"http://h", ⟨10 * Second⟩⟩ 1) = Outcome.ret none none :=
  ⟨(operations_compose _ ⟨"http://h", ⟨10 * Second⟩⟩ 1 User.zero Product.zero).2.2.2.2.2.2.2.2.2.2.1
      _ rfl rfl,
    (operations_compose _ ⟨"http://h", ⟨10 * Second⟩⟩ 1 User.zero Product.zero).2.2.2.2.2.2.2.2.2.2.2
      _ rfl rfl⟩

/-- C15: every operation builds its request by the endpoint table. Whatever
the base URL `H` of the client and the integer `id`, the operation calls
`http.NewRequest` with the method and URL of the table, the id written in
base 10, and, when that URL parses, sends that request: without body and
header for list, get and delete; for create and update with the encoded record
as body and `Content-Type: application/json`, update taking the id from the
record sent. -/
theorem requests_follow_table (w : World) (c : Client) (id : Int) (user : User)
    (product : Product) :
    (c.GetUsers w).calls =
      callsFor w (plainRequest "GET" (c.HostURL ++ "/user")) ∧
    (c.GetUserByID w id).calls =
      callsFor w (plainRequest "GET" (c.HostURL ++ "/user/" ++ Itoa id)) ∧
    (c.CreateUser w user).calls =
      callsFor w (jsonRequest "POST" (c.HostURL ++ "/user")
        (User.MarshalJSON user)) ∧
    (c.UpdateUser w user).calls =
      callsFor w (jsonRequest "PATCH" (c.HostURL ++ "/user/" ++ Itoa user.ID)
        (User.MarshalJSON user)) ∧
    (c.DeleteUser w id).calls =
      callsFor w (plainRequest "DELETE" (c.HostURL ++ "/user/" ++ Itoa id)) ∧
    (c.GetProducts w).calls =
      callsFor w (plainRequest "GET" (c.HostURL ++ "/products")) ∧
    (c.GetProductByID w id).calls =
      callsFor w (plainRequest "GET" (c.HostURL ++ "/products/" ++ Itoa id)) ∧
    (c.CreateProduct w product).calls =
      callsFor w (jsonRequest "POST" (c.HostURL ++ "/products")
        (Product.MarshalJSON product)) ∧
    (c.UpdateProduct w product).calls =
      callsFor w (jsonRequest "PATCH" (c.HostURL ++ "/products/" ++ Itoa product.ID)
        (Product.MarshalJSON product)) ∧
    (c.DeleteProduct w id).calls =
      callsFor w (plainRequest "DELETE" (c.HostURL ++ "/products/" ++ Itoa id)) ∧
    DenotesInt (Itoa id) id ∧ DenotesInt (Itoa user.ID) user.ID ∧
    DenotesInt (Itoa product.ID) product.ID :=
  ⟨by rw [getUsers_run],
    by rw [getUserByID_run],
    by rw [createUser_run],
    by rw [updateUser_run],
    by rw [deleteUser_run],
    by rw [getProducts_run],
    by rw [getProductByID_run],
    by rw [createProduct_run],
    by rw [updateProduct_run],
    by rw [deleteProduct_run],
    denotesInt_Itoa _, denotesInt_Itoa _, denotesInt_Itoa _⟩

/-! ## Decoding a JSON array -/

theorem unmarshalProductElems_ok (es : List Members) (acc : List Product)
    (h : ∀ e ∈ es, (Product.UnmarshalJSON Product.zero e).2 = none) :
    unmarshalProductElems (es.map JElem.object) acc =
      some (acc ++ es.map (fun e => (Product.UnmarshalJSON Product.zero e).1), none) := by
  induction es generalizing acc with
  | nil => simp [unmarshalProductElems]
  | cons e es ih =>
    have he := h e (by simp)
    simp only [List.map_cons, unmarshalProductElems, Product.unmarshalElem]
    cases hr : Product.UnmarshalJSON Product.zero e with
    | mk t o =>
      rw [hr] at he
      simp only at he
      subst he
      simp only
      rw [ih _ (fun x hx => h x (by simp [hx]))]
      simp

theorem unmarshalProductElems_fail (pre post : List Members) (e : Members) (err : GoErr)
    (acc : List Product)
    (hpre : ∀ x ∈ pre, (Product.UnmarshalJSON Product.zero x).2 = none)
    (he : (Product.UnmarshalJSON Product.zero e).2 = some err) :
    ∃ l, unmarshalProductElems ((pre ++ e :: post).map JElem.object) acc =
      some (l, some err) := by
  induction pre generalizing acc with
  | nil =>
    simp only [List.nil_append, List.map_cons, unmarshalProductElems, Product.unmarshalElem]
    cases hr : Product.UnmarshalJSON Product.zero e with
    | mk t o =>
      rw [hr] at he
      simp only at he
      subst he
      exact ⟨_, rfl⟩
  | cons x xs ih =>
    have hx := hpre x (by simp)
    simp only [List.cons_append, List.map_cons, unmarshalProductElems, Product.unmarshalElem]
    cases hr : Product.UnmarshalJSON Product.zero x with
    | mk t o =>
      rw [hr] at hx
      simp only at hx
      subst hx
      exact ih _ (fun y hy => hpre y (by simp [hy]))

theorem unmarshalUserElems_ok (es : List Members) (acc : List User)
    (h : ∀ e ∈ es, (User.UnmarshalJSON User.zero e).2 = none) :
    unmarshalUserElems (es.map JElem.object) acc =
      some (acc ++ es.map (fun e => (User.UnmarshalJSON User.zero e).1), none) := by
  induction es generalizing acc with
  | nil => simp [unmarshalUserElems]
  | cons e es ih =>
    have he := h e (by simp)
    simp only [List.map_cons, unmarshalUserElems, User.unmarshalElem]
    cases hr : User.UnmarshalJSON User.zero e with
    | mk t o =>
      rw [hr] at he
      simp only at he
      subst he
      simp only
      rw [ih _ (fun x hx => h x (by simp [hx]))]
      simp

theorem unmarshalUserElems_fail (pre post : List Members) (e : Members) (err : GoErr)
    (acc : List User)
    (hpre : ∀ x ∈ pre, (User.UnmarshalJSON User.zero x).2 = none)
    (he : (User.UnmarshalJSON User.zero e).2 = some err) :
    ∃ l, unmarshalUserElems ((pre ++ e :: post).map JElem.object) acc =
      some (l, some err) := by
  induction pre generalizing acc with
  | nil =>
    simp only [List.nil_append, List.map_cons, unmarshalUserElems, User.unmarshalElem]
    cases hr : User.UnmarshalJSON User.zero e with
    | mk t o =>
      rw [hr] at he
      simp only at he
      subst he
      exact ⟨_, rfl⟩
  | cons x xs ih =>
    have hx := hpre x (by simp)
    simp only [List.cons_append, List.map_cons, unmarshalUserElems, User.unmarshalElem]
    cases hr : User.UnmarshalJSON User.zero x with
    | mk t o =>
      rw [hr] at hx
      simp only at hx
      subst hx
      exact ih _ (fun y hy => hpre y (by simp [hy]))

/-- C10: the decode of the list operations is element-wise and
all-or-nothing. On a body that is a JSON array of objects, the decode that
`GetProducts` and `GetUsers` run on the body returned by the transport step
gives, when every element decodes, the list of the single-object decodes, in
the same order and of the same length; when some element fails, it gives no
list and the error of the first failing element. -/
theorem list_decode (w : World) (c : Client) (body : Body) (es : List Members)
    (hscan : body.scanned = Scanned.valid (JDoc.array (es.map JElem.object))) :
    ((∀ e ∈ es, (Product.UnmarshalJSON Product.zero e).2 = none) →
      unmarshalProductSlice (some body) =
        Outcome.ret (some (es.map (fun e => (Product.UnmarshalJSON Product.zero e).1))) none ∧
      (es.map (fun e => (Product.UnmarshalJSON Product.zero e).1)).length = es.length) ∧
    (∀ pre e post err, es = pre ++ e :: post →
      (∀ x ∈ pre, (Product.UnmarshalJSON Product.zero x).2 = none) →
      (Product.UnmarshalJSON Product.zero e).2 = some err →
      unmarshalProductSlice (some body) = Outcome.ret none (some err)) ∧
    ((∀ e ∈ es, (User.UnmarshalJSON User.zero e).2 = none) →
      unmarshalUserSlice (some body) =
        Outcome.ret (some (es.map (fun e => (User.UnmarshalJSON User.zero e).1))) none ∧
      (es.map (fun e => (User.UnmarshalJSON User.zero e).1)).length = es.length) ∧
    (∀ pre e post err, es = pre ++ e :: post →
      (∀ x ∈ pre, (User.UnmarshalJSON User.zero x).2 = none) →
      (User.UnmarshalJSON User.zero e).2 = some err →
      unmarshalUserSlice (some body) = Outcome.ret none (some err)) ∧
    (w.urlError (c.HostURL ++ "/products") = none →
      c.doRequest w (plainRequest "GET" (c.HostURL ++ "/products")) = (some body, none) →
      (c.GetProducts w).out = unmarshalProductSlice (some body)) ∧
    (w.urlError (c.HostURL ++ "/user") = none →
      c.doRequest w (plainRequest "GET" (c.HostURL ++ "/user")) = (some body, none) →
      (c.GetUsers w).out = unmarshalUserSlice (some body)) := by
  refine ⟨?_, ?_, ?_, ?_, ?_, ?_⟩
  · intro h
    refine ⟨?_, List.length_map _ _⟩
    simp only [unmarshalProductSlice, scanBody, hscan, unmarshalProductElems_ok es [] h,
      List.nil_append]
  · rintro pre e post err rfl hpre he
    obtain ⟨l, hl⟩ := unmarshalProductElems_fail pre post e err [] hpre he
    simp only [unmarshalProductSlice, scanBody, hscan, hl]
  · intro h
    refine ⟨?_, List.length_map _ _⟩
    simp only [unmarshalUserSlice, scanBody, hscan, unmarshalUserElems_ok es [] h,
      List.nil_append]
  · rintro pre e post err rfl hpre he
    obtain ⟨l, hl⟩ := unmarshalUserElems_fail pre post e err [] hpre he
    simp only [unmarshalUserSlice, scanBody, hscan, hl]
  · intro hu hd
    rw [getProducts_run]
    simp only [hu, hd]
  · intro hu hd
    rw [getUsers_run]
    simp only [hu, hd]

/-- Witness of C10: a 200 answer to `GetProducts` whose body is an array with a
second element of id `x`; the operation returns no list and `invalid id: x`. -/
theorem list_decode_witness :
    listBodyBadID.scanned =
      Scanned.valid (JDoc.array (List.map JElem.object
        [[("id", JVal.str "1"), ("stock", JVal.str "50"), ("price", JVal.str "10.00")],
          [("id", JVal.str "x"), ("stock", JVal.str "30"), ("price", JVal.str "20.00")]])) ∧
    unmarshalProductSlice (some listBodyBadID) =
      Outcome.ret none (some (GoErr.errorf "invalid id: x")) ∧
    Run.out (Client.GetProducts (World.fixed (RoundTrip.response 200 listBodyBadID))
        ⟨"http://h", ⟨10 * Second⟩⟩) =
      unmarshalProductSlice (some listBodyBadID) :=
  ⟨rfl,
    (list_decode (World.fixed (RoundTrip.response 200 listBodyBadID))
      ⟨"http://h", ⟨10 * Second⟩⟩ listBodyBadID
      [[("id", JVal.str "1"), ("stock", JVal.str "50"), ("price", JVal.str "10.00")],
        [("id", JVal.str "x"), ("stock", JVal.str "30"), ("price", JVal.str "20.00")]] rfl).2.1
      [[("id", JVal.str "1"), ("stock", JVal.str "50"), ("price", JVal.str "10.00")]]
      [("id", JVal.str "x"), ("stock", JVal.str "30"), ("price", JVal.str "20.00")] []
      (GoErr.errorf "invalid id: x") rfl (by decide) (by decide),
    (list_decode (World.fixed (RoundTrip.response 200 listBodyBadID))
      ⟨"http://h", ⟨10 * Second⟩⟩ listBodyBadID
      [[("id", JVal.str "1"), ("stock", JVal.str "50"), ("price", JVal.str "10.00")],
        [("id", JVal.str "x"), ("stock", JVal.str "30"), ("price", JVal.str "20.00")]]
      rfl).2.2.2.2.1 rfl rfl⟩

/-! ## Decoding into a target that is not fresh -/

theorem lookupField_present (name : String) (ms : Members) (hs : AllStrings ms)
    (hp : ¬ Absent name ms) (d d' : GoString) :
    lookupField name ms d = lookupField name ms d' := by
  induction ms generalizing d d' with
  | nil => exact absurd (absent_nil name) hp
  | cons m ms ih =>
    obtain ⟨⟨s, hm⟩, hrest⟩ := allStrings_cons m ms hs
    rw [lookupField_cons, lookupField_cons]
    by_cases ha : Absent name ms
    · have hk : keyIs m.1 name = true := by
        cases hk : keyIs m.1 name with
        | true => rfl
        | false => exact absurd ((absent_cons name m ms).2 ⟨hk, ha⟩) hp
      simp only [hk, if_true, hm]
    · exact ih hrest ha _ _

theorem product_unmarshal_nil (t : Product) :
    Product.UnmarshalJSON t [] = (t, some (GoErr.errorf "invalid id: ")) := by
  rfl

/-- C16: `Product.UnmarshalJSON` is not atomic on its target. On a wire object
whose members are JSON strings, with a valid id and an invalid stock, decoding
into any target `t` fails with `invalid stock: <raw stock>` and leaves `t` with
the parsed id, with every plain string field set from the input where the
input has it, and with its prior stock and price. A plain string field present
in the input is overwritten with the input value and one absent from the input
keeps the prior value of the target, also on success. The result is the same
as for a fresh target on every input only when the target is the zero
record. -/
theorem product_decode_not_atomic (t : Product) (ms : Members) (hs : AllStrings ms) :
    (∀ i, DenotesInt (lookupStr "id" ms "") i → IsGoInt i →
      ¬ IsBase10Int (lookupStr "stock" ms "") →
      Product.UnmarshalJSON t ms =
        (⟨i, lookupField "name" ms t.Name, t.Price, t.Stock,
          lookupField "createdAt" ms t.CreatedAt, lookupField "type" ms t.Typ,
          lookupField "department" ms t.Department⟩,
          some (GoErr.errorf ("invalid stock: " ++ lookupStr "stock" ms "")))) ∧
    ((¬ Absent "name" ms → (Product.UnmarshalJSON t ms).1.Name = lookupField "name" ms "") ∧
      (¬ Absent "createdAt" ms →
        (Product.UnmarshalJSON t ms).1.CreatedAt = lookupField "createdAt" ms "") ∧
      (¬ Absent "type" ms → (Product.UnmarshalJSON t ms).1.Typ = lookupField "type" ms "") ∧
      (¬ Absent "department" ms →
        (Product.UnmarshalJSON t ms).1.Department = lookupField "department" ms "")) ∧
    ((Absent "name" ms → (Product.UnmarshalJSON t ms).1.Name = t.Name) ∧
      (Absent "createdAt" ms → (Product.UnmarshalJSON t ms).1.CreatedAt = t.CreatedAt) ∧
      (Absent "type" ms → (Product.UnmarshalJSON t ms).1.Typ = t.Typ) ∧
      (Absent "department" ms → (Product.UnmarshalJSON t ms).1.Department = t.Department)) ∧
    ((∀ ms', AllStrings ms' →
        Product.UnmarshalJSON t ms' = Product.UnmarshalJSON Product.zero ms') ↔
      t = Product.zero) := by
  obtain ⟨h1, h2, h3, h4⟩ := product_unmarshal_fields t ms hs
  refine ⟨?_, ⟨?_, ?_, ?_, ?_⟩, ⟨?_, ?_, ?_, ?_⟩, ?_⟩
  · intro i hi hr hst
    rw [product_unmarshal_strings t ms hs, (Atoi_eq_some _ i).2 ⟨hi, hr⟩,
      (Atoi_eq_none _).2 hst]
  · intro h
    rw [h1]
    exact lookupField_present _ ms hs h _ _
  · intro h
    rw [h2]
    exact lookupField_present _ ms hs h _ _
  · intro h
    rw [h3]
    exact lookupField_present _ ms hs h _ _
  · intro h
    rw [h4]
    exact lookupField_present _ ms hs h _ _
  · intro h
    rw [h1]
    exact lookupField_absent _ _ ms h
  · intro h
    rw [h2]
    exact lookupField_absent _ _ ms h
  · intro h
    rw [h3]
    exact lookupField_absent _ _ ms h
  · intro h
    rw [h4]
    exact lookupField_absent _ _ ms h
  · constructor
    · intro h
      have h0 := h [] (by intro m hm; simp at hm)
      rw [product_unmarshal_nil, product_unmarshal_nil] at h0
      exact (Prod.mk.inj h0).1
    · rintro rfl ms' _
      rfl

/-- Witness of C16: a target with id 9, name `old`, price 19.99 and stock 7
decoded from an object with id `1`, stock `x` and name `New`. -/
theorem product_decode_not_atomic_witness :
    AllStrings [("id", JVal.str "1"), ("stock", JVal.str "x"), ("name", JVal.str "New")] ∧
    Product.UnmarshalJSON ⟨9, "old", ⟨false, 1027, 1123085157075517⟩, 7, "c", "t", "d"⟩
        [("id", JVal.str "1"), ("stock", JVal.str "x"), ("name", JVal.str "New")] =
      (⟨1, "New", ⟨false, 1027, 1123085157075517⟩, 7, "c", "t", "d"⟩,
        some (GoErr.errorf "invalid stock: x")) :=
  ⟨by decide,
    (product_decode_not_atomic ⟨9, "old", ⟨false, 1027, 1123085157075517⟩, 7, "c", "t", "d"⟩
      [("id", JVal.str "1"), ("stock", JVal.str "x"), ("name", JVal.str "New")]
      (by decide)).1 1 ((Atoi_eq_some "1" 1).1 (by decide)).1 (by decide)
      ((Atoi_eq_none _).1 (by decide))⟩

/-! ## Members that are not JSON strings -/

theorem storeString_saved (field : String) (v : JVal) (cur : String) (e : GoErr) :
    (storeString field v cur (some e)).2 = some e := by
  cases v <;> rfl

theorem storeString_isTypeErr (field : String) (v : JVal) (cur : String)
    (saved : Option GoErr) (h : ∀ e, saved = some e → e.isTypeErr = true) :
    ∀ e, (storeString field v cur saved).2 = some e → e.isTypeErr = true := by
  intro e he
  cases v <;> cases saved <;> simp only [storeString, JVal.kind] at he <;>
    first
    | exact h e he
    | (simp only [Option.some.injEq] at he; subst he; rfl)

theorem storeField_saved (field : String) (v : JVal) (cur : GoString) (e : GoErr) :
    (storeField field v cur (some e)).2 = some e := by
  cases v <;> rfl

theorem storeField_isTypeErr (field : String) (v : JVal) (cur : GoString)
    (saved : Option GoErr) (h : ∀ e, saved = some e → e.isTypeErr = true) :
    ∀ e, (storeField field v cur saved).2 = some e → e.isTypeErr = true := by
  intro e he
  cases v <;> cases saved <;> simp only [storeField, JVal.kind] at he <;>
    first
    | exact h e he
    | (simp only [Option.some.injEq] at he; subst he; rfl)

theorem storeString_num (field lit cur : String) (saved : Option GoErr) :
    (storeString field (JVal.num lit) cur saved).2 ≠ none := by
  cases saved <;> simp [storeString]

theorem userTemp_setMember_saved (st : UserTemp × Option GoErr) (m : String × JVal)
    (e : GoErr) (h : st.2 = some e) : (UserTemp.setMember st m).2 = some e := by
  unfold UserTemp.setMember
  rw [h]
  split_ifs <;>
    first | exact storeString_saved _ _ _ _ | exact storeField_saved _ _ _ _ | exact h

theorem userTemp_setMember_isTypeErr (st : UserTemp × Option GoErr) (m : String × JVal)
    (h : ∀ e, st.2 = some e → e.isTypeErr = true) :
    ∀ e, (UserTemp.setMember st m).2 = some e → e.isTypeErr = true := by
  unfold UserTemp.setMember
  split_ifs <;>
    first
    | exact storeString_isTypeErr _ _ _ _ h
    | exact storeField_isTypeErr _ _ _ _ h
    | exact h

theorem userTemp_foldl_saved (ms : Members) (st : UserTemp × Option GoErr) (e : GoErr)
    (h : st.2 = some e) : (ms.foldl UserTemp.setMember st).2 = some e := by
  induction ms generalizing st with
  | nil => exact h
  | cons m ms ih => exact ih _ (userTemp_setMember_saved st m e h)

theorem userTemp_foldl_number (ms : Members) (st : UserTemp × Option GoErr)
    (hinv : ∀ e, st.2 = some e → e.isTypeErr = true) (hn : HasNumber "id" ms) :
    ∃ e, (ms.foldl UserTemp.setMember st).2 = some e ∧ e.isTypeErr = true := by
  induction ms generalizing st with
  | nil =>
    obtain ⟨m, hm, -⟩ := hn
    simp at hm
  | cons m ms ih =>
    rw [List.foldl_cons]
    have hinv' := userTemp_setMember_isTypeErr st m hinv
    obtain ⟨x, hx, hk, lit, hv⟩ := hn
    rcases List.mem_cons.1 hx with rfl | hx
    · have hsome : (UserTemp.setMember st x).2 ≠ none := by
        unfold UserTemp.setMember
        rw [if_pos hk, hv]
        exact storeString_num _ _ _ _
      cases hs : (UserTemp.setMember st x).2 with
      | none => exact absurd hs hsome
      | some e => exact ⟨e, userTemp_foldl_saved ms _ e hs, hinv' e hs⟩
    · exact ih _ hinv' ⟨x, hx, hk, lit, hv⟩

theorem productTemp_setMember_saved (st : ProductTemp × Option GoErr) (m : String × JVal)
    (e : GoErr) (h : st.2 = some e) : (ProductTemp.setMember st m).2 = some e := by
  unfold ProductTemp.setMember
  rw [h]
  split_ifs <;>
    first | exact storeString_saved _ _ _ _ | exact storeField_saved _ _ _ _ | exact h

theorem productTemp_setMember_isTypeErr (st : ProductTemp × Option GoErr)
    (m : String × JVal) (h : ∀ e, st.2 = some e → e.isTypeErr = true) :
    ∀ e, (ProductTemp.setMember st m).2 = some e → e.isTypeErr = true := by
  unfold ProductTemp.setMember
  split_ifs <;>
    first
    | exact storeString_isTypeErr _ _ _ _ h
    | exact storeField_isTypeErr _ _ _ _ h
    | exact h

theorem productTemp_foldl_saved (ms : Members) (st : ProductTemp × Option GoErr) (e : GoErr)
    (h : st.2 = some e) : (ms.foldl ProductTemp.setMember st).2 = some e := by
  induction ms generalizing st with
  | nil => exact h
  | cons m ms ih => exact ih _ (productTemp_setMember_saved st m e h)

theorem productTemp_setMember_number (st : ProductTemp × Option GoErr) (k lit : String)
    (hk : keyIs k "id" = true ∨ keyIs k "price" = true ∨ keyIs k "stock" = true) :
    (ProductTemp.setMember st (k, JVal.num lit)).2 ≠ none := by
  unfold ProductTemp.setMember
  rcases product_key_cases k with h | h | h | h | h | h | h | h <;>
    obtain ⟨h1, h2, h3, h4, h5, h6, h7⟩ := h <;>
    simp only [h1, h2, h3, h4, h5, h6, h7, if_true, if_false, Bool.false_eq_true] <;>
    first
    | exact storeString_num _ _ _ _
    | (rw [h1, h2, h3] at hk; simp at hk)

theorem productTemp_foldl_number (ms : Members) (st : ProductTemp × Option GoErr)
    (hinv : ∀ e, st.2 = some e → e.isTypeErr = true)
    (hn : HasNumber "id" ms ∨ HasNumber "price" ms ∨ HasNumber "stock" ms) :
    ∃ e, (ms.foldl ProductTemp.setMember st).2 = some e ∧ e.isTypeErr = true := by
  have hn' : ∃ m ∈ ms, (keyIs m.1 "id" = true ∨ keyIs m.1 "price" = true ∨
      keyIs m.1 "stock" = true) ∧ ∃ lit, m.2 = JVal.num lit := by
    rcases hn with ⟨m, hm, hk, hl⟩ | ⟨m, hm, hk, hl⟩ | ⟨m, hm, hk, hl⟩
    · exact ⟨m, hm, Or.inl hk, hl⟩
    · exact ⟨m, hm, Or.inr (Or.inl hk), hl⟩
    · exact ⟨m, hm, Or.inr (Or.inr hk), hl⟩
  clear hn
  induction ms generalizing st with
  | nil =>
    obtain ⟨m, hm, -⟩ := hn'
    simp at hm
  | cons m ms ih =>
    rw [List.foldl_cons]
    have hinv' := productTemp_setMember_isTypeErr st m hinv
    obtain ⟨x, hx, hk, lit, hv⟩ := hn'
    rcases List.mem_cons.1 hx with rfl | hx
    · have hsome : (ProductTemp.setMember st x).2 ≠ none := by
        obtain ⟨k, v⟩ := x
        simp only at hv hk
        subst hv
        exact productTemp_setMember_number st k lit hk
      cases hs : (ProductTemp.setMember st x).2 with
      | none => exact absurd hs hsome
      | some e => exact ⟨e, productTemp_foldl_saved ms _ e hs, hinv' e hs⟩
    · exact ih _ hinv' ⟨x, hx, hk, lit, hv⟩

/-- C17: numeric fields are accepted on the wire only as JSON strings. Decoding
a wire object whose `id` member, or for `Product` whose `id`, `price` or
`stock` member, is a JSON number fails, whatever the other members are, and
the error is a type error of `encoding/json`, not a value of `fmt.Errorf` such
as `invalid id: ...`; for the object holding the number 1 as `id` and nothing
else it is the type error for a number met by field `id`. -/
theorem numbers_rejected (u : User) (p : Product) (ms : Members) :
    (HasNumber "id" ms →
      ∃ t e, User.UnmarshalJSON u ms = (t, some e) ∧ e.isTypeErr = true ∧
        ∀ msg, e ≠ GoErr.errorf msg) ∧
    (HasNumber "id" ms ∨ HasNumber "price" ms ∨ HasNumber "stock" ms →
      ∃ t e, Product.UnmarshalJSON p ms = (t, some e) ∧ e.isTypeErr = true ∧
        ∀ msg, e ≠ GoErr.errorf msg) ∧
    User.UnmarshalJSON u [("id", JVal.num "1")] = (u, some (GoErr.typeErr "number" "id")) ∧
    Product.UnmarshalJSON p [("id", JVal.num "1")] =
      (p, some (GoErr.typeErr "number" "id")) ∧
    (GoErr.typeErr "number" "id").Error =
      "json: cannot unmarshal number into Go struct field .id of type string" := by
  refine ⟨?_, ?_, rfl, rfl, by decide⟩
  · intro hn
    obtain ⟨e, he, ht⟩ := userTemp_foldl_number ms ({ ID := "", Alias := u }, none)
      (by intro e h; simp at h) hn
    refine ⟨(ms.foldl UserTemp.setMember ({ ID := "", Alias := u }, none)).1.Alias, e,
      ?_, ht, ?_⟩
    · unfold User.UnmarshalJSON UserTemp.unmarshal
      simp only [he]
    · intro msg hmsg
      rw [hmsg] at ht
      exact absurd ht (by simp [GoErr.isTypeErr])
  · intro hn
    obtain ⟨e, he, ht⟩ := productTemp_foldl_number ms
      ({ ID := "", Price := "", Stock := "", Alias := p }, none)
      (by intro e h; simp at h) hn
    refine ⟨(ms.foldl ProductTemp.setMember
      ({ ID := "", Price := "", Stock := "", Alias := p }, none)).1.Alias, e, ?_, ht, ?_⟩
    · unfold Product.UnmarshalJSON ProductTemp.unmarshal
      simp only [he]
    · intro msg hmsg
      rw [hmsg] at ht
      exact absurd ht (by simp [GoErr.isTypeErr])

/-- Witness of C17: a Product object with the number 100 as stock, after a
valid id. -/
theorem numbers_rejected_witness :
    HasNumber "stock" [("id", JVal.str "1"), ("stock", JVal.num "100")] ∧
    ∃ t e, Product.UnmarshalJSON Product.zero
        [("id", JVal.str "1"), ("stock", JVal.num "100")] = (t, some e) ∧
      e.isTypeErr = true ∧ ∀ msg, e ≠ GoErr.errorf msg :=
  ⟨⟨("stock", JVal.num "100"), by simp, by decide, "100", rfl⟩,
    (numbers_rejected User.zero Product.zero
      [("id", JVal.str "1"), ("stock", JVal.num "100")]).2.1
      (Or.inr (Or.inr ⟨("stock", JVal.num "100"), by simp, by decide, "100", rfl⟩))⟩

end MockClient
